import Mathlib

/-!
# Cute Framework: the server's client slot table and receive step

A shallow embedding of `src/src/cute_server.cpp` (with `cute_server.h`).
The per-client arrays of `server_t` are total maps from the slot index,
`client_count` is the number of slots handed out so far, and every call that
leaves the translation unit (socket, crypto, serialisation, handle table,
packet queue) is either a field of `net_env` or a definition whose doc
comment says what it stands for.
-/

namespace Cute

/-! ## Constants -/

/-- The `CUTE_SERVER_MAX_CLIENTS` of cute_server.h: the length of every per-client array. -/
def CUTE_SERVER_MAX_CLIENTS : Nat := 256

/-- The `UINT32_MAX` of stdint.h, the "no client" result. -/
def UINT32_MAX : Nat := 4294967295

/-! ## Data model -/

/-- Modelled from the spec: `endpoint_t` is declared in cute_net.h, which is not
among the sources. Section 3: a transport address (family, host, port), a value
type. -/
structure endpoint_t where
  type : Nat
  host : List Nat
  port : Nat
deriving DecidableEq, Repr

/-- Modelled from the spec: `endpoint_equals` is declared in cute_net.h, which is
not among the sources. Section 3: endpoints are compared by equality. -/
def endpoint_equals (a b : endpoint_t) : Bool := decide (a = b)

/-- The `crypto_key_t` of cute_crypto.h: a fixed-size array of key bytes. -/
structure crypto_key_t where
  key : List Nat
deriving DecidableEq, Repr

/-- The `server_config_t` of cute_server.h, with its default member values. The
float member is carried as a rational. -/
structure server_config_t where
  max_clients : Int := 64
  client_timeout_time : ℚ := 20
  max_incoming_bytes_per_second : Int := 0
  max_outgoing_bytes_per_second : Int := 0
deriving DecidableEq

/-- Modelled from the spec: `handle_t` is declared in cute_handle_table.h, which
is not among the sources. Section 3: a handle is a generation-tagged index. -/
structure handle_t where
  index : Nat
  generation : Nat
deriving DecidableEq, Repr

/-- One entry of the handle table: the user index the entry maps to and the
entry's current generation. -/
structure handle_entry_t where
  user_index : Nat
  generation : Nat
deriving DecidableEq, Repr

/-- Modelled from the spec: `handle_table_t` is declared in cute_handle_table.h,
which is not among the sources. Section 4.5: entries carry a generation, and
there is a free set that `free` returns entries to. -/
structure handle_table_t where
  handles : List handle_entry_t
  freelist : List Nat
deriving DecidableEq, Repr

/-- Modelled from the spec: `handle_table_init` is not among the sources. A table
of `initial_capacity` entries of generation 0, all of them in the free set. -/
def handle_table_init (initial_capacity : Nat) : handle_table_t :=
  { handles := List.replicate initial_capacity ⟨0, 0⟩
    freelist := List.range initial_capacity }

/-- Modelled from the spec: `handle_table_alloc` is not among the sources. Section
4.5: claims a free entry and returns a generation-tagged handle for it. The
entry records `index`; when the free set is empty the table grows by one entry
(`s_client_make` asserts that the handle it gets is valid). -/
def handle_table_alloc (table : handle_table_t) (index : Nat) : handle_t × handle_table_t :=
  match table.freelist with
  | i :: rest =>
    let generation := (table.handles.getD i ⟨0, 0⟩).generation
    (⟨i, generation⟩,
      { handles := table.handles.set i ⟨index, generation⟩, freelist := rest })
  | [] =>
    (⟨table.handles.length, 0⟩,
      { handles := table.handles ++ [⟨index, 0⟩], freelist := [] })

/-- Modelled from the spec: `handle_table_get_index` is not among the sources.
Section 4.5: `lookup` validates the handle's generation against the entry's
current generation; `none` is the `Stale` answer. -/
def handle_table_get_index (table : handle_table_t) (handle : handle_t) : Option Nat :=
  match table.handles.get? handle.index with
  | some entry => if entry.generation = handle.generation then some entry.user_index else none
  | none => none

/-- Modelled from the spec: `handle_table_free` is not among the sources. Section
4.5: `free` increments the entry's generation and returns it to the free set. -/
def handle_table_free (table : handle_table_t) (handle : handle_t) : handle_table_t :=
  let entry := table.handles.getD handle.index ⟨0, 0⟩
  { handles := table.handles.set handle.index ⟨entry.user_index, entry.generation + 1⟩
    freelist := handle.index :: table.freelist }

/-- The `packet_queue_t` of cute_protocol_internal.h. A packet pointer is carried
as a number. -/
structure packet_queue_t where
  count : Int := 0
  index0 : Int := 0
  index1 : Int := 0
  types : List Nat := []
  packets : List Nat := []
deriving DecidableEq, Repr

/-- Modelled from the spec: `pack_queue_clean_up` is not among the sources. Section
3: the queue is a bounded FIFO of pending packets; cleaning it up leaves no
pending packet. -/
def pack_queue_clean_up (_q : packet_queue_t) : packet_queue_t := {}

/-- Modelled from the spec: `nonce_buffer_t` is declared in a header that is not
among the sources. Section 3: the replay window tracks the highest sequence
number seen and the recently seen sequence numbers. -/
structure nonce_buffer_t where
  max : Nat
  entries : List Nat
deriving DecidableEq, Repr

/-- Modelled from the spec: `nonce_buffer_init` is not among the sources. Section
4.5: allocation initialises an empty replay window. -/
def nonce_buffer_init : nonce_buffer_t := ⟨0, []⟩

/-- One result of `socket_receive`, together with what the environment answers to
the calls made while that datagram is handled: `random` is the eight bytes that
`crypto_random_bytes` writes, `queue_init` the return value of
`packet_queue_init`. -/
structure datagram_t where
  from_ : endpoint_t
  bytes_read : Int
  buffer : List Nat
  random : Nat := 0
  queue_init : Int := 0
deriving DecidableEq, Repr

/-- The `socket_t` of cute_net.h as the server sees it: the datagrams that
`socket_receive` will return, in arrival order, and the datagrams handed to
`socket_send` so far. -/
structure socket_t where
  inbound : List datagram_t := []
  outbound : List (endpoint_t × List Nat) := []
deriving DecidableEq

/-- The `server_t` of cute_server.cpp. The scratch members `io`, `buffer` and
`mem_ctx` hold no state between datagrams and are left out; a per-client array
is a map from the slot index. -/
structure server_t where
  running : Int := 0
  endpoint : endpoint_t := ⟨0, [], 0⟩
  public_key : crypto_key_t := ⟨[]⟩
  secret_key : crypto_key_t := ⟨[]⟩
  config : server_config_t := {}
  socket : socket_t := {}
  packets : packet_queue_t := {}
  client_handle_table : handle_table_t := ⟨[], []⟩
  client_count : Nat := 0
  client_handle : Nat → handle_t := fun _ => ⟨0, 0⟩
  client_is_connected : Nat → Int := fun _ => 0
  client_is_loopback : Nat → Int := fun _ => 0
  client_last_packet_recieved_time : Nat → ℚ := fun _ => 0
  client_endpoint : Nat → endpoint_t := fun _ => ⟨0, [], 0⟩
  client_sequence_offset : Nat → Nat := fun _ => 0
  client_sequence : Nat → Nat := fun _ => 0
  client_nonce_buffer : Nat → nonce_buffer_t := fun _ => nonce_buffer_init
  client_id : Nat → handle_t := fun _ => ⟨0, 0⟩
  client_session_key : Nat → crypto_key_t := fun _ => ⟨[]⟩
  client_packets : Nat → packet_queue_t := fun _ => {}

/-! ## Endpoint lookup -/

/-- The `for` loop of `s_client_index_from_endpoint`, at index `i` with
`remaining = count - i` iterations to go. -/
def s_client_index_from_endpoint.loop (endpoints : Nat → endpoint_t) (endpoint : endpoint_t) :
    Nat → Nat → Nat
  | 0, _ => UINT32_MAX
  | remaining + 1, i =>
    if endpoint_equals (endpoints i) endpoint then i % 2 ^ 32
    else s_client_index_from_endpoint.loop endpoints endpoint remaining (i + 1)

/-- The `s_client_index_from_endpoint` of cute_server.cpp. -/
def s_client_index_from_endpoint (server : server_t) (endpoint : endpoint_t) : Nat :=
  s_client_index_from_endpoint.loop server.client_endpoint endpoint server.client_count 0

/-! ## The environment -/

/-- The read stream `serialize_t` of cute/cute_serialize.h after
`serialize_reset_buffer(io, SERIALIZE_READ, buffer, size)`: the bytes, their
number, and how far reading has got. -/
structure serialize_t where
  buffer : List Nat
  size : Nat
  cursor : Nat
deriving DecidableEq, Repr

/-- The `serialize_reset_buffer` call of the receive loop, in read mode. -/
def serialize_reset_buffer (buffer : List Nat) (size : Nat) : serialize_t :=
  { buffer := buffer, size := size, cursor := 0 }

/-- What cute_server.cpp takes from headers that are not among the sources
(cute_net.h, cute_crypto.h, cute_protocol.h, cute/cute_serialize.h): the
protocol constants and the decryption and read routines. They are parameters of
the model. A routine that returns nonzero in C returns `none` here; a read
returns the value and the advanced stream. `CUTE_PROTOCOL_VERSION` is the
string literal without its terminating NUL, and `sizeof_crypto_key_t` is
`sizeof(crypto_key_t)`. -/
structure net_env where
  CUTE_PACKET_SIZE_MAX : Nat
  CUTE_PROTOCOL_VERSION : List Nat
  CUTE_PROTOCOL_VERSION_STRING_LEN : Nat
  PACKET_TYPE_MAX : Nat
  PACKET_TYPE_HELLO : Nat
  sizeof_crypto_key_t : Nat
  crypto_decrypt_asymmetric : crypto_key_t → crypto_key_t → List Nat → Nat → Option (List Nat)
  serialize_bytes : serialize_t → Nat → Option (List Nat × serialize_t)
  serialize_uint64 : serialize_t → Nat → Nat → Option (Nat × serialize_t)

/-- The `CUTE_STRNCMP` of cute_c_runtime.h, which is `strncmp`: at most `n`
characters are compared, and the comparison stops after a NUL. A string is the
list of its characters; past its end stands the terminating NUL. -/
def CUTE_STRNCMP : List Nat → List Nat → Nat → Int
  | _, _, 0 => 0
  | s1, s2, n + 1 =>
    if s1.headD 0 ≠ s2.headD 0 then (s1.headD 0 : Int) - (s2.headD 0 : Int)
    else if s1.headD 0 = 0 then 0
    else CUTE_STRNCMP s1.tail s2.tail n

/-- Modelled from the spec: `packet_queue_init` is not among the sources (the
call in `s_client_make` passes a size and an allocator context and tests the
returned status). Section 3: the capacity is fixed at construction; the queue
starts without a pending packet. `status` is the status the environment
reports. -/
def packet_queue_init (_q : packet_queue_t) (status : Int) : Int × packet_queue_t :=
  (status, {})

/-! ## The client slot table -/

/-- The `s_client_make` of cute_server.cpp. `sequence_offset` is the value that
`crypto_random_bytes` writes and `queue_init` the status that
`packet_queue_init` returns. The result is the returned `uint32_t` and the
server afterwards. -/
def s_client_make (server : server_t) (endpoint : endpoint_t) (session_key : crypto_key_t)
    (loopback : Int) (sequence_offset : Nat) (queue_init : Int) : Nat × server_t :=
  if server.client_count = CUTE_SERVER_MAX_CLIENTS then (UINT32_MAX, server)
  else
    let index := server.client_count % 2 ^ 32
    let server := { server with client_count := server.client_count + 1 }
    let alloc0 := handle_table_alloc server.client_handle_table index
    let server := { server with
      client_handle_table := alloc0.2
      client_handle := Function.update server.client_handle index alloc0.1 }
    let server := { server with
      client_is_connected := Function.update server.client_is_connected index 1
      client_is_loopback := Function.update server.client_is_loopback index loopback
      client_last_packet_recieved_time :=
        Function.update server.client_last_packet_recieved_time index 0
      client_endpoint := Function.update server.client_endpoint index endpoint
      client_sequence_offset :=
        Function.update server.client_sequence_offset index sequence_offset
      client_sequence := Function.update server.client_sequence index 0
      client_nonce_buffer := Function.update server.client_nonce_buffer index nonce_buffer_init }
    let alloc1 := handle_table_alloc server.client_handle_table index
    let server := { server with
      client_handle_table := alloc1.2
      client_id := Function.update server.client_id index alloc1.1
      client_session_key := Function.update server.client_session_key index session_key }
    let init := packet_queue_init (server.client_packets index) queue_init
    let server := { server with
      client_packets := Function.update server.client_packets index init.2 }
    if init.1 ≠ 0 then (UINT32_MAX, server)
    else (index, server)

/-- The `server_disconnect_client` of cute_server.cpp. A stale handle has no
index, so the source would write outside its arrays; the model has no result
there. -/
def server_disconnect_client (server : server_t) (client_id : handle_t) : Option server_t :=
  match handle_table_get_index server.client_handle_table client_id with
  | none => none
  | some index =>
    some { server with
      client_is_connected := Function.update server.client_is_connected index 0
      client_packets :=
        Function.update server.client_packets index (pack_queue_clean_up (server.client_packets index))
      client_handle_table := handle_table_free server.client_handle_table client_id }

/-- The `server_start` of cute_server.cpp. `endpoint_init` is the endpoint that
parsing `address_and_port` gives (`none` when it fails), `socket_init` and
`table_init` are the statuses of `socket_init` and `handle_table_init`. The
result is the returned `int` and the server afterwards. -/
def server_start (server : server_t) (endpoint_init : Option endpoint_t)
    (public_key secret_key : crypto_key_t) (config : Option server_config_t)
    (socket_init table_init : Int) : Int × server_t :=
  match endpoint_init with
  | none => (-1, server)
  | some endpoint =>
    let server := { server with
      endpoint := endpoint, public_key := public_key, secret_key := secret_key }
    if socket_init ≠ 0 then (-1, server)
    else
      let server := { server with
        socket := {}
        config := match config with
          | some c => c
          | none => {} }
      if table_init ≠ 0 then (-1, server)
      else
        (0, { server with
          client_handle_table := handle_table_init 256
          client_count := 0
          running := 1 })

/-! ## Receiving and sending -/

/-- The body of the `while (1)` loop of `s_server_recieve_packets`, after
`socket_receive` has returned the datagram `d` with `bytes_read > 0`. Every
`continue` and the `cute_error` label end the body with the server as it is
at that point. -/
def s_server_recieve_packets.body (E : net_env) (server : server_t) (d : datagram_t) : server_t :=
  let client_index := s_client_index_from_endpoint server d.from_
  if client_index = UINT32_MAX then
    if server.client_count = CUTE_SERVER_MAX_CLIENTS then server
    else if d.bytes_read < E.CUTE_PACKET_SIZE_MAX then server
    else
      match E.crypto_decrypt_asymmetric server.public_key server.secret_key d.buffer
          E.CUTE_PACKET_SIZE_MAX with
      | none => server
      | some buffer =>
        let stream := serialize_reset_buffer buffer E.CUTE_PACKET_SIZE_MAX
        match E.serialize_bytes stream E.CUTE_PROTOCOL_VERSION_STRING_LEN with
        | none => server
        | some (version_buffer, stream) =>
          if CUTE_STRNCMP E.CUTE_PROTOCOL_VERSION version_buffer
              E.CUTE_PROTOCOL_VERSION_STRING_LEN ≠ 0 then server
          else
            match E.serialize_uint64 stream 0 E.PACKET_TYPE_MAX with
            | none => server
            | some (packet_typeu64, stream) =>
              if packet_typeu64 ≠ E.PACKET_TYPE_HELLO then server
              else
                match E.serialize_bytes stream E.sizeof_crypto_key_t with
                | none => server
                | some (key, _) =>
                  let made := s_client_make server d.from_ ⟨key⟩ 0 d.random d.queue_init
                  if made.1 ≠ UINT32_MAX then made.2
                  else made.2
  else server

/-- The `while (1)` loop of `s_server_recieve_packets` over the datagrams that
`socket_receive` has yet to return: an empty list is the "nothing available"
result, and a result with `bytes_read <= 0` ends the loop as well. -/
def s_server_recieve_packets.loop (E : net_env) : List datagram_t → server_t → server_t
  | [], server => server
  | d :: rest, server =>
    let server := { server with socket := { server.socket with inbound := rest } }
    if d.bytes_read ≤ 0 then server
    else s_server_recieve_packets.loop E rest (s_server_recieve_packets.body E server d)

/-- The `s_server_recieve_packets` of cute_server.cpp. -/
def s_server_recieve_packets (E : net_env) (server : server_t) : server_t :=
  s_server_recieve_packets.loop E server.socket.inbound server

/-- The `s_server_send_packets` of cute_server.cpp, whose body is two comments. -/
def s_server_send_packets (server : server_t) (_dt : ℚ) : server_t := server

/-- The `server_update` of cute_server.cpp. -/
def server_update (E : net_env) (server : server_t) (dt : ℚ) : server_t :=
  s_server_send_packets (s_server_recieve_packets E server) dt

/-! ## Reading aids for the statements -/

/-- The largest value of the C `int` that holds `client_count`. -/
def INT_MAX : Nat := 2147483647

/-- The C string held in the first `n` characters of `s`: the characters before
the first NUL. -/
def c_string (n : Nat) (s : List Nat) : List Nat :=
  (s.take n).takeWhile (fun c => decide (c ≠ 0))

/-- The per-client members of `server_t` at one slot index. -/
structure client_slot_t where
  handle : handle_t
  is_connected : Int
  is_loopback : Int
  last_packet_recieved_time : ℚ
  endpoint : endpoint_t
  sequence_offset : Nat
  sequence : Nat
  nonce_buffer : nonce_buffer_t
  id : handle_t
  session_key : crypto_key_t
  packets : packet_queue_t
deriving DecidableEq

/-- Slot `i` of the client table of `server`. -/
def client_slot (server : server_t) (i : Nat) : client_slot_t :=
  { handle := server.client_handle i
    is_connected := server.client_is_connected i
    is_loopback := server.client_is_loopback i
    last_packet_recieved_time := server.client_last_packet_recieved_time i
    endpoint := server.client_endpoint i
    sequence_offset := server.client_sequence_offset i
    sequence := server.client_sequence i
    nonce_buffer := server.client_nonce_buffer i
    id := server.client_id i
    session_key := server.client_session_key i
    packets := server.client_packets i }

/-- The arguments of one `s_client_make` call, with the environment's answers. -/
structure make_call where
  endpoint : endpoint_t
  session_key : crypto_key_t
  loopback : Int := 0
  sequence_offset : Nat := 0
  queue_init : Int := 0
deriving DecidableEq

/-- The server after the `s_client_make` calls of `calls`, made in order. -/
def s_client_make_seq (server : server_t) : List make_call → server_t
  | [] => server
  | c :: cs =>
    s_client_make_seq
      (s_client_make server c.endpoint c.session_key c.loopback c.sequence_offset c.queue_init).2 cs

/-! ## Worked inputs -/

/-- A small environment for worked inputs: packets of 16 bytes; the version
string `CUTE`; a Hello has type 1; keys of 4 bytes. Decryption accepts a buffer
that ends in the byte 170 and returns it as it is; reads take whole bytes. -/
def sample_env : net_env :=
  { CUTE_PACKET_SIZE_MAX := 16
    CUTE_PROTOCOL_VERSION := [67, 85, 84, 69]
    CUTE_PROTOCOL_VERSION_STRING_LEN := 4
    PACKET_TYPE_MAX := 8
    PACKET_TYPE_HELLO := 1
    sizeof_crypto_key_t := 4
    crypto_decrypt_asymmetric := fun _ _ buffer _ =>
      if buffer.getLast? = some 170 then some buffer else none
    serialize_bytes := fun stream n =>
      if stream.cursor + n ≤ stream.size then
        some ((stream.buffer.drop stream.cursor).take n, { stream with cursor := stream.cursor + n })
      else none
    serialize_uint64 := fun stream lo hi =>
      match stream.buffer.get? stream.cursor with
      | some v =>
        if lo ≤ v ∧ v ≤ hi then some (v, { stream with cursor := stream.cursor + 1 }) else none
      | none => none }

/-- A server right after a successful `server_start` with the configuration `config`. -/
def started (config : Option server_config_t) : server_t :=
  (server_start {} (some ⟨4, [127, 0, 0, 1], 5000⟩) ⟨[1, 1, 1, 1]⟩ ⟨[2, 2, 2, 2]⟩ config 0 0).2

/-- The `i`-th client of the worked inputs: port `6000 + i`, key `[i, 7, 7, 7]`. -/
def sample_call (i : Nat) : make_call :=
  { endpoint := ⟨4, [10, 0, 0, 1], 6000 + i⟩
    session_key := ⟨[i, 7, 7, 7]⟩
    sequence_offset := 11 * i + 3 }

/-- A started server with one client, made by `s_client_make`. -/
def one_client : server_t := s_client_make_seq (started none) [sample_call 0]

/-- A started server on which `s_client_make` has been called
`CUTE_SERVER_MAX_CLIENTS` times, for clients 0 to 255. -/
def full_server : server_t :=
  s_client_make_seq (started none) ((List.range 256).map sample_call)

/-- A padded Hello for `sample_env`: version, type 1, the key `[9, 9, 9, 9]`,
padding, and the closing byte 170; sent from port 7000. -/
def sample_hello : datagram_t :=
  { from_ := ⟨4, [10, 0, 0, 2], 7000⟩
    bytes_read := 16
    buffer := [67, 85, 84, 69, 1, 9, 9, 9, 9, 0, 0, 0, 0, 0, 0, 170]
    random := 77 }

/-- A started server configured for at most one client, after one `s_client_make`. -/
def capped_server : server_t :=
  s_client_make_seq (started (some { max_clients := 1 })) [sample_call 0]

/-- The full server of the worked inputs with one padded Hello pending on its socket. -/
def full_server_with_hello : server_t :=
  { full_server with socket := { inbound := [sample_hello] } }

/-- A started server without clients with one padded Hello pending on its socket. -/
def started_with_hello : server_t :=
  { started none with socket := { inbound := [sample_hello] } }

/-- The padded Hello of the worked inputs with the version string `CUTF`. -/
def sample_wrong_version : datagram_t :=
  { sample_hello with buffer := [67, 85, 84, 70, 1, 9, 9, 9, 9, 0, 0, 0, 0, 0, 0, 170] }

/-! ## Timeouts, events and runs of the server -/

/-- The `server_look_for_and_disconnected_timed_out_clients` of cute_server.cpp,
whose body is empty. -/
def server_look_for_and_disconnected_timed_out_clients (server : server_t) : server_t := server

/-- The `server_event_t` of cute_server.h: the type tag with the member of the
union that belongs to it. A `client_id_t` is a 64-bit number, and the payload
pointer with its size is the list of payload bytes with its size. -/
inductive server_event_t where
  | new_connection (id : Nat) (endpoint : endpoint_t) (session_key : crypto_key_t)
  | disconnected (id : Nat)
  | user_packet (id : Nat) (data : List Nat) (size : Int)
deriving DecidableEq, Repr

/-- The `server_poll_event` of cute_server.cpp: the returned `int` and the event
that `event` points to afterwards. -/
def server_poll_event (_server : server_t) (event : server_event_t) : Int × server_event_t :=
  (-1, event)

/-- One call of the public API on a running server: `update` stands for the
arrival of the datagrams `pending` at the socket followed by
`server_update(server, dt)`, `disconnect` for
`server_disconnect_client(server, client_id)`. -/
inductive server_call where
  | update (pending : List datagram_t) (dt : ℚ)
  | disconnect (client_id : handle_t)

/-- The datagrams `pending` arrive at the socket of `server`. -/
def socket_deliver (server : server_t) (pending : List datagram_t) : server_t :=
  { server with socket := { server.socket with inbound := server.socket.inbound ++ pending } }

/-- The server after the calls of `calls`, made in order; `none` when one of them
is a disconnect with a stale handle. -/
def server_run (E : net_env) : server_t → List server_call → Option server_t
  | server, [] => some server
  | server, server_call.update pending dt :: rest =>
    server_run E (server_update E (socket_deliver server pending) dt) rest
  | server, server_call.disconnect client_id :: rest =>
    match server_disconnect_client server client_id with
    | none => none
    | some server1 => server_run E server1 rest

/-- The first pending datagram is taken from the socket of `server`. -/
def socket_take (server : server_t) : server_t :=
  { server with socket := { server.socket with inbound := server.socket.inbound.tail } }

/-- The receive phase in the words of section 5 of the spec: the datagrams that
are pending before the first "nothing available" result (`bytes_read <= 0`, or
no datagram left) are taken from the socket one after the other in arrival
order, each handled by one pass through the loop body; then that result is
taken, and what follows it stays pending. -/
def drain_in_arrival_order (E : net_env) (server : server_t) : server_t :=
  socket_take
    (List.foldl (fun s d => s_server_recieve_packets.body E (socket_take s) d) server
      (server.socket.inbound.takeWhile (fun d => decide (0 < d.bytes_read))))

/-- A datagram from the endpoint of client 0 of the worked inputs, with the
version string, type 7 and eight payload bytes. -/
def sample_payload : datagram_t :=
  { from_ := (sample_call 0).endpoint
    bytes_read := 16
    buffer := [67, 85, 84, 69, 7, 1, 2, 3, 4, 5, 6, 7, 8, 0, 0, 170] }

/-- The server with one client of the worked inputs, with a datagram of that
client pending on its socket. -/
def one_client_with_payload : server_t :=
  { one_client with socket := { inbound := [sample_payload] } }

/-- No two distinct slots below `client_count` hold equal endpoints. -/
def endpoints_distinct (server : server_t) : Prop :=
  ∀ i j, i < server.client_count → j < server.client_count →
    endpoint_equals (server.client_endpoint i) (server.client_endpoint j) = true → i = j

/-- A second padded Hello for `sample_env`, sent from port 7001 with the key
`[8, 8, 8, 8]`. -/
def sample_hello2 : datagram_t :=
  { from_ := ⟨4, [10, 0, 0, 2], 7001⟩
    bytes_read := 16
    buffer := [67, 85, 84, 69, 1, 8, 8, 8, 8, 0, 0, 0, 0, 0, 0, 170]
    random := 78 }

/-- A run of the worked inputs: two Hellos arrive (the first one twice) and are
handled by one update, the first client's `client_id` handle is disconnected,
and a further update follows. -/
def sample_run : List server_call :=
  [server_call.update [sample_hello, sample_hello2, sample_hello] 0,
   server_call.disconnect ⟨1, 0⟩,
   server_call.update [] 21]

/-! ## The replay buffer -/

/-- The `replay_buffer_t` of cute_protocol_internal.h: the highest sequence
number seen, and in `entries` the sequence numbers that are marked seen. -/
structure replay_buffer_t where
  max : Nat
  entries : List Nat
deriving DecidableEq, Repr

/-- Modelled from the spec: `replay_buffer_init` is declared in
cute_protocol_internal.h and defined in no source file. A fresh buffer has the
maximum 0 and no sequence number marked seen. -/
def replay_buffer_init : replay_buffer_t := ⟨0, []⟩

/-- The floor of the window of `size` sequence numbers that ends at the current
maximum; `size` stands for `CUTE_REPLAY_BUFFER_SIZE`, whose definition is not
among the sources. -/
def replay_buffer_floor (size : Nat) (buffer : replay_buffer_t) : Nat :=
  buffer.max + 1 - size

/-- Modelled from the spec: `replay_buffer_cull_duplicate` is declared in
cute_protocol_internal.h and defined in no source file. Section 4.2: returns
`true` (reject) if `sequence` is older than the current window floor or
already marked seen; a sequence equal to the current maximum is treated as
already seen. It changes nothing. -/
def replay_buffer_cull_duplicate (size : Nat) (buffer : replay_buffer_t) (sequence : Nat) :
    Bool :=
  decide (sequence < replay_buffer_floor size buffer) || buffer.entries.contains sequence
    || decide (sequence = buffer.max)

/-- Modelled from the spec: `replay_buffer_update` is declared in
cute_protocol_internal.h and defined in no source file. Section 4.2: marks
`sequence` seen and, if it exceeds the current maximum, slides the window
forward, clearing the marks that fall out of range, and raises the maximum. -/
def replay_buffer_update (size : Nat) (buffer : replay_buffer_t) (sequence : Nat) :
    replay_buffer_t :=
  if buffer.max < sequence then
    { max := sequence
      entries := (sequence :: buffer.entries).filter (fun s => decide (sequence + 1 - size ≤ s)) }
  else
    { buffer with entries := sequence :: buffer.entries }

/-! ## The packet queue -/

/-- Entry `i` of one of the arrays of `packet_queue_t`; an entry that was never
written reads as 0. -/
def packet_queue_read (entries : List Nat) (i : Nat) : Nat := entries.getD i 0

/-- One of the arrays of `packet_queue_t` after `entries[i] = v`. -/
def packet_queue_write (entries : List Nat) (i v : Nat) : List Nat :=
  if i < entries.length then entries.set i v
  else entries ++ List.replicate (i - entries.length) 0 ++ [v]

/-- Modelled from the spec: `packet_queue_push` is declared in
cute_protocol_internal.h and defined in no source file. Sections 2 and 4.1: a
bounded ring buffer; push fails with `QueueFull` (`none`) when at capacity,
otherwise enqueues and returns success. `capacity` stands for
`CUTE_PACKET_QUEUE_MAX_ENTRIES`, whose definition is not among the sources;
the new entry goes to `index1`, which then advances around the ring. -/
def packet_queue_push (capacity : Nat) (q : packet_queue_t) (packet type : Nat) :
    Option packet_queue_t :=
  if (capacity : Int) ≤ q.count then none
  else
    some { q with
      count := q.count + 1
      index1 := (q.index1 + 1) % (capacity : Int)
      types := packet_queue_write q.types q.index1.toNat type
      packets := packet_queue_write q.packets q.index1.toNat packet }

/-- Modelled from the spec: `packet_queue_pop` is declared in
cute_protocol_internal.h and defined in no source file. Sections 2 and 4.1:
pop returns the oldest enqueued packet with its type, or `Empty` (`none`) when
none remain. The oldest entry is at `index0`, which then advances around the
ring. -/
def packet_queue_pop (capacity : Nat) (q : packet_queue_t) :
    Option ((Nat × Nat) × packet_queue_t) :=
  if q.count ≤ 0 then none
  else
    some ((packet_queue_read q.packets q.index0.toNat, packet_queue_read q.types q.index0.toNat),
      { q with
        count := q.count - 1
        index0 := (q.index0 + 1) % (capacity : Int) })

/-- The queue after the pushes of `items` (packet and type), made in order;
`none` as soon as one of them fails. -/
def packet_queue_push_all (capacity : Nat) : packet_queue_t → List (Nat × Nat) →
    Option packet_queue_t
  | q, [] => some q
  | q, (packet, type) :: rest =>
    match packet_queue_push capacity q packet type with
    | none => none
    | some q1 => packet_queue_push_all capacity q1 rest

/-- What `n` calls of `packet_queue_pop` return, in order, and the queue
afterwards; the calls end early when one reports `Empty`. -/
def packet_queue_pop_n (capacity : Nat) : packet_queue_t → Nat →
    List (Nat × Nat) × packet_queue_t
  | q, 0 => ([], q)
  | q, n + 1 =>
    match packet_queue_pop capacity q with
    | none => ([], q)
    | some (item, q1) =>
      (item :: (packet_queue_pop_n capacity q1 n).1, (packet_queue_pop_n capacity q1 n).2)

/-- The pending (packet, type) pairs of a queue, oldest first: the `count`
entries of the ring from `index0` on. -/
def packet_queue_pending (capacity : Nat) (q : packet_queue_t) : List (Nat × Nat) :=
  (List.range q.count.toNat).map fun k =>
    (packet_queue_read q.packets ((q.index0.toNat + k) % capacity),
      packet_queue_read q.types ((q.index0.toNat + k) % capacity))

/-- The ring members of a queue fit together: `index0` is inside the ring,
`count` is at most the capacity, and `index1` is `count` places after
`index0`. -/
def packet_queue_ok (capacity : Nat) (q : packet_queue_t) : Prop :=
  ∃ i0 n : Nat, q.index0 = (i0 : Int) ∧ q.count = (n : Int) ∧ i0 < capacity ∧ n ≤ capacity ∧
    q.index1 = (((i0 + n) % capacity : Nat) : Int)

/-! ## Base64 (cute_base64.cpp) -/

/-- Modelled from the spec: `error_t` is declared in cute_error.h, which is not
among the sources. A result is a success, or a failure that carries the
message given to `error_failure`. -/
inductive error_t where
  | success
  | failure (details : String)
deriving DecidableEq, Repr

/-- The `is_error` test of an `error_t`, as the test file uses it. -/
def error_t.is_error : error_t → Bool
  | error_t.success => false
  | error_t.failure _ => true

/-- The table `s_6bits_to_base64` of cute_base64.cpp: the character codes of
`A`..`Z`, `a`..`z`, `0`..`9`, `+` and `/`. -/
def s_6bits_to_base64 : List Nat :=
  [65, 66, 67, 68, 69, 70, 71, 72, 73, 74, 75, 76, 77, 78, 79, 80, 81, 82, 83, 84, 85, 86, 87, 88,
   89, 90,
   97, 98, 99, 100, 101, 102, 103, 104, 105, 106, 107, 108, 109, 110, 111, 112, 113, 114, 115,
   116, 117, 118, 119, 120, 121, 122,
   48, 49, 50, 51, 52, 53, 54, 55, 56, 57, 43, 47]

/-- The table `s_base64_to_6bits` of cute_base64.cpp, with its 79 entries. -/
def s_base64_to_6bits : List Int :=
  [62, -1, -1, -1, 63, 52, 53, 54, 55, 56, 57, 58, 59, 60, 61, -1, -1, -1, -1, -1, -1, -1, 0, 1,
   2, 3, 4,
   5, 6, 7, 8, 9, 10, 11, 12, 13, 14, 15, 16, 17, 18, 19, 20, 21, 22, 23, 24, 25, -1, -1, -1, -1,
   -1, -1,
   26, 27, 28, 29, 30, 31, 32, 33, 34, 35, 36, 37, 38, 39, 40, 41, 42, 43, 44, 45, 46, 47, 48, 49,
   50]

/-- Modelled from the spec: the macro `CUTE_BASE64_ENCODED_SIZE` is defined in
cute_base64.h, which is not among the sources. The size of the encoding of
`size` bytes, four characters for every started group of three bytes; the
closing assertion of `base64_encode` compares the number of characters
written with it. -/
def CUTE_BASE64_ENCODED_SIZE (size : Nat) : Nat := ((size + 2) / 3) * 4

/-- A read `in[k]` of a byte. -/
def byte_at (input : List Nat) (k : Nat) : Nat := input.getD k 0

/-- The `while (triplets--)` loop of `base64_encode`: the characters written so
far and the input that is left. -/
def base64_encode.loop : Nat → List Nat → List Nat → List Nat × List Nat
  | 0, input, out => (out, input)
  | triplets + 1, input, out =>
    let bits := ((byte_at input 0 <<< 16) % 2 ^ 32 ||| (byte_at input 1 <<< 8) % 2 ^ 32
      ||| byte_at input 2) % 2 ^ 32
    let a := (bits &&& 0xFC0000) >>> 18
    let b := (bits &&& 0x3F000) >>> 12
    let c := (bits &&& 0xFC0) >>> 6
    let d := bits &&& 0x3F
    base64_encode.loop triplets (input.drop 3)
      (out ++ [s_6bits_to_base64.getD a 0, s_6bits_to_base64.getD b 0,
        s_6bits_to_base64.getD c 0, s_6bits_to_base64.getD d 0])

/-- The `switch (pads)` of `base64_encode` on the input that the loop has left:
the characters it writes. -/
def base64_encode.tail (pads : Nat) (input : List Nat) : List Nat :=
  if pads = 1 then
    let bits := ((byte_at input 0 <<< 8) % 2 ^ 32 ||| byte_at input 1) % 2 ^ 32
    let a := (bits &&& 0xFC00) >>> 10
    let b := (bits &&& 0x3F0) >>> 4
    let c := ((bits &&& 0xF) <<< 2) % 2 ^ 32
    [s_6bits_to_base64.getD a 0, s_6bits_to_base64.getD b 0, s_6bits_to_base64.getD c 0]
  else if pads = 2 then
    let bits := byte_at input 0 % 2 ^ 32
    let a := (bits &&& 0xFC) >>> 2
    let b := ((bits &&& 0x3) <<< 4) % 2 ^ 32
    [s_6bits_to_base64.getD a 0, s_6bits_to_base64.getD b 0]
  else []

/-- The value that a C `int` holds after a computation whose exact result is
`v`: `v` itself when it lies within `-2 ^ 31 .. 2 ^ 31 - 1`, and otherwise `v`
wrapped around modulo `2 ^ 32` into that range. -/
def int_of (v : Int) : Int := (v + 2 ^ 31) % 2 ^ 32 - 2 ^ 31

/-- The `base64_encode` of cute_base64.cpp on the `src_size` bytes of `src`:
the returned error and the characters stored through `out`, in order (none on
failure). `out_size` is an `int`, as in `int out_size =
CUTE_BASE64_ENCODED_SIZE(src_size)`. The assertions are left out. -/
def base64_encode (dst_size : Int) (src : List Nat) : error_t × List Nat :=
  let src_size := src.length
  let out_size := int_of (CUTE_BASE64_ENCODED_SIZE src_size : Nat)
  if dst_size < out_size then
    (error_t.failure "`dst` buffer too small to place encoded output.", [])
  else
    let triplets := src_size / 3
    let pads := if src_size % 3 ≠ 0 then 3 - src_size % 3 else 0
    let looped := base64_encode.loop triplets src []
    let out := looped.1 ++ base64_encode.tail pads looped.2
    (error_t.success, out ++ List.replicate pads 61)

/-- The step `*in++ - 43` of `base64_decode`, in `uint32_t`. -/
def base64_decode.index (c : Nat) : Nat := (c + 2 ^ 32 - 43) % 2 ^ 32

/-- The step `a = s_base64_to_6bits[a]` of `base64_decode`: the `int` of the
table converted to `uint32_t`. -/
def base64_decode.value (a : Nat) : Nat := ((s_base64_to_6bits.getD a 0) % 2 ^ 32).toNat

/-- The `~0` that `base64_decode` compares with, converted to `uint32_t`. -/
def base64_decode.none_value : Nat := 4294967295

/-- The `while (quadruplets--)` loop of `base64_decode`: the error it returns
with, if it does, the bytes written so far and the input that is left. -/
def base64_decode.loop : Nat → List Nat → List Nat → Option error_t × List Nat × List Nat
  | 0, input, out => (none, out, input)
  | quadruplets + 1, input, out =>
    let a := base64_decode.index (byte_at input 0)
    let b := base64_decode.index (byte_at input 1)
    let c := base64_decode.index (byte_at input 2)
    let d := base64_decode.index (byte_at input 3)
    if a > 78 ∨ b > 78 ∨ c > 78 ∨ d > 78 then
      (some (error_t.failure "Found illegal character in input stream."), out, input.drop 4)
    else
      let a := base64_decode.value a
      let b := base64_decode.value b
      let c := base64_decode.value c
      let d := base64_decode.value d
      if a = base64_decode.none_value ∨ b = base64_decode.none_value
          ∨ c = base64_decode.none_value ∨ d = base64_decode.none_value then
        (some (error_t.failure "Found illegal character in input stream."), out, input.drop 4)
      else
        let bits := ((a <<< 26) % 2 ^ 32 ||| (b <<< 20) % 2 ^ 32 ||| (c <<< 14) % 2 ^ 32
          ||| (d <<< 8) % 2 ^ 32) % 2 ^ 32
        base64_decode.loop quadruplets (input.drop 4)
          (out ++ [((bits &&& 0xFF000000) >>> 24) % 256, ((bits &&& 0x00FF0000) >>> 16) % 256,
            ((bits &&& 0x0000FF00) >>> 8) % 256])

/-- The `switch (pads)` of `base64_decode` on the input that the loop has left:
the error it returns with, if it does, and the bytes it writes. -/
def base64_decode.tail (pads : Nat) (input : List Nat) : Option error_t × List Nat :=
  if pads = 1 then
    let a := base64_decode.index (byte_at input 0)
    let b := base64_decode.index (byte_at input 1)
    let c := base64_decode.index (byte_at input 2)
    if a > 78 ∨ b > 78 ∨ c > 78 then
      (some (error_t.failure "Found illegal character in input stream."), [])
    else
      let a := base64_decode.value a
      let b := base64_decode.value b
      let c := base64_decode.value c
      if a = base64_decode.none_value ∨ b = base64_decode.none_value
          ∨ c = base64_decode.none_value then
        (some (error_t.failure "Found illegal character in input stream."), [])
      else
        let bits := ((a <<< 26) % 2 ^ 32 ||| (b <<< 20) % 2 ^ 32 ||| (c <<< 14) % 2 ^ 32) % 2 ^ 32
        (none, [((bits &&& 0xFF000000) >>> 24) % 256, ((bits &&& 0x00FF0000) >>> 16) % 256])
  else if pads = 2 then
    let a := base64_decode.index (byte_at input 0)
    let b := base64_decode.index (byte_at input 1)
    if a > 78 ∨ b > 78 then
      (some (error_t.failure "Found illegal character in input stream."), [])
    else
      let a := base64_decode.value a
      let b := base64_decode.value b
      if a = base64_decode.none_value ∨ b = base64_decode.none_value then
        (some (error_t.failure "Found illegal character in input stream."), [])
      else
        let bits := ((a <<< 26) % 2 ^ 32 ||| (b <<< 20) % 2 ^ 32) % 2 ^ 32
        (none, [((bits &&& 0xFF000000) >>> 24) % 256])
  else (none, [])

/-- The `base64_decode` of cute_base64.cpp on the `src_size` characters of
`src`: the returned error and the bytes stored through `out`, in order, up to
the return. `dst_size` is a parameter that the body never reads. The closing
assertion is left out. -/
def base64_decode (_dst_size : Int) (src : List Nat) : error_t × List Nat :=
  let src_size := src.length
  if src_size = 0 then (error_t.success, [])
  else if src_size % 4 ≠ 0 then
    (error_t.failure
      "`src_size` is not a multiple of 4 (all base64 streams must be padded to a multiple of four with `=` characters).",
      [])
  else
    let quadruplets := src_size / 4
    let pads := (if byte_at src (src_size - 1) = 61 then 1 else 0)
      + (if byte_at src (src_size - 2) = 61 then 1 else 0)
    let quadruplets := if pads ≠ 0 then quadruplets - 1 else quadruplets
    match base64_decode.loop quadruplets src [] with
    | (some err, out, _) => (err, out)
    | (none, out, input) =>
      match base64_decode.tail pads input with
      | (some err, written) => (err, out ++ written)
      | (none, written) => (error_t.success, out ++ written)

/-- The character that RFC 4648, Table 1, gives to the 6-bit value `v`: `A`..`Z`
for 0..25, `a`..`z` for 26..51, `0`..`9` for 52..61, `+` for 62 and `/` for 63. -/
def rfc4648_char (v : Nat) : Nat :=
  if v < 26 then 65 + v
  else if v < 52 then 97 + (v - 26)
  else if v < 62 then 48 + (v - 52)
  else if v = 62 then 43
  else 47

/-- The base64 encoding of RFC 4648, section 4: every group of three bytes gives
four characters for its four 6-bit values; a final group of two bytes gives
three characters and one `=`, a final group of one byte two characters and
`==`. -/
def rfc4648_encode : List Nat → List Nat
  | b0 :: b1 :: b2 :: rest =>
    rfc4648_char (b0 / 4) :: rfc4648_char (b0 % 4 * 16 + b1 / 16)
      :: rfc4648_char (b1 % 16 * 4 + b2 / 64) :: rfc4648_char (b2 % 64) :: rfc4648_encode rest
  | [b0, b1] =>
    [rfc4648_char (b0 / 4), rfc4648_char (b0 % 4 * 16 + b1 / 16), rfc4648_char (b1 % 16 * 4), 61]
  | [b0] => [rfc4648_char (b0 / 4), rfc4648_char (b0 % 4 * 16), 61, 61]
  | [] => []

/-- One of the 64 characters of the base64 alphabet of RFC 4648. -/
def base64_alphabet (c : Nat) : Bool := (List.range 64).any fun v => rfc4648_char v == c

/-- The character at index `i` of `src` is one of the one or two trailing `=`
padding characters: it is among the last two, and from it to the end there
are only `=`. -/
def trailing_pad (src : List Nat) (i : Nat) : Prop :=
  src.length ≤ i + 2 ∧ ∀ j, i ≤ j → j < src.length → byte_at src j = 61

/-- The two tests of `base64_decode` on one character: its index is beyond the
decode table, or the table holds -1 for it. -/
def base64_decode.illegal (c : Nat) : Prop :=
  base64_decode.index c > 78 ∨
    base64_decode.value (base64_decode.index c) = base64_decode.none_value

/-! ## Arrays (cute_array.h) -/

/-- The hidden header `cf_ahdr_t` of cute_array.h together with the elements
that follow it in memory: `data i` is the element `a[i]`. -/
structure cf_ahdr_t (α : Type) where
  size : Int
  capacity : Int
  is_static : Bool
  data : Int → α
  cookie : Nat

/-- The macro `cf_array_size` (and `asize`): the number of elements, 0 for
`NULL`. An array pointer is `none` when it is `NULL`. -/
def cf_array_size {α : Type} (a : Option (cf_ahdr_t α)) : Int :=
  match a with
  | some hdr => hdr.size
  | none => 0

/-- The C++ `array<T>` of cute_array.h. -/
structure array (α : Type) where
  m_ptr : Option (cf_ahdr_t α) := none

/-- The `array<T>::count` of cute_array.h. -/
def array.count {α : Type} (self : array α) : Int := cf_array_size self.m_ptr

/-- The `cf_iv2` of cute_a_star.cpp. -/
structure cf_iv2 where
  x : Int
  y : Int
deriving DecidableEq, Repr

/-- The `cf_node_t` of cute_a_star.cpp. The floats are carried as rationals, and
the `parent` pointer is the index of the parent in the node array (`none` for
`NULL`). -/
structure cf_node_t where
  p : cf_iv2
  h : ℚ
  g : ℚ
  f : ℚ
  visited : Bool
  parent : Option Nat
deriving DecidableEq

/-- A node whose members are all zero, for reads outside the node array. -/
def cf_node_t.zero : cf_node_t := ⟨⟨0, 0⟩, 0, 0, 0, false, none⟩

/-- The `FLT_MAX` of float.h. -/
def FLT_MAX : ℚ := 340282346638528859811704183484516925440

/-- Modelled from the spec: `cf_priority_queue` is declared in
cute_priority_queue.h, which is not among the sources. A queue of values with
their costs, from which `pop_min` takes a value of least cost. -/
structure cf_priority_queue (α : Type) where
  entries : List (α × ℚ) := []

/-- Modelled from the spec: `cf_priority_queue::count`, the number of entries. -/
def cf_priority_queue.count {α : Type} (self : cf_priority_queue α) : Nat :=
  self.entries.length

/-- Modelled from the spec: `cf_priority_queue::clear`. -/
def cf_priority_queue.clear {α : Type} (_self : cf_priority_queue α) : cf_priority_queue α :=
  { entries := [] }

/-- Modelled from the spec: `cf_priority_queue::push_min`, which adds a value with
its cost. -/
def cf_priority_queue.push_min {α : Type} (self : cf_priority_queue α) (val : α) (cost : ℚ) :
    cf_priority_queue α :=
  { entries := self.entries ++ [(val, cost)] }

/-- The first entry of least cost among `entries`, with the other entries. -/
def cf_priority_queue.take_min {α : Type} : List (α × ℚ) → Option ((α × ℚ) × List (α × ℚ))
  | [] => none
  | e :: rest =>
    match cf_priority_queue.take_min rest with
    | none => some (e, [])
    | some (m, others) => if e.2 ≤ m.2 then some (e, rest) else some (m, e :: others)

/-- Modelled from the spec: `cf_priority_queue::pop_min`, which takes a value of
least cost out of the queue; `none` on an empty queue. -/
def cf_priority_queue.pop_min {α : Type} (self : cf_priority_queue α) :
    Option (α × cf_priority_queue α) :=
  match cf_priority_queue.take_min self.entries with
  | none => none
  | some (m, others) => some (m.1, { entries := others })

/-- The `cf_a_star_grid_t` of cute_a_star.cpp. A pointer to a node is the index
of the node in `nodes`. -/
structure cf_a_star_grid_t where
  w : Int := 0
  h : Int := 0
  cells : List Int := []
  nodes : List cf_node_t := []
  open_list : cf_priority_queue Nat := {}

/-- The `cf_a_star_grid_t::reset` of cute_a_star.cpp. -/
def cf_a_star_grid_t.reset (grid : cf_a_star_grid_t) : cf_a_star_grid_t :=
  { grid with
    nodes :=
      (List.range grid.w.toNat).foldl
        (fun nodes i =>
          (List.range grid.h.toNat).foldl
            (fun nodes j =>
              nodes.set (j * grid.w.toNat + i)
                { p := ⟨i, j⟩, visited := false, f := FLT_MAX, g := 0, h := 0, parent := none })
            nodes)
        grid.nodes
    open_list := grid.open_list.clear }

/-- The `cf_internal_s_heuristic` of cute_a_star.cpp, in exact arithmetic. -/
def cf_internal_s_heuristic (a b : cf_iv2) (allow_diagonals : ℚ) : ℚ :=
  let dx : ℚ := ((|a.x - b.x| : Int) : ℚ)
  let dy : ℚ := ((|a.y - b.y| : Int) : ℚ)
  let diagonal := min dx dy * allow_diagonals
  let manhattan := dx + dy
  let chebyshev := (14142135 / 10000000 : ℚ) * diagonal + (manhattan - 2 * diagonal)
  chebyshev

/-- The `cf_a_star_make_grid` of cute_a_star.cpp; `ensure_count` gives the node
array `w * h` nodes, here zero nodes. -/
def cf_a_star_make_grid (w h : Int) (cells : List Int) : cf_a_star_grid_t :=
  { w := w, h := h, cells := cells, nodes := List.replicate (w * h).toNat cf_node_t.zero }

/-- The members of `a_star_input_t` that `a_star` reads; the struct is declared
in cute_a_star.h, which is not among the sources. -/
structure a_star_input_t where
  allow_diagonal_movement : Bool := true
  start_x : Int := 0
  start_y : Int := 0
  end_x : Int := 0
  end_y : Int := 0
  cell_to_cost : List ℚ := []

/-- The members of `a_star_output_t` that `a_star` writes; the struct is declared
in cute_a_star.h, which is not among the sources. -/
structure a_star_output_t where
  x : List Int := []
  y : List Int := []
deriving DecidableEq, Repr

/-- The macro `CUTE_A_STAR_ADD_SUCCESSOR` of `a_star`: the array `next` after it. -/
def CUTE_A_STAR_ADD_SUCCESSOR (w h : Int) (next : List Nat) (x y : Int) : List Nat :=
  if x ≥ 0 ∧ x < w ∧ y ≥ 0 ∧ y < h then next ++ [(y * w + x).toNat] else next

/-- The successors that `a_star` collects in `next` for the node at `qp`. -/
def a_star.successors (w h : Int) (qp : cf_iv2) (allow_diagonal_movement : Bool) : List Nat :=
  let next : List Nat := []
  let next := CUTE_A_STAR_ADD_SUCCESSOR w h next (qp.x + 1) qp.y
  let next := CUTE_A_STAR_ADD_SUCCESSOR w h next qp.x (qp.y + 1)
  let next := CUTE_A_STAR_ADD_SUCCESSOR w h next (qp.x - 1) qp.y
  let next := CUTE_A_STAR_ADD_SUCCESSOR w h next qp.x (qp.y - 1)
  if allow_diagonal_movement then
    let next := CUTE_A_STAR_ADD_SUCCESSOR w h next (qp.x + 1) (qp.y + 1)
    let next := CUTE_A_STAR_ADD_SUCCESSOR w h next (qp.x - 1) (qp.y + 1)
    let next := CUTE_A_STAR_ADD_SUCCESSOR w h next (qp.x + 1) (qp.y - 1)
    CUTE_A_STAR_ADD_SUCCESSOR w h next (qp.x - 1) (qp.y - 1)
  else next

/-- One pass of the `for` loop of `a_star` over `next`, for the successor at
index `n` of the node at index `q`: the nodes and the open list afterwards. -/
def a_star.visit (w : Int) (cells : List Int) (cell_to_cost : List ℚ) (e : cf_iv2)
    (allow_diagonals : ℚ) (q : Nat) (state : List cf_node_t × cf_priority_queue Nat) (n : Nat) :
    List cf_node_t × cf_priority_queue Nat :=
  let node := state.1.getD n cf_node_t.zero
  let index := node.p.y * w + node.p.x
  let cell_cost := cell_to_cost.getD (cells.getD index.toNat 0).toNat 0
  let non_traversable := decide (cell_cost ≤ 0)
  let g := node.g + cell_cost
  if node.visited then state
  else if non_traversable then state
  else if node.g ≤ g then state
  else
    let h := cf_internal_s_heuristic node.p e allow_diagonals
    (state.1.set n { node with g := g, h := h, f := g + h, parent := some q, visited := true },
      state.2.push_min n (g + h))

/-- The loop `while (q->parent)` of `a_star` from the node at index `q`: the
output afterwards, before it is reversed. `fuel` bounds the number of passes. -/
def a_star.trace (nodes : List cf_node_t) : Nat → Nat → a_star_output_t → a_star_output_t
  | 0, _, output => output
  | fuel + 1, q, output =>
    let node := nodes.getD q cf_node_t.zero
    match node.parent with
    | none => output
    | some parent =>
      a_star.trace nodes fuel parent { x := output.x ++ [node.p.x], y := output.y ++ [node.p.y] }

/-- The loop `while (open_list.count())` of `a_star` with what follows it: the
returned `bool` and the output. `fuel` bounds the number of passes; `none`
when it runs out. -/
def a_star.loop (w h : Int) (cells : List Int) (input : a_star_input_t) (e : cf_iv2)
    (allow_diagonals : ℚ) :
    Nat → List cf_node_t → cf_priority_queue Nat → a_star_output_t →
      Option (Bool × a_star_output_t)
  | 0, _, open_list, output => if open_list.count = 0 then some (false, output) else none
  | fuel + 1, nodes, open_list, output =>
    match open_list.pop_min with
    | none => some (false, output)
    | some (q, open_list) =>
      let qp := (nodes.getD q cf_node_t.zero).p
      if qp.x = e.x ∧ qp.y = e.y then
        let traced := a_star.trace nodes nodes.length q output
        some (true, { x := traced.x.reverse, y := traced.y.reverse })
      else
        let next := a_star.successors w h qp input.allow_diagonal_movement
        let state := next.foldl
          (a_star.visit w cells input.cell_to_cost e allow_diagonals q) (nodes, open_list)
        a_star.loop w h cells input e allow_diagonals fuel state.1 state.2 output

/-- The `a_star` of cute_a_star.cpp, called with an output: the returned `bool`
and the output. `fuel` bounds the passes of the main loop. -/
def a_star (const_grid : cf_a_star_grid_t) (input : a_star_input_t) (fuel : Nat) :
    Option (Bool × a_star_output_t) :=
  let grid := const_grid.reset
  let s : cf_iv2 := ⟨input.start_x, input.start_y⟩
  let e : cf_iv2 := ⟨input.end_x, input.end_y⟩
  let allow_diagonals : ℚ := if input.allow_diagonal_movement then 1 else 0
  let output : a_star_output_t := {}
  if s.x = e.x ∧ s.y = e.y then some (true, { x := output.x ++ [s.x], y := output.y ++ [s.y] })
  else
    let index := (s.y * grid.w + s.x).toNat
    let initial := grid.nodes.getD index cf_node_t.zero
    let h := cf_internal_s_heuristic s e allow_diagonals
    let initial := { initial with g := 0, h := h, f := h, visited := true }
    let nodes := grid.nodes.set index initial
    let open_list := grid.open_list.push_min index initial.f
    a_star.loop grid.w grid.h grid.cells input e allow_diagonals fuel nodes open_list output

/-- A grid of two cells side by side, both of cell kind 0. -/
def sample_grid : cf_a_star_grid_t := cf_a_star_make_grid 2 1 [0, 0]

/-- From the left cell of `sample_grid` to the right one, every cell of cost 1. -/
def sample_a_star_input : a_star_input_t :=
  { allow_diagonal_movement := false, start_x := 0, start_y := 0, end_x := 1, end_y := 0,
    cell_to_cost := [1] }


/-! ## The intrusive doubly linked list (cute_doubly_list.h) -/

/-- The `cf_list_node_t` of cute_doubly_list.h. A pointer to a node is the
address of the node. -/
structure cf_list_node_t where
  next : Nat
  prev : Nat
deriving DecidableEq, Repr

/-- The `cf_list_init_node` of cute_doubly_list.h, on the memory `heap` that
holds the nodes by address. -/
def cf_list_init_node (heap : Nat → cf_list_node_t) (node : Nat) : Nat → cf_list_node_t :=
  let heap := Function.update heap node { heap node with next := node }
  Function.update heap node { heap node with prev := node }

/-- The `cf_list_init` of cute_doubly_list.h. The sentinel `nodes` is the first
member of `cf_list_t`, so `&list->nodes` is the address `list`. -/
def cf_list_init (heap : Nat → cf_list_node_t) (list : Nat) : Nat → cf_list_node_t :=
  cf_list_init_node heap list

/-- The `cf_list_push_front` of cute_doubly_list.h, one assignment after the
other. -/
def cf_list_push_front (heap : Nat → cf_list_node_t) (list node : Nat) : Nat → cf_list_node_t :=
  let heap := Function.update heap node { heap node with next := (heap list).next }
  let heap := Function.update heap node { heap node with prev := list }
  let heap := Function.update heap (heap list).next { heap (heap list).next with prev := node }
  Function.update heap list { heap list with next := node }

/-- The `cf_list_push_back` of cute_doubly_list.h, one assignment after the
other. -/
def cf_list_push_back (heap : Nat → cf_list_node_t) (list node : Nat) : Nat → cf_list_node_t :=
  let heap := Function.update heap node { heap node with prev := (heap list).prev }
  let heap := Function.update heap node { heap node with next := list }
  let heap := Function.update heap (heap list).prev { heap (heap list).prev with next := node }
  Function.update heap list { heap list with prev := node }

/-- The `cf_list_remove` of cute_doubly_list.h, one assignment after the other. -/
def cf_list_remove (heap : Nat → cf_list_node_t) (node : Nat) : Nat → cf_list_node_t :=
  let heap := Function.update heap (heap node).prev
    { heap (heap node).prev with next := (heap node).next }
  let heap := Function.update heap (heap node).next
    { heap (heap node).next with prev := (heap node).prev }
  cf_list_init_node heap node

/-- The `cf_list_pop_front` of cute_doubly_list.h: the returned node and the
memory afterwards. -/
def cf_list_pop_front (heap : Nat → cf_list_node_t) (list : Nat) :
    Nat × (Nat → cf_list_node_t) :=
  let node := (heap list).next
  (node, cf_list_remove heap node)

/-- The `cf_list_pop_back` of cute_doubly_list.h: the returned node and the
memory afterwards. -/
def cf_list_pop_back (heap : Nat → cf_list_node_t) (list : Nat) :
    Nat × (Nat → cf_list_node_t) :=
  let node := (heap list).prev
  (node, cf_list_remove heap node)

/-- The `cf_list_empty` of cute_doubly_list.h. -/
def cf_list_empty (heap : Nat → cf_list_node_t) (list : Nat) : Bool :=
  decide ((heap list).next = (heap list).prev ∧ (heap list).next = list)

/-- The node at `n` is linked in the list at `list`: it is the sentinel of the
list, or the `next` or the `prev` of a node linked in it. -/
inductive cf_list_linked (heap : Nat → cf_list_node_t) (list : Nat) : Nat → Prop
  | sentinel : cf_list_linked heap list list
  | next (n : Nat) : cf_list_linked heap list n → cf_list_linked heap list (heap n).next
  | prev (n : Nat) : cf_list_linked heap list n → cf_list_linked heap list (heap n).prev

/-- The links at the node `n` are consistent: `n.next.prev == n` and
`n.prev.next == n`. -/
def cf_list_node_consistent (heap : Nat → cf_list_node_t) (n : Nat) : Prop :=
  (heap (heap n).next).prev = n ∧ (heap (heap n).prev).next = n

/-- Link consistency of the list at `list`: the links are consistent at the
sentinel and at every node linked in the list. -/
def cf_list_consistent (heap : Nat → cf_list_node_t) (list : Nat) : Prop :=
  ∀ n, cf_list_linked heap list n → cf_list_node_consistent heap n

/-- A memory for worked inputs, every node zeroed. -/
def sample_list_heap : Nat → cf_list_node_t := fun _ => ⟨0, 0⟩

/-! # Theorems -/

set_option maxRecDepth 100000

theorem CUTE_STRNCMP_eq_zero_iff (n : Nat) :
    ∀ s1 s2 : List Nat, CUTE_STRNCMP s1 s2 n = 0 ↔ c_string n s1 = c_string n s2 := by
  induction n with
  | zero => intro s1 s2; simp [CUTE_STRNCMP, c_string]
  | succ n ih =>
    intro s1 s2
    have hsub : ∀ a b : Nat, a ≠ b → (a : Int) - (b : Int) ≠ 0 := by
      intro a b hab h
      apply hab
      omega
    rcases s1 with _ | ⟨x, xs⟩ <;> rcases s2 with _ | ⟨y, ys⟩
    · simp [CUTE_STRNCMP, c_string]
    · by_cases hy : y = 0
      · subst hy; simp [CUTE_STRNCMP, c_string]
      · have h0 : (0 : Nat) ≠ y := fun h => hy h.symm
        simp [CUTE_STRNCMP, c_string, List.takeWhile_cons, hy, h0]
    · by_cases hx : x = 0
      · subst hx; simp [CUTE_STRNCMP, c_string]
      · simp [CUTE_STRNCMP, c_string, List.takeWhile_cons, hx]
    · by_cases hxy : x = y
      · subst hxy
        by_cases hx : x = 0
        · subst hx; simp [CUTE_STRNCMP, c_string]
        · have := ih xs ys
          simp [CUTE_STRNCMP, c_string, List.takeWhile_cons, hx] at this ⊢
          exact this
      · have h1 := hsub x y hxy
        by_cases hx : x = 0
        · subst hx
          have hy : y ≠ 0 := fun h => hxy h.symm
          simp [CUTE_STRNCMP, c_string, List.takeWhile_cons, hy, hxy]
        · by_cases hy : y = 0
          · subst hy
            simp [CUTE_STRNCMP, c_string, List.takeWhile_cons, hx]
          · simp [CUTE_STRNCMP, c_string, List.takeWhile_cons, hx, hy, hxy, h1]

theorem s_client_index_from_endpoint.loop_spec (endpoints : Nat → endpoint_t) (e : endpoint_t) :
    ∀ remaining i : Nat, i + remaining ≤ INT_MAX →
      (s_client_index_from_endpoint.loop endpoints e remaining i = UINT32_MAX ∧
        ∀ j, i ≤ j → j < i + remaining → endpoint_equals (endpoints j) e = false) ∨
      (i ≤ s_client_index_from_endpoint.loop endpoints e remaining i ∧
        s_client_index_from_endpoint.loop endpoints e remaining i < i + remaining ∧
        endpoint_equals (endpoints (s_client_index_from_endpoint.loop endpoints e remaining i)) e
          = true ∧
        ∀ j, i ≤ j → j < s_client_index_from_endpoint.loop endpoints e remaining i →
          endpoint_equals (endpoints j) e = false) := by
  intro remaining
  induction remaining with
  | zero =>
    intro i _
    left
    refine ⟨rfl, ?_⟩
    intro j h1 h2
    omega
  | succ r ih =>
    intro i hi
    unfold s_client_index_from_endpoint.loop
    by_cases heq : endpoint_equals (endpoints i) e = true
    · right
      have hmod : i % 2 ^ 32 = i := Nat.mod_eq_of_lt (by unfold INT_MAX at hi; omega)
      rw [if_pos heq, hmod]
      refine ⟨le_refl _, by omega, heq, ?_⟩
      intro j h1 h2
      omega
    · have hf : endpoint_equals (endpoints i) e = false := by
        cases h : endpoint_equals (endpoints i) e
        · rfl
        · exact absurd h heq
      rw [if_neg heq]
      rcases ih (i + 1) (by omega) with ⟨h1, h2⟩ | ⟨h1, h2, h3, h4⟩
      · left
        refine ⟨h1, ?_⟩
        intro j hj1 hj2
        by_cases hji : j = i
        · subst hji; exact hf
        · exact h2 j (by omega) (by omega)
      · right
        refine ⟨by omega, by omega, h3, ?_⟩
        intro j hj1 hj2
        by_cases hji : j = i
        · subst hji; exact hf
        · exact h4 j (by omega) hj2

/-! ## Lemmas on the slot table -/

theorem s_client_make_of_full (server : server_t) (endpoint : endpoint_t)
    (session_key : crypto_key_t) (loopback : Int) (sequence_offset : Nat) (queue_init : Int)
    (h : server.client_count = CUTE_SERVER_MAX_CLIENTS) :
    s_client_make server endpoint session_key loopback sequence_offset queue_init
      = (UINT32_MAX, server) := by
  simp [s_client_make, h]

theorem s_client_make_of_not_full (server : server_t) (endpoint : endpoint_t)
    (session_key : crypto_key_t) (loopback : Int) (sequence_offset : Nat) (queue_init : Int)
    (h : server.client_count ≠ CUTE_SERVER_MAX_CLIENTS) :
    s_client_make server endpoint session_key loopback sequence_offset queue_init
      = (if queue_init ≠ 0 then UINT32_MAX else server.client_count % 2 ^ 32,
        { server with
          client_count := server.client_count + 1
          client_handle_table :=
            (handle_table_alloc
              (handle_table_alloc server.client_handle_table (server.client_count % 2 ^ 32)).2
              (server.client_count % 2 ^ 32)).2
          client_handle := Function.update server.client_handle (server.client_count % 2 ^ 32)
            (handle_table_alloc server.client_handle_table (server.client_count % 2 ^ 32)).1
          client_is_connected :=
            Function.update server.client_is_connected (server.client_count % 2 ^ 32) 1
          client_is_loopback :=
            Function.update server.client_is_loopback (server.client_count % 2 ^ 32) loopback
          client_last_packet_recieved_time :=
            Function.update server.client_last_packet_recieved_time
              (server.client_count % 2 ^ 32) 0
          client_endpoint :=
            Function.update server.client_endpoint (server.client_count % 2 ^ 32) endpoint
          client_sequence_offset :=
            Function.update server.client_sequence_offset (server.client_count % 2 ^ 32)
              sequence_offset
          client_sequence := Function.update server.client_sequence (server.client_count % 2 ^ 32) 0
          client_nonce_buffer :=
            Function.update server.client_nonce_buffer (server.client_count % 2 ^ 32)
              nonce_buffer_init
          client_id := Function.update server.client_id (server.client_count % 2 ^ 32)
            (handle_table_alloc
              (handle_table_alloc server.client_handle_table (server.client_count % 2 ^ 32)).2
              (server.client_count % 2 ^ 32)).1
          client_session_key :=
            Function.update server.client_session_key (server.client_count % 2 ^ 32) session_key
          client_packets :=
            Function.update server.client_packets (server.client_count % 2 ^ 32) {} }) := by
  unfold s_client_make
  rw [if_neg h]
  dsimp only [packet_queue_init]
  split <;> rfl

theorem s_client_make_client_count (server : server_t) (endpoint : endpoint_t)
    (session_key : crypto_key_t) (loopback : Int) (sequence_offset : Nat) (queue_init : Int)
    (h : server.client_count ≠ CUTE_SERVER_MAX_CLIENTS) :
    (s_client_make server endpoint session_key loopback sequence_offset queue_init).2.client_count
      = server.client_count + 1 := by
  unfold s_client_make
  rw [if_neg h]
  dsimp only
  split <;> rfl

theorem s_client_make_seq_client_count :
    ∀ (calls : List make_call) (server : server_t),
      server.client_count + calls.length ≤ CUTE_SERVER_MAX_CLIENTS →
      (s_client_make_seq server calls).client_count = server.client_count + calls.length := by
  intro calls
  induction calls with
  | nil => intro server _; rfl
  | cons c cs ih =>
    intro server h
    simp only [List.length_cons] at h
    have hne : server.client_count ≠ CUTE_SERVER_MAX_CLIENTS := by omega
    have hc := s_client_make_client_count server c.endpoint c.session_key c.loopback
      c.sequence_offset c.queue_init hne
    unfold s_client_make_seq
    rw [ih _ (by rw [hc]; omega), hc, List.length_cons]
    omega

theorem handle_table_get_index_some (table : handle_table_t) (handle : handle_t) (i : Nat)
    (h : handle_table_get_index table handle = some i) :
    ∃ entry : handle_entry_t, handle.index < table.handles.length ∧
      table.handles[handle.index]? = some entry ∧
      entry.generation = handle.generation ∧ entry.user_index = i := by
  unfold handle_table_get_index at h
  rw [List.get?_eq_getElem?] at h
  cases hget : table.handles[handle.index]? with
  | none => rw [hget] at h; cases h
  | some entry =>
    rw [hget] at h
    dsimp only at h
    have hlt : handle.index < table.handles.length := by
      rcases List.getElem?_eq_some_iff.mp hget with ⟨hl, _⟩
      exact hl
    by_cases hgen : entry.generation = handle.generation
    · rw [if_pos hgen] at h
      exact ⟨entry, hlt, rfl, hgen, Option.some.inj h⟩
    · rw [if_neg hgen] at h
      cases h

theorem handle_table_free_stale (table : handle_table_t) (handle : handle_t) (i : Nat)
    (h : handle_table_get_index table handle = some i) :
    handle_table_get_index (handle_table_free table handle) handle = none := by
  obtain ⟨entry, hlt, hget, hgen, _⟩ := handle_table_get_index_some table handle i h
  have hne : ¬ (entry.generation + 1 = handle.generation) := by omega
  simp [handle_table_get_index, handle_table_free, List.getD_eq_getElem?_getD, hget,
    List.getElem?_set, hlt, hne]

theorem handle_table_alloc_after_free (table : handle_table_t) (handle : handle_t) (i k : Nat)
    (h : handle_table_get_index table handle = some i) :
    (handle_table_alloc (handle_table_free table handle) k).1 ≠ handle := by
  obtain ⟨entry, hlt, hget, hgen, _⟩ := handle_table_get_index_some table handle i h
  intro heq
  have hg := congrArg handle_t.generation heq
  simp [handle_table_alloc, handle_table_free, List.getD_eq_getElem?_getD, hget,
    List.getElem?_set, hlt] at hg
  omega

theorem server_disconnect_client_eq (server server1 : server_t) (client_id : handle_t)
    (h : server_disconnect_client server client_id = some server1) :
    ∃ index, handle_table_get_index server.client_handle_table client_id = some index ∧
      server1 = { server with
        client_is_connected := Function.update server.client_is_connected index 0
        client_packets := Function.update server.client_packets index
          (pack_queue_clean_up (server.client_packets index))
        client_handle_table := handle_table_free server.client_handle_table client_id } := by
  unfold server_disconnect_client at h
  cases hg : handle_table_get_index server.client_handle_table client_id with
  | none => rw [hg] at h; cases h
  | some index =>
    rw [hg] at h
    exact ⟨index, rfl, (Option.some.inj h).symm⟩

/-! ## The slot table: allocation, release, lookup -/

/-- C1, as stated, fails: on a server configured with `max_clients = 1` that
already has one client, `s_client_make` does not return `UINT32_MAX`; it hands
out slot 1 and the table then has two clients. -/
theorem s_client_make_ignores_config_max_clients :
    capped_server.config.max_clients = 1 ∧
    capped_server.client_count = 1 ∧
    (s_client_make capped_server (sample_call 1).endpoint (sample_call 1).session_key 0 14 0).1
      = 1 ∧
    (s_client_make capped_server (sample_call 1).endpoint (sample_call 1).session_key 0 14 0).1
      ≠ UINT32_MAX ∧
    (s_client_make capped_server (sample_call 1).endpoint (sample_call 1).session_key 0 14
      0).2.client_count = 2 := by
  decide

/-- C1, amended: `s_client_make` returns `UINT32_MAX` and leaves the server as it
is whenever `client_count` has reached `CUTE_SERVER_MAX_CLIENTS`, whatever
`config.max_clients` is; in particular, once `s_client_make` has been called
on a table as many times as brings `client_count` to `CUTE_SERVER_MAX_CLIENTS`
(256 calls on an empty table), the next call returns `UINT32_MAX`. -/
theorem s_client_make_full_at_capacity (server : server_t) (calls : List make_call)
    (endpoint : endpoint_t) (session_key : crypto_key_t) (loopback : Int)
    (sequence_offset : Nat) (queue_init : Int)
    (h : server.client_count + calls.length = CUTE_SERVER_MAX_CLIENTS) :
    s_client_make (s_client_make_seq server calls) endpoint session_key loopback
        sequence_offset queue_init
      = (UINT32_MAX, s_client_make_seq server calls) := by
  apply s_client_make_of_full
  rw [s_client_make_seq_client_count calls server (le_of_eq h), h]

/-- C1 (amended) on the worked full server: 256 calls on the started server, and the 257th call returns `UINT32_MAX` and changes nothing. -/
theorem s_client_make_full_at_capacity_witness :
    (started none).client_count + ((List.range 256).map sample_call).length
        = CUTE_SERVER_MAX_CLIENTS ∧
    s_client_make full_server (sample_call 256).endpoint (sample_call 256).session_key 0 5 0
      = (UINT32_MAX, full_server) :=
  ⟨by decide,
    s_client_make_full_at_capacity (started none) ((List.range 256).map sample_call)
      (sample_call 256).endpoint (sample_call 256).session_key 0 5 0 (by decide)⟩

/-- C2, as stated, fails: on the full table, after `server_disconnect_client` on
the valid handle `client_id[0]` (which maps to slot 0), the next
`s_client_make` still returns `UINT32_MAX`. -/
theorem s_client_make_after_disconnect_still_full :
    full_server.client_count = CUTE_SERVER_MAX_CLIENTS ∧
    handle_table_get_index full_server.client_handle_table (full_server.client_id 0) = some 0 ∧
    (server_disconnect_client full_server (full_server.client_id 0)).map
        (fun s => (s_client_make s (sample_call 256).endpoint (sample_call 256).session_key
          0 5 0).1)
      = some UINT32_MAX := by
  decide

/-- C2, amended: after the slot table has become full, `server_disconnect_client`
on a valid handle does not give the client slot back to `s_client_make`:
`client_count` stays at `CUTE_SERVER_MAX_CLIENTS` and the next `s_client_make`
returns `UINT32_MAX` and changes nothing. What is released is the handle: it
is stale afterwards, and a handle that the handle table allocates next differs
from it. -/
theorem server_disconnect_client_keeps_table_full (server server1 : server_t)
    (client_id : handle_t) (endpoint : endpoint_t) (session_key : crypto_key_t)
    (loopback : Int) (sequence_offset : Nat) (queue_init : Int) (index : Nat)
    (hfull : server.client_count = CUTE_SERVER_MAX_CLIENTS)
    (hd : server_disconnect_client server client_id = some server1) :
    server1.client_count = CUTE_SERVER_MAX_CLIENTS ∧
    s_client_make server1 endpoint session_key loopback sequence_offset queue_init
      = (UINT32_MAX, server1) ∧
    handle_table_get_index server1.client_handle_table client_id = none ∧
    (handle_table_alloc server1.client_handle_table index).1 ≠ client_id := by
  obtain ⟨i, hi, rfl⟩ := server_disconnect_client_eq server server1 client_id hd
  refine ⟨hfull, s_client_make_of_full _ _ _ _ _ _ hfull, ?_, ?_⟩
  · exact handle_table_free_stale _ _ i hi
  · exact handle_table_alloc_after_free _ _ i index hi

/-- C2 (amended) on the worked full server, disconnecting the handle `client_id[0]`. -/
theorem server_disconnect_client_keeps_table_full_witness :
    full_server.client_count = CUTE_SERVER_MAX_CLIENTS ∧
    server_disconnect_client full_server ⟨1, 0⟩
      = some ((server_disconnect_client full_server ⟨1, 0⟩).getD full_server) ∧
    s_client_make ((server_disconnect_client full_server ⟨1, 0⟩).getD full_server)
        (sample_call 256).endpoint (sample_call 256).session_key 0 5 0
      = (UINT32_MAX, (server_disconnect_client full_server ⟨1, 0⟩).getD full_server) :=
  have hd : server_disconnect_client full_server ⟨1, 0⟩
      = some ((server_disconnect_client full_server ⟨1, 0⟩).getD full_server) := by
    have hg : handle_table_get_index full_server.client_handle_table ⟨1, 0⟩ = some 0 := by
      decide
    simp [server_disconnect_client, hg]
  ⟨by decide, hd,
    (server_disconnect_client_keeps_table_full full_server _ ⟨1, 0⟩
      (sample_call 256).endpoint (sample_call 256).session_key 0 5 0 0 (by decide) hd).2.1⟩

/-- C3, as stated, fails: after `server_disconnect_client` on the valid handle
`client_id[0]` of the one client (slot index 0), `client_session_key[0]` is
still the session's key `[0, 7, 7, 7]`, so not every byte of it is zero. -/
theorem server_disconnect_client_keeps_session_key :
    handle_table_get_index one_client.client_handle_table (one_client.client_id 0) = some 0 ∧
    (server_disconnect_client one_client (one_client.client_id 0)).map
        (fun s => s.client_session_key 0) = some ⟨[0, 7, 7, 7]⟩ ∧
    (server_disconnect_client one_client (one_client.client_id 0)).map
        (fun s => (s.client_session_key 0).key.all (fun b => decide (b = 0))) = some false := by
  decide

/-- C3, amended: after `server_disconnect_client(handle)` on a valid client
handle whose slot index is i, the session key material of that slot is not
cleared: `client_session_key[i]`, like the key of every other slot, is what it
was before the call. -/
theorem server_disconnect_client_session_key (server server1 : server_t) (client_id : handle_t)
    (i : Nat)
    (_hi : handle_table_get_index server.client_handle_table client_id = some i)
    (hd : server_disconnect_client server client_id = some server1) :
    server1.client_session_key i = server.client_session_key i ∧
    server1.client_session_key = server.client_session_key := by
  obtain ⟨j, _, rfl⟩ := server_disconnect_client_eq server server1 client_id hd
  exact ⟨rfl, rfl⟩

/-- C3 (amended) on the server with one client, disconnecting the handle `client_id[0]`. -/
theorem server_disconnect_client_session_key_witness :
    handle_table_get_index one_client.client_handle_table ⟨1, 0⟩ = some 0 ∧
    server_disconnect_client one_client ⟨1, 0⟩
      = some ((server_disconnect_client one_client ⟨1, 0⟩).getD one_client) ∧
    ((server_disconnect_client one_client ⟨1, 0⟩).getD one_client).client_session_key 0
      = one_client.client_session_key 0 :=
  have hg : handle_table_get_index one_client.client_handle_table ⟨1, 0⟩ = some 0 := by decide
  have hd : server_disconnect_client one_client ⟨1, 0⟩
      = some ((server_disconnect_client one_client ⟨1, 0⟩).getD one_client) := by
    simp [server_disconnect_client, hg]
  ⟨hg, hd, (server_disconnect_client_session_key one_client _ ⟨1, 0⟩ 0 hg hd).1⟩

/-- C4: for every server state (whose `client_count` is a value of its C type
`int`) and every endpoint e, `s_client_index_from_endpoint` returns
`UINT32_MAX` if and only if no slot i below `client_count` has an endpoint
equal to e; otherwise it returns the smallest index below `client_count` whose
endpoint equals e. -/
theorem s_client_index_from_endpoint_spec (server : server_t) (e : endpoint_t)
    (hcount : server.client_count ≤ INT_MAX) :
    (s_client_index_from_endpoint server e = UINT32_MAX ↔
      ∀ i, i < server.client_count → endpoint_equals (server.client_endpoint i) e = false) ∧
    (s_client_index_from_endpoint server e ≠ UINT32_MAX →
      s_client_index_from_endpoint server e < server.client_count ∧
      endpoint_equals (server.client_endpoint (s_client_index_from_endpoint server e)) e = true ∧
      ∀ j, j < s_client_index_from_endpoint server e →
        endpoint_equals (server.client_endpoint j) e = false) := by
  have hspec := s_client_index_from_endpoint.loop_spec server.client_endpoint e
    server.client_count 0 (by omega)
  have hmax : INT_MAX < UINT32_MAX := by decide
  unfold s_client_index_from_endpoint
  rcases hspec with ⟨h1, h2⟩ | ⟨_, h2, h3, h4⟩
  · refine ⟨⟨fun _ i hi => h2 i (Nat.zero_le _) (by omega), fun _ => h1⟩, fun hne => absurd h1 hne⟩
  · have hlt : s_client_index_from_endpoint.loop server.client_endpoint e server.client_count 0
        < server.client_count := by omega
    refine ⟨⟨fun heq => ?_, fun hall => ?_⟩, fun _ => ⟨hlt, h3, fun j hj => h4 j (Nat.zero_le _) hj⟩⟩
    · omega
    · rw [hall _ hlt] at h3
      cases h3

/-- C4 on the worked full server and the endpoint of client 200. -/
theorem s_client_index_from_endpoint_spec_witness :
    full_server.client_count ≤ INT_MAX ∧
    s_client_index_from_endpoint full_server (sample_call 200).endpoint ≠ UINT32_MAX ∧
    s_client_index_from_endpoint full_server (sample_call 200).endpoint
      < full_server.client_count :=
  have hne : s_client_index_from_endpoint full_server (sample_call 200).endpoint
      ≠ UINT32_MAX := by decide
  ⟨by decide, hne,
    ((s_client_index_from_endpoint_spec full_server (sample_call 200).endpoint
      (by decide)).2 hne).1⟩

/-- C5, as stated, fails: after `server_disconnect_client` on the valid handle of
the one client, whose endpoint no other slot holds, the lookup with that
client's endpoint returns its slot index 0, not `UINT32_MAX`. -/
theorem s_client_index_from_endpoint_finds_disconnected :
    one_client.client_count = 1 ∧
    one_client.client_endpoint 0 = (sample_call 0).endpoint ∧
    (server_disconnect_client one_client (one_client.client_id 0)).map
        (fun s => (s.client_is_connected 0,
          s_client_index_from_endpoint s (sample_call 0).endpoint)) = some (0, 0) := by
  decide

/-- C5, amended: the endpoint lookup considers every slot below `client_count`,
connected or not: after `server_disconnect_client` on a valid handle,
`s_client_index_from_endpoint` returns for every endpoint what it returned
before, so a freed client's endpoint is still found. -/
theorem s_client_index_from_endpoint_after_disconnect (server server1 : server_t)
    (client_id : handle_t) (e : endpoint_t)
    (hd : server_disconnect_client server client_id = some server1) :
    s_client_index_from_endpoint server1 e = s_client_index_from_endpoint server e := by
  obtain ⟨j, _, rfl⟩ := server_disconnect_client_eq server server1 client_id hd
  rfl

/-- C5 (amended) on the server with one client, disconnecting the handle `client_id[0]`. -/
theorem s_client_index_from_endpoint_after_disconnect_witness :
    server_disconnect_client one_client ⟨1, 0⟩
      = some ((server_disconnect_client one_client ⟨1, 0⟩).getD one_client) ∧
    s_client_index_from_endpoint ((server_disconnect_client one_client ⟨1, 0⟩).getD one_client)
        (sample_call 0).endpoint
      = s_client_index_from_endpoint one_client (sample_call 0).endpoint :=
  have hg : handle_table_get_index one_client.client_handle_table ⟨1, 0⟩ = some 0 := by decide
  have hd : server_disconnect_client one_client ⟨1, 0⟩
      = some ((server_disconnect_client one_client ⟨1, 0⟩).getD one_client) := by
    simp [server_disconnect_client, hg]
  ⟨hd, s_client_index_from_endpoint_after_disconnect one_client _ ⟨1, 0⟩
    (sample_call 0).endpoint hd⟩

/-- C6: when `s_client_make` succeeds (does not return `UINT32_MAX`) on a table
with `client_count = n`, it returns index n, and afterwards `client_count` is
n + 1, `client_endpoint[n]` is the given endpoint, `client_session_key[n]` the
given session key, `client_sequence_offset[n]` the freshly drawn random
offset, `client_sequence[n]` and `client_last_packet_recieved_time[n]` are 0,
and the slot's nonce buffer is freshly initialised. -/
theorem s_client_make_success (server : server_t) (endpoint : endpoint_t)
    (session_key : crypto_key_t) (loopback : Int) (sequence_offset : Nat) (queue_init : Int)
    (hcount : server.client_count ≤ INT_MAX)
    (hok : (s_client_make server endpoint session_key loopback sequence_offset queue_init).1
      ≠ UINT32_MAX) :
    (s_client_make server endpoint session_key loopback sequence_offset queue_init).1
      = server.client_count ∧
    (s_client_make server endpoint session_key loopback sequence_offset
      queue_init).2.client_count = server.client_count + 1 ∧
    (s_client_make server endpoint session_key loopback sequence_offset
      queue_init).2.client_endpoint server.client_count = endpoint ∧
    (s_client_make server endpoint session_key loopback sequence_offset
      queue_init).2.client_session_key server.client_count = session_key ∧
    (s_client_make server endpoint session_key loopback sequence_offset
      queue_init).2.client_sequence_offset server.client_count = sequence_offset ∧
    (s_client_make server endpoint session_key loopback sequence_offset
      queue_init).2.client_sequence server.client_count = 0 ∧
    (s_client_make server endpoint session_key loopback sequence_offset
      queue_init).2.client_last_packet_recieved_time server.client_count = 0 ∧
    (s_client_make server endpoint session_key loopback sequence_offset
      queue_init).2.client_nonce_buffer server.client_count = nonce_buffer_init := by
  have hmod : server.client_count % 2 ^ 32 = server.client_count :=
    Nat.mod_eq_of_lt (by unfold INT_MAX at hcount; omega)
  by_cases hfull : server.client_count = CUTE_SERVER_MAX_CLIENTS
  · rw [s_client_make_of_full _ _ _ _ _ _ hfull] at hok
    exact absurd rfl hok
  · rw [s_client_make_of_not_full _ _ _ _ _ _ hfull] at hok ⊢
    by_cases hq : queue_init ≠ 0
    · rw [if_pos hq] at hok
      exact absurd rfl hok
    · rw [if_neg hq]
      simp only [Function.update_apply, hmod, if_true, and_self]

/-- C6 on the started server and the first client of the worked inputs. -/
theorem s_client_make_success_witness :
    (started none).client_count ≤ INT_MAX ∧
    (s_client_make (started none) (sample_call 0).endpoint (sample_call 0).session_key 0 3 0).1
      ≠ UINT32_MAX ∧
    (s_client_make (started none) (sample_call 0).endpoint (sample_call 0).session_key 0 3 0).1
      = (started none).client_count :=
  have hok : (s_client_make (started none) (sample_call 0).endpoint (sample_call 0).session_key
      0 3 0).1 ≠ UINT32_MAX := by decide
  ⟨by decide, hok,
    (s_client_make_success (started none) (sample_call 0).endpoint (sample_call 0).session_key
      0 3 0 (by decide) hok).1⟩

/-! ## The receive step -/

theorem s_server_recieve_packets.body_of_hello (E : net_env) (server : server_t) (d : datagram_t)
    (buffer version_buffer key : List Nat) (stream1 stream2 stream3 : serialize_t)
    (hunknown : s_client_index_from_endpoint server d.from_ = UINT32_MAX)
    (hfree : server.client_count ≠ CUTE_SERVER_MAX_CLIENTS)
    (hsize : ¬ d.bytes_read < E.CUTE_PACKET_SIZE_MAX)
    (hdec : E.crypto_decrypt_asymmetric server.public_key server.secret_key d.buffer
      E.CUTE_PACKET_SIZE_MAX = some buffer)
    (hver : E.serialize_bytes (serialize_reset_buffer buffer E.CUTE_PACKET_SIZE_MAX)
      E.CUTE_PROTOCOL_VERSION_STRING_LEN = some (version_buffer, stream1))
    (hmatch : CUTE_STRNCMP E.CUTE_PROTOCOL_VERSION version_buffer
      E.CUTE_PROTOCOL_VERSION_STRING_LEN = 0)
    (htype : E.serialize_uint64 stream1 0 E.PACKET_TYPE_MAX = some (E.PACKET_TYPE_HELLO, stream2))
    (hkey : E.serialize_bytes stream2 E.sizeof_crypto_key_t = some (key, stream3)) :
    s_server_recieve_packets.body E server d
      = (s_client_make server d.from_ ⟨key⟩ 0 d.random d.queue_init).2 := by
  unfold s_server_recieve_packets.body
  simp only [hunknown, if_true, if_neg hfree, if_neg hsize, hdec, hver, hmatch, htype, hkey,
    ne_eq, not_true_eq_false, if_false, ite_self]

/-- C7: for a datagram from an endpoint that is not in the slot table, that is
exactly `CUTE_PACKET_SIZE_MAX` bytes long, decrypts successfully, begins with
the protocol version string and carries packet type HELLO and a key, when a
free slot exists, the receive step allocates exactly one new slot:
`client_count` grows by one, the new slot's endpoint is the sender and its
session key is the key carried in the packet, and no other slot changes. -/
theorem s_server_recieve_packets_accepts_hello (E : net_env) (server : server_t)
    (d : datagram_t) (buffer version_buffer key : List Nat)
    (stream1 stream2 stream3 : serialize_t)
    (hunknown : s_client_index_from_endpoint server d.from_ = UINT32_MAX)
    (hfree : server.client_count < CUTE_SERVER_MAX_CLIENTS)
    (hsize : d.bytes_read = E.CUTE_PACKET_SIZE_MAX)
    (hdec : E.crypto_decrypt_asymmetric server.public_key server.secret_key d.buffer
      E.CUTE_PACKET_SIZE_MAX = some buffer)
    (hver : E.serialize_bytes (serialize_reset_buffer buffer E.CUTE_PACKET_SIZE_MAX)
      E.CUTE_PROTOCOL_VERSION_STRING_LEN = some (version_buffer, stream1))
    (hmatch : c_string E.CUTE_PROTOCOL_VERSION_STRING_LEN version_buffer
      = c_string E.CUTE_PROTOCOL_VERSION_STRING_LEN E.CUTE_PROTOCOL_VERSION)
    (htype : E.serialize_uint64 stream1 0 E.PACKET_TYPE_MAX = some (E.PACKET_TYPE_HELLO, stream2))
    (hkey : E.serialize_bytes stream2 E.sizeof_crypto_key_t = some (key, stream3)) :
    (s_server_recieve_packets.body E server d).client_count = server.client_count + 1 ∧
    (s_server_recieve_packets.body E server d).client_endpoint server.client_count = d.from_ ∧
    (s_server_recieve_packets.body E server d).client_session_key server.client_count = ⟨key⟩ ∧
    ∀ j, j ≠ server.client_count →
      client_slot (s_server_recieve_packets.body E server d) j = client_slot server j := by
  have hne : server.client_count ≠ CUTE_SERVER_MAX_CLIENTS := Nat.ne_of_lt hfree
  have hmod : server.client_count % 2 ^ 32 = server.client_count :=
    Nat.mod_eq_of_lt (by unfold CUTE_SERVER_MAX_CLIENTS at hfree; omega)
  have hcmp : CUTE_STRNCMP E.CUTE_PROTOCOL_VERSION version_buffer
      E.CUTE_PROTOCOL_VERSION_STRING_LEN = 0 :=
    (CUTE_STRNCMP_eq_zero_iff _ _ _).mpr hmatch.symm
  rw [s_server_recieve_packets.body_of_hello E server d buffer version_buffer key stream1
    stream2 stream3 hunknown hne (by omega) hdec hver hcmp htype hkey,
    s_client_make_of_not_full _ _ _ _ _ _ hne]
  refine ⟨rfl, ?_, ?_, ?_⟩
  · simp only [Function.update_apply, hmod, if_true]
  · simp only [Function.update_apply, hmod, if_true]
  · intro j hj
    simp only [client_slot, Function.update_apply, hmod, if_neg hj]

/-- C7 on the started server and the padded Hello of the worked inputs. -/
theorem s_server_recieve_packets_accepts_hello_witness :
    s_client_index_from_endpoint (started none) sample_hello.from_ = UINT32_MAX ∧
    (started none).client_count < CUTE_SERVER_MAX_CLIENTS ∧
    sample_hello.bytes_read = sample_env.CUTE_PACKET_SIZE_MAX ∧
    (s_server_recieve_packets.body sample_env (started none) sample_hello).client_count = 1 ∧
    (s_server_recieve_packets.body sample_env (started none) sample_hello).client_session_key 0
      = ⟨[9, 9, 9, 9]⟩ :=
  have h := s_server_recieve_packets_accepts_hello sample_env (started none) sample_hello
    sample_hello.buffer [67, 85, 84, 69] [9, 9, 9, 9]
    ⟨sample_hello.buffer, 16, 4⟩ ⟨sample_hello.buffer, 16, 5⟩ ⟨sample_hello.buffer, 16, 9⟩
    (by decide) (by decide) (by decide) (by decide) (by decide) (by decide) (by decide)
    (by decide)
  ⟨by decide, by decide, by decide, h.1, h.2.2.1⟩

/-- C8: for every inbound datagram from an endpoint that is not in the slot table
and whose length is less than `CUTE_PACKET_SIZE_MAX`, the receive step drops
it: the server, and with it `client_count` and every per-slot field, is
unchanged. -/
theorem s_server_recieve_packets_drops_short (E : net_env) (server : server_t) (d : datagram_t)
    (hunknown : s_client_index_from_endpoint server d.from_ = UINT32_MAX)
    (hshort : d.bytes_read < E.CUTE_PACKET_SIZE_MAX) :
    s_server_recieve_packets.body E server d = server ∧
    (s_server_recieve_packets.body E server d).client_count = server.client_count ∧
    ∀ i, client_slot (s_server_recieve_packets.body E server d) i = client_slot server i := by
  have h : s_server_recieve_packets.body E server d = server := by
    unfold s_server_recieve_packets.body
    simp only [hunknown, if_true, if_pos hshort, ite_self]
  rw [h]
  exact ⟨rfl, rfl, fun _ => rfl⟩

/-- C8 on the started server and the Hello of the worked inputs cut to 15 bytes. -/
theorem s_server_recieve_packets_drops_short_witness :
    s_client_index_from_endpoint (started none) sample_hello.from_ = UINT32_MAX ∧
    ({ sample_hello with bytes_read := 15 } : datagram_t).bytes_read
      < sample_env.CUTE_PACKET_SIZE_MAX ∧
    s_server_recieve_packets.body sample_env (started none) { sample_hello with bytes_read := 15 }
      = started none :=
  ⟨by decide, by decide,
    (s_server_recieve_packets_drops_short sample_env (started none)
      { sample_hello with bytes_read := 15 } (by decide) (by decide)).1⟩

theorem s_server_recieve_packets.loop_outbound (E : net_env) :
    ∀ (pending : List datagram_t) (server : server_t),
      (s_server_recieve_packets.loop E pending server).socket.outbound = server.socket.outbound ∧
      (s_server_recieve_packets.loop E pending server).packets = server.packets := by
  have hmake : ∀ (server : server_t) (e : endpoint_t) (k : crypto_key_t) (l : Int) (o : Nat)
      (q : Int), (s_client_make server e k l o q).2.socket = server.socket ∧
        (s_client_make server e k l o q).2.packets = server.packets := by
    intro server e k l o q
    by_cases hfull : server.client_count = CUTE_SERVER_MAX_CLIENTS
    · rw [s_client_make_of_full _ _ _ _ _ _ hfull]
      exact ⟨rfl, rfl⟩
    · rw [s_client_make_of_not_full _ _ _ _ _ _ hfull]
      exact ⟨rfl, rfl⟩
  have hbody : ∀ (server : server_t) (d : datagram_t),
      (s_server_recieve_packets.body E server d).socket = server.socket ∧
      (s_server_recieve_packets.body E server d).packets = server.packets := by
    intro server d
    unfold s_server_recieve_packets.body
    dsimp only
    repeat (first | exact ⟨rfl, rfl⟩ | exact hmake _ _ _ _ _ _ | split)
  intro pending
  induction pending with
  | nil => intro server; exact ⟨rfl, rfl⟩
  | cons d rest ih =>
    intro server
    unfold s_server_recieve_packets.loop
    dsimp only
    split
    · exact ⟨rfl, rfl⟩
    · obtain ⟨h1, h2⟩ := ih (s_server_recieve_packets.body E
        { server with socket := { server.socket with inbound := rest } } d)
      obtain ⟨h3, h4⟩ := hbody { server with socket := { server.socket with inbound := rest } } d
      rw [h1, h2, h3, h4]
      exact ⟨rfl, rfl⟩

theorem server_update_outbound (E : net_env) (server : server_t) (dt : ℚ) :
    (server_update E server dt).socket.outbound = server.socket.outbound ∧
    (server_update E server dt).packets = server.packets :=
  s_server_recieve_packets.loop_outbound E server.socket.inbound server

/-- C9: for every inbound datagram from an unknown endpoint that fails asymmetric
decryption, or whose leading version string differs from
`CUTE_PROTOCOL_VERSION`, the receive step silently drops it: the server, and
with it the client table, is unchanged, and nothing is handed to the socket or
queued as a response. -/
theorem s_server_recieve_packets_drops_forged_or_wrong_version (E : net_env) (server : server_t)
    (d : datagram_t)
    (hunknown : s_client_index_from_endpoint server d.from_ = UINT32_MAX)
    (hbad : E.crypto_decrypt_asymmetric server.public_key server.secret_key d.buffer
        E.CUTE_PACKET_SIZE_MAX = none ∨
      ∃ buffer version_buffer stream,
        E.crypto_decrypt_asymmetric server.public_key server.secret_key d.buffer
          E.CUTE_PACKET_SIZE_MAX = some buffer ∧
        E.serialize_bytes (serialize_reset_buffer buffer E.CUTE_PACKET_SIZE_MAX)
          E.CUTE_PROTOCOL_VERSION_STRING_LEN = some (version_buffer, stream) ∧
        c_string E.CUTE_PROTOCOL_VERSION_STRING_LEN version_buffer
          ≠ c_string E.CUTE_PROTOCOL_VERSION_STRING_LEN E.CUTE_PROTOCOL_VERSION) :
    s_server_recieve_packets.body E server d = server ∧
    (∀ i, client_slot (s_server_recieve_packets.body E server d) i = client_slot server i) ∧
    (s_server_recieve_packets.body E server d).socket.outbound = server.socket.outbound ∧
    (s_server_recieve_packets.body E server d).packets = server.packets := by
  have h : s_server_recieve_packets.body E server d = server := by
    unfold s_server_recieve_packets.body
    rcases hbad with hdec | ⟨buffer, version_buffer, stream, hdec, hver, hdiff⟩
    · simp only [hunknown, if_true, hdec, ite_self]
    · have hcmp : CUTE_STRNCMP E.CUTE_PROTOCOL_VERSION version_buffer
          E.CUTE_PROTOCOL_VERSION_STRING_LEN ≠ 0 :=
        fun h0 => hdiff ((CUTE_STRNCMP_eq_zero_iff _ _ _).mp h0).symm
      simp only [hunknown, if_true, hdec, hver, if_pos hcmp, ite_self]
  rw [h]
  exact ⟨rfl, fun _ => rfl, rfl, rfl⟩

/-- C9 on the started server and the Hello of the worked inputs with a wrong version string. -/
theorem s_server_recieve_packets_drops_forged_or_wrong_version_witness :
    s_client_index_from_endpoint (started none) sample_wrong_version.from_ = UINT32_MAX ∧
    c_string 4 [67, 85, 84, 70] ≠ c_string 4 sample_env.CUTE_PROTOCOL_VERSION ∧
    s_server_recieve_packets.body sample_env (started none) sample_wrong_version
      = started none :=
  ⟨by decide, by decide,
    (s_server_recieve_packets_drops_forged_or_wrong_version sample_env (started none)
      sample_wrong_version (by decide)
      (Or.inr ⟨sample_wrong_version.buffer, [67, 85, 84, 70],
        ⟨sample_wrong_version.buffer, 16, 4⟩, by decide, by decide, by decide⟩)).1⟩

/-- C10, evaluated on the code: the table is full, the Hello comes from an
endpoint that is not in it, and `server_update` consumes it without handing
anything to the socket and without queueing a packet, while the same Hello is
accepted by a server that has a free slot. -/
theorem server_update_full_table_hello_no_response :
    full_server_with_hello.client_count = CUTE_SERVER_MAX_CLIENTS ∧
    s_client_index_from_endpoint full_server_with_hello sample_hello.from_ = UINT32_MAX ∧
    (server_update sample_env full_server_with_hello 0).socket.inbound = [] ∧
    (server_update sample_env full_server_with_hello 0).socket.outbound = [] ∧
    (server_update sample_env full_server_with_hello 0).packets = {} ∧
    (server_update sample_env started_with_hello 0).client_count = 1 ∧
    (server_update sample_env started_with_hello 0).client_endpoint 0 = sample_hello.from_ := by
  decide

/-! ## Lemmas on the receive step -/

theorem s_server_recieve_packets.body_cases (E : net_env) (server : server_t) (d : datagram_t) :
    s_server_recieve_packets.body E server d = server ∨
    (s_client_index_from_endpoint server d.from_ = UINT32_MAX ∧
      server.client_count ≠ CUTE_SERVER_MAX_CLIENTS ∧
      ∃ key : List Nat, s_server_recieve_packets.body E server d
        = (s_client_make server d.from_ ⟨key⟩ 0 d.random d.queue_init).2) := by
  unfold s_server_recieve_packets.body
  dsimp only
  by_cases hunknown : s_client_index_from_endpoint server d.from_ = UINT32_MAX
  · rw [if_pos hunknown]
    by_cases hfull : server.client_count = CUTE_SERVER_MAX_CLIENTS
    · rw [if_pos hfull]; exact Or.inl rfl
    · rw [if_neg hfull]
      repeat (first | exact Or.inl rfl | exact Or.inr ⟨hunknown, hfull, _, rfl⟩ | split)
  · rw [if_neg hunknown]; exact Or.inl rfl

theorem handle_table_alloc_keeps_valid (table : handle_table_t) (handle : handle_t) (k : Nat)
    (h : handle_table_get_index table handle ≠ none) :
    handle_table_get_index (handle_table_alloc table k).2 handle ≠ none := by
  cases hg : handle_table_get_index table handle with
  | none => exact absurd hg h
  | some i =>
    obtain ⟨entry, hlt, hget, hgen, _⟩ := handle_table_get_index_some table handle i hg
    unfold handle_table_alloc
    cases hfree : table.freelist with
    | nil =>
      simp [handle_table_get_index, List.getElem?_append_left hlt, hget, hgen]
    | cons j rest =>
      by_cases hj : j = handle.index
      · subst hj
        simp [handle_table_get_index, List.getD_eq_getElem?_getD, hget, List.getElem?_set, hlt,
          hgen]
      · simp [handle_table_get_index, List.getElem?_set, hj, hget, hgen]

theorem s_client_make_frame (server : server_t) (endpoint : endpoint_t)
    (session_key : crypto_key_t) (loopback : Int) (sequence_offset : Nat) (queue_init : Int)
    (hcount : server.client_count ≤ CUTE_SERVER_MAX_CLIENTS) :
    (s_client_make server endpoint session_key loopback sequence_offset
        queue_init).2.client_count ≤ CUTE_SERVER_MAX_CLIENTS ∧
    server.client_count ≤ (s_client_make server endpoint session_key loopback sequence_offset
        queue_init).2.client_count ∧
    (∀ j, j < server.client_count →
      client_slot (s_client_make server endpoint session_key loopback sequence_offset
        queue_init).2 j = client_slot server j) ∧
    (∀ handle, handle_table_get_index server.client_handle_table handle ≠ none →
      handle_table_get_index (s_client_make server endpoint session_key loopback sequence_offset
        queue_init).2.client_handle_table handle ≠ none) := by
  by_cases hfull : server.client_count = CUTE_SERVER_MAX_CLIENTS
  · rw [s_client_make_of_full _ _ _ _ _ _ hfull]
    exact ⟨hcount, le_refl _, fun _ _ => rfl, fun _ h => h⟩
  · have hmod : server.client_count % 2 ^ 32 = server.client_count :=
      Nat.mod_eq_of_lt (by unfold CUTE_SERVER_MAX_CLIENTS at hcount; omega)
    rw [s_client_make_of_not_full _ _ _ _ _ _ hfull]
    refine ⟨by dsimp only; omega, by dsimp only; omega, ?_, ?_⟩
    · intro j hj
      have hne : j ≠ server.client_count := Nat.ne_of_lt hj
      simp only [client_slot, Function.update_apply, hmod, if_neg hne]
    · intro handle hv
      exact handle_table_alloc_keeps_valid _ _ _ (handle_table_alloc_keeps_valid _ _ _ hv)

theorem s_server_recieve_packets.body_frame (E : net_env) (server : server_t) (d : datagram_t)
    (hcount : server.client_count ≤ CUTE_SERVER_MAX_CLIENTS) :
    (s_server_recieve_packets.body E server d).client_count ≤ CUTE_SERVER_MAX_CLIENTS ∧
    server.client_count ≤ (s_server_recieve_packets.body E server d).client_count ∧
    (∀ j, j < server.client_count →
      client_slot (s_server_recieve_packets.body E server d) j = client_slot server j) ∧
    (∀ handle, handle_table_get_index server.client_handle_table handle ≠ none →
      handle_table_get_index (s_server_recieve_packets.body E server d).client_handle_table handle
        ≠ none) := by
  rcases s_server_recieve_packets.body_cases E server d with h | ⟨_, _, key, h⟩
  · rw [h]
    exact ⟨hcount, le_refl _, fun _ _ => rfl, fun _ h => h⟩
  · rw [h]
    exact s_client_make_frame server d.from_ ⟨key⟩ 0 d.random d.queue_init hcount

theorem s_server_recieve_packets.loop_frame (E : net_env) :
    ∀ (pending : List datagram_t) (server : server_t),
      server.client_count ≤ CUTE_SERVER_MAX_CLIENTS →
      (s_server_recieve_packets.loop E pending server).client_count ≤ CUTE_SERVER_MAX_CLIENTS ∧
      server.client_count ≤ (s_server_recieve_packets.loop E pending server).client_count ∧
      (∀ j, j < server.client_count →
        client_slot (s_server_recieve_packets.loop E pending server) j = client_slot server j) ∧
      (∀ handle, handle_table_get_index server.client_handle_table handle ≠ none →
        handle_table_get_index (s_server_recieve_packets.loop E pending server).client_handle_table
          handle ≠ none) := by
  intro pending
  induction pending with
  | nil => intro server hcount; exact ⟨hcount, le_refl _, fun _ _ => rfl, fun _ h => h⟩
  | cons d rest ih =>
    intro server hcount
    unfold s_server_recieve_packets.loop
    dsimp only
    split
    · exact ⟨hcount, le_refl _, fun _ _ => rfl, fun _ h => h⟩
    · obtain ⟨b1, b2, b3, b4⟩ := s_server_recieve_packets.body_frame E
        { server with socket := { server.socket with inbound := rest } } d hcount
      obtain ⟨l1, l2, l3, l4⟩ := ih _ b1
      refine ⟨l1, le_trans b2 l2, ?_, ?_⟩
      · intro j hj
        rw [l3 j (lt_of_lt_of_le hj b2), b3 j hj]
        rfl
      · intro handle hv
        exact l4 handle (b4 handle hv)

/-! ## The session state machine as the code has it -/

/-- C11, as stated, fails: the started server has no client; after
`server_update` has accepted the padded Hello there is one slot, slot 0, and
its `client_is_connected` is 1, before any challenge response exists. -/
theorem hello_marks_slot_connected :
    started_with_hello.client_count = 0 ∧
    (server_update sample_env started_with_hello 0).client_count = 1 ∧
    (server_update sample_env started_with_hello 0).client_endpoint 0 = sample_hello.from_ ∧
    (server_update sample_env started_with_hello 0).client_is_connected 0 = 1 := by
  decide

/-- C11, amended: immediately after a Hello is accepted the new slot is marked
connected (`client_is_connected` is 1): `s_client_make` sets the flag when it
creates the slot, and no challenge response is awaited. -/
theorem s_server_recieve_packets_hello_connected (E : net_env) (server : server_t)
    (d : datagram_t) (buffer version_buffer key : List Nat)
    (stream1 stream2 stream3 : serialize_t)
    (hunknown : s_client_index_from_endpoint server d.from_ = UINT32_MAX)
    (hfree : server.client_count < CUTE_SERVER_MAX_CLIENTS)
    (hsize : d.bytes_read = E.CUTE_PACKET_SIZE_MAX)
    (hdec : E.crypto_decrypt_asymmetric server.public_key server.secret_key d.buffer
      E.CUTE_PACKET_SIZE_MAX = some buffer)
    (hver : E.serialize_bytes (serialize_reset_buffer buffer E.CUTE_PACKET_SIZE_MAX)
      E.CUTE_PROTOCOL_VERSION_STRING_LEN = some (version_buffer, stream1))
    (hmatch : c_string E.CUTE_PROTOCOL_VERSION_STRING_LEN version_buffer
      = c_string E.CUTE_PROTOCOL_VERSION_STRING_LEN E.CUTE_PROTOCOL_VERSION)
    (htype : E.serialize_uint64 stream1 0 E.PACKET_TYPE_MAX = some (E.PACKET_TYPE_HELLO, stream2))
    (hkey : E.serialize_bytes stream2 E.sizeof_crypto_key_t = some (key, stream3)) :
    (s_server_recieve_packets.body E server d).client_count = server.client_count + 1 ∧
    (s_server_recieve_packets.body E server d).client_is_connected server.client_count = 1 := by
  have hne : server.client_count ≠ CUTE_SERVER_MAX_CLIENTS := Nat.ne_of_lt hfree
  have hmod : server.client_count % 2 ^ 32 = server.client_count :=
    Nat.mod_eq_of_lt (by unfold CUTE_SERVER_MAX_CLIENTS at hfree; omega)
  have hcmp : CUTE_STRNCMP E.CUTE_PROTOCOL_VERSION version_buffer
      E.CUTE_PROTOCOL_VERSION_STRING_LEN = 0 :=
    (CUTE_STRNCMP_eq_zero_iff _ _ _).mpr hmatch.symm
  rw [s_server_recieve_packets.body_of_hello E server d buffer version_buffer key stream1
    stream2 stream3 hunknown hne (by omega) hdec hver hcmp htype hkey,
    s_client_make_of_not_full _ _ _ _ _ _ hne]
  refine ⟨rfl, ?_⟩
  simp only [Function.update_apply, hmod, if_true]

/-- C11 (amended) on the started server and the padded Hello of the worked inputs. -/
theorem s_server_recieve_packets_hello_connected_witness :
    s_client_index_from_endpoint (started none) sample_hello.from_ = UINT32_MAX ∧
    (started none).client_count < CUTE_SERVER_MAX_CLIENTS ∧
    sample_hello.bytes_read = sample_env.CUTE_PACKET_SIZE_MAX ∧
    (s_server_recieve_packets.body sample_env (started none) sample_hello).client_is_connected
      (started none).client_count = 1 :=
  ⟨by decide, by decide, by decide,
    (s_server_recieve_packets_hello_connected sample_env (started none) sample_hello
      sample_hello.buffer [67, 85, 84, 69] [9, 9, 9, 9]
      ⟨sample_hello.buffer, 16, 4⟩ ⟨sample_hello.buffer, 16, 5⟩ ⟨sample_hello.buffer, 16, 9⟩
      (by decide) (by decide) (by decide) (by decide) (by decide) (by decide) (by decide)
      (by decide)).2⟩

/-- C12, as stated, fails: slot 0 of the server with one client is connected, its
last packet time is 0 and the timeout is 20; no datagram is pending. After a
`server_update` with `dt = 21` and the next `server_update` the slot is still
connected and its handle `client_id[0]` still maps to slot 0. -/
theorem server_update_keeps_timed_out_client :
    one_client.socket.inbound = [] ∧
    one_client.config.client_timeout_time = 20 ∧
    one_client.client_last_packet_recieved_time 0 = 0 ∧
    one_client.client_is_connected 0 = 1 ∧
    (server_update sample_env (server_update sample_env one_client 21) 1).client_is_connected 0
      = 1 ∧
    handle_table_get_index
      (server_update sample_env (server_update sample_env one_client 21) 1).client_handle_table
      (one_client.client_id 0) = some 0 := by
  decide

/-- C12, amended: `server_update` does not free a slot for a timeout: for every
server state with `client_count` within the arrays, every slot below
`client_count`, every handle that is valid and every `dt`, after
`server_update` the slot's `client_is_connected` and last packet time are what
they were and the handle is still valid, however long ago the slot's last
packet was received. -/
theorem server_update_no_timeout (E : net_env) (server : server_t) (dt : ℚ) (i : Nat)
    (handle : handle_t)
    (hcount : server.client_count ≤ CUTE_SERVER_MAX_CLIENTS)
    (hi : i < server.client_count)
    (hvalid : handle_table_get_index server.client_handle_table handle ≠ none) :
    (server_update E server dt).client_is_connected i = server.client_is_connected i ∧
    (server_update E server dt).client_last_packet_recieved_time i
      = server.client_last_packet_recieved_time i ∧
    handle_table_get_index (server_update E server dt).client_handle_table handle ≠ none := by
  obtain ⟨_, _, h3, h4⟩ :=
    s_server_recieve_packets.loop_frame E server.socket.inbound server hcount
  have hslot := h3 i hi
  refine ⟨?_, ?_, h4 handle hvalid⟩
  · exact congrArg client_slot_t.is_connected hslot
  · exact congrArg client_slot_t.last_packet_recieved_time hslot

/-- C12 (amended) on the server with one client, its slot 0 and the handle
`client_id[0]`, with `dt = 21`. -/
theorem server_update_no_timeout_witness :
    one_client.client_count ≤ CUTE_SERVER_MAX_CLIENTS ∧
    0 < one_client.client_count ∧
    handle_table_get_index one_client.client_handle_table ⟨1, 0⟩ ≠ none ∧
    (server_update sample_env one_client 21).client_is_connected 0
      = one_client.client_is_connected 0 :=
  ⟨by decide, by decide, by decide,
    (server_update_no_timeout sample_env one_client 21 0 ⟨1, 0⟩ (by decide) (by decide)
      (by decide)).1⟩

/-- C13, evaluated on the code: slot 0 is connected and a datagram from its
endpoint is pending; `server_update` takes the datagram from the socket, and
`server_poll_event` then returns -1 and leaves the caller's event as it was. -/
theorem server_poll_event_after_payload_no_event :
    one_client_with_payload.client_is_connected 0 = 1 ∧
    s_client_index_from_endpoint one_client_with_payload sample_payload.from_ = 0 ∧
    (server_update sample_env one_client_with_payload 0).socket.inbound = [] ∧
    server_poll_event (server_update sample_env one_client_with_payload 0)
        (server_event_t.disconnected 0)
      = (-1, server_event_t.disconnected 0) := by
  decide

/-! ## Invariants of the reachable states -/

theorem endpoint_equals_iff (a b : endpoint_t) : endpoint_equals a b = true ↔ a = b := by
  simp [endpoint_equals]

theorem s_client_index_from_endpoint_not_found (server : server_t) (e : endpoint_t)
    (hcount : server.client_count ≤ INT_MAX)
    (h : s_client_index_from_endpoint server e = UINT32_MAX) :
    ∀ i, i < server.client_count → endpoint_equals (server.client_endpoint i) e = false := by
  have hspec := s_client_index_from_endpoint.loop_spec server.client_endpoint e
    server.client_count 0 (by omega)
  have hmax : INT_MAX < UINT32_MAX := by decide
  unfold s_client_index_from_endpoint at h
  rcases hspec with ⟨_, h2⟩ | ⟨_, h2, _, _⟩
  · intro i hi
    exact h2 i (Nat.zero_le _) (by omega)
  · omega

theorem server_start_ok (server server0 : server_t) (endpoint_init : Option endpoint_t)
    (public_key secret_key : crypto_key_t) (config : Option server_config_t)
    (socket_init table_init : Int)
    (h : server_start server endpoint_init public_key secret_key config socket_init table_init
      = (0, server0)) :
    server0.client_count = 0 ∧ server0.running = 1 := by
  unfold server_start at h
  cases endpoint_init with
  | none => simp at h
  | some endpoint =>
    dsimp only at h
    by_cases hs : socket_init ≠ 0
    · rw [if_pos hs] at h; simp at h
    · rw [if_neg hs] at h
      by_cases ht : table_init ≠ 0
      · rw [if_pos ht] at h; simp at h
      · rw [if_neg ht] at h
        have h2 := (Prod.mk.inj h).2
        rw [← h2]
        exact ⟨rfl, rfl⟩

theorem s_server_recieve_packets.body_distinct (E : net_env) (server : server_t) (d : datagram_t)
    (hcount : server.client_count ≤ CUTE_SERVER_MAX_CLIENTS)
    (hd : endpoints_distinct server) :
    endpoints_distinct (s_server_recieve_packets.body E server d) := by
  rcases s_server_recieve_packets.body_cases E server d with h | ⟨hunknown, hfull, key, h⟩
  · rw [h]; exact hd
  · have hmod : server.client_count % 2 ^ 32 = server.client_count :=
      Nat.mod_eq_of_lt (by unfold CUTE_SERVER_MAX_CLIENTS at hcount; omega)
    have hnot := s_client_index_from_endpoint_not_found server d.from_
      (by unfold CUTE_SERVER_MAX_CLIENTS at hcount; unfold INT_MAX; omega) hunknown
    rw [h, s_client_make_of_not_full _ _ _ _ _ _ hfull]
    intro i j hi hj heq
    dsimp only at hi hj heq
    simp only [Function.update_apply, hmod] at heq
    by_cases hic : i = server.client_count
    · by_cases hjc : j = server.client_count
      · rw [hic, hjc]
      · rw [if_pos hic, if_neg hjc] at heq
        have hf := hnot j (by omega)
        rw [(endpoint_equals_iff _ _).mp heq] at hf
        have ht : endpoint_equals (server.client_endpoint j) (server.client_endpoint j) = true :=
          (endpoint_equals_iff _ _).mpr rfl
        rw [ht] at hf
        cases hf
    · by_cases hjc : j = server.client_count
      · rw [if_neg hic, if_pos hjc] at heq
        have hf := hnot i (by omega)
        rw [heq] at hf
        cases hf
      · rw [if_neg hic, if_neg hjc] at heq
        exact hd i j (by omega) (by omega) heq

theorem s_server_recieve_packets.loop_distinct (E : net_env) :
    ∀ (pending : List datagram_t) (server : server_t),
      server.client_count ≤ CUTE_SERVER_MAX_CLIENTS → endpoints_distinct server →
      endpoints_distinct (s_server_recieve_packets.loop E pending server) := by
  intro pending
  induction pending with
  | nil => intro server _ hd; exact hd
  | cons d rest ih =>
    intro server hcount hd
    unfold s_server_recieve_packets.loop
    dsimp only
    split
    · exact hd
    · exact ih _
        (s_server_recieve_packets.body_frame E
          { server with socket := { server.socket with inbound := rest } } d hcount).1
        (s_server_recieve_packets.body_distinct E
          { server with socket := { server.socket with inbound := rest } } d hcount hd)

theorem server_run_invariant (E : net_env) :
    ∀ (calls : List server_call) (server server1 : server_t),
      server.client_count ≤ CUTE_SERVER_MAX_CLIENTS → endpoints_distinct server →
      server_run E server calls = some server1 →
      server1.client_count ≤ CUTE_SERVER_MAX_CLIENTS ∧ endpoints_distinct server1 := by
  intro calls
  induction calls with
  | nil =>
    intro server server1 hcount hd hrun
    have : server = server1 := Option.some.inj hrun
    rw [← this]
    exact ⟨hcount, hd⟩
  | cons c rest ih =>
    intro server server1 hcount hd hrun
    cases c with
    | update pending dt =>
      unfold server_run at hrun
      exact ih _ server1
        (s_server_recieve_packets.loop_frame E _ (socket_deliver server pending) hcount).1
        (s_server_recieve_packets.loop_distinct E _ (socket_deliver server pending) hcount hd)
        hrun
    | disconnect client_id =>
      unfold server_run at hrun
      cases hdis : server_disconnect_client server client_id with
      | none => rw [hdis] at hrun; cases hrun
      | some server2 =>
        rw [hdis] at hrun
        dsimp only at hrun
        obtain ⟨index, _, rfl⟩ := server_disconnect_client_eq server server2 client_id hdis
        refine ih _ server1 ?_ ?_ hrun
        · exact hcount
        · exact hd

theorem option_eq_some_getD {α : Type} (o : Option α) (d : α) (h : o.isSome = true) :
    o = some (o.getD d) := by
  cases o with
  | none => cases h
  | some a => rfl

/-- C14: the slot table is bounded. In every server state reached from a
successful `server_start` through any sequence of `server_update` and
`server_disconnect_client` calls, `0 <= client_count <= CUTE_SERVER_MAX_CLIENTS`,
and a call of `s_client_make` in that state returns either `UINT32_MAX` or an
index below `CUTE_SERVER_MAX_CLIENTS`, and leaves `client_count` within the
bound. -/
theorem client_count_bounded (E : net_env) (server server0 server1 : server_t)
    (endpoint_init : Option endpoint_t) (public_key secret_key : crypto_key_t)
    (config : Option server_config_t) (socket_init table_init : Int) (calls : List server_call)
    (endpoint : endpoint_t) (session_key : crypto_key_t) (loopback : Int)
    (sequence_offset : Nat) (queue_init : Int)
    (hstart : server_start server endpoint_init public_key secret_key config socket_init
      table_init = (0, server0))
    (hrun : server_run E server0 calls = some server1) :
    0 ≤ server1.client_count ∧
    server1.client_count ≤ CUTE_SERVER_MAX_CLIENTS ∧
    ((s_client_make server1 endpoint session_key loopback sequence_offset queue_init).1
        = UINT32_MAX ∨
      (s_client_make server1 endpoint session_key loopback sequence_offset queue_init).1
        < CUTE_SERVER_MAX_CLIENTS) ∧
    (s_client_make server1 endpoint session_key loopback sequence_offset
      queue_init).2.client_count ≤ CUTE_SERVER_MAX_CLIENTS := by
  have h0 := (server_start_ok _ _ _ _ _ _ _ _ hstart).1
  have hinv := server_run_invariant E calls server0 server1
    (by rw [h0]; exact Nat.zero_le _)
    (by intro i j hi; rw [h0] at hi; omega) hrun
  refine ⟨Nat.zero_le _, hinv.1, ?_, (s_client_make_frame _ _ _ _ _ _ hinv.1).1⟩
  by_cases hfull : server1.client_count = CUTE_SERVER_MAX_CLIENTS
  · left
    rw [s_client_make_of_full _ _ _ _ _ _ hfull]
  · rw [s_client_make_of_not_full _ _ _ _ _ _ hfull]
    by_cases hq : queue_init ≠ 0
    · left; rw [if_pos hq]
    · right
      rw [if_neg hq]
      have hlt : server1.client_count < CUTE_SERVER_MAX_CLIENTS :=
        lt_of_le_of_ne hinv.1 hfull
      have hmod : server1.client_count % 2 ^ 32 = server1.client_count :=
        Nat.mod_eq_of_lt (by unfold CUTE_SERVER_MAX_CLIENTS at hlt; omega)
      dsimp only
      rw [hmod]
      exact hlt

/-- C14 on the run of the worked inputs from the started server. -/
theorem client_count_bounded_witness :
    server_start {} (some ⟨4, [127, 0, 0, 1], 5000⟩) ⟨[1, 1, 1, 1]⟩ ⟨[2, 2, 2, 2]⟩ none 0 0
      = (0, started none) ∧
    server_run sample_env (started none) sample_run
      = some ((server_run sample_env (started none) sample_run).getD (started none)) ∧
    ((server_run sample_env (started none) sample_run).getD (started none)).client_count
      ≤ CUTE_SERVER_MAX_CLIENTS :=
  have hstart : server_start {} (some ⟨4, [127, 0, 0, 1], 5000⟩) ⟨[1, 1, 1, 1]⟩ ⟨[2, 2, 2, 2]⟩
      none 0 0 = (0, started none) := Prod.ext (by decide) rfl
  have hrun := option_eq_some_getD (server_run sample_env (started none) sample_run)
    (started none) (by decide)
  ⟨hstart, hrun,
    (client_count_bounded sample_env {} (started none) _ _ _ _ none 0 0 sample_run
      sample_hello.from_ ⟨[9, 9, 9, 9]⟩ 0 77 0 hstart hrun).2.1⟩

/-- C15: an endpoint identifies at most one slot. In every server state reached
from a successful `server_start` through `server_update` and
`server_disconnect_client` calls, no two distinct slots i, j below
`client_count` have equal endpoints. -/
theorem endpoint_identifies_one_slot (E : net_env) (server server0 server1 : server_t)
    (endpoint_init : Option endpoint_t) (public_key secret_key : crypto_key_t)
    (config : Option server_config_t) (socket_init table_init : Int) (calls : List server_call)
    (hstart : server_start server endpoint_init public_key secret_key config socket_init
      table_init = (0, server0))
    (hrun : server_run E server0 calls = some server1) :
    endpoints_distinct server1 := by
  have h0 := (server_start_ok _ _ _ _ _ _ _ _ hstart).1
  exact (server_run_invariant E calls server0 server1
    (by rw [h0]; exact Nat.zero_le _)
    (by intro i j hi; rw [h0] at hi; omega) hrun).2

/-- C15 on the run of the worked inputs from the started server, which ends with
two slots. -/
theorem endpoint_identifies_one_slot_witness :
    server_start {} (some ⟨4, [127, 0, 0, 1], 5000⟩) ⟨[1, 1, 1, 1]⟩ ⟨[2, 2, 2, 2]⟩ none 0 0
      = (0, started none) ∧
    server_run sample_env (started none) sample_run
      = some ((server_run sample_env (started none) sample_run).getD (started none)) ∧
    ((server_run sample_env (started none) sample_run).getD (started none)).client_count = 2 ∧
    endpoints_distinct ((server_run sample_env (started none) sample_run).getD (started none)) :=
  have hstart : server_start {} (some ⟨4, [127, 0, 0, 1], 5000⟩) ⟨[1, 1, 1, 1]⟩ ⟨[2, 2, 2, 2]⟩
      none 0 0 = (0, started none) := Prod.ext (by decide) rfl
  have hrun := option_eq_some_getD (server_run sample_env (started none) sample_run)
    (started none) (by decide)
  ⟨hstart, hrun, by decide,
    endpoint_identifies_one_slot sample_env {} (started none) _ _ _ _ none 0 0 sample_run
      hstart hrun⟩

/-- C17: `server_start` returns -1 if `endpoint_init`, `socket_init` or
`handle_table_init` fails, and then `running` is what it was before the call
(it is not set to 1); it returns 0 only when all three succeed, and then
`running` is 1 and `client_count` is 0. -/
theorem server_start_result (server : server_t) (endpoint_init : Option endpoint_t)
    (public_key secret_key : crypto_key_t) (config : Option server_config_t)
    (socket_init table_init : Int) :
    ((endpoint_init = none ∨ socket_init ≠ 0 ∨ table_init ≠ 0) →
      (server_start server endpoint_init public_key secret_key config socket_init
        table_init).1 = -1 ∧
      (server_start server endpoint_init public_key secret_key config socket_init
        table_init).2.running = server.running) ∧
    ((server_start server endpoint_init public_key secret_key config socket_init
        table_init).1 = 0 ↔
      (endpoint_init ≠ none ∧ socket_init = 0 ∧ table_init = 0)) ∧
    ((server_start server endpoint_init public_key secret_key config socket_init
        table_init).1 = 0 →
      (server_start server endpoint_init public_key secret_key config socket_init
        table_init).2.running = 1 ∧
      (server_start server endpoint_init public_key secret_key config socket_init
        table_init).2.client_count = 0) := by
  unfold server_start
  cases endpoint_init with
  | none => simp
  | some endpoint =>
    dsimp only
    by_cases hs : socket_init ≠ 0
    · rw [if_pos hs]
      simp [hs]
    · rw [if_neg hs]
      by_cases ht : table_init ≠ 0
      · rw [if_pos ht]
        simp [ht]
      · rw [if_neg ht]
        simp only [ne_eq, not_not] at hs ht
        simp [hs, ht]

/-- C17 on the worked inputs: a failing `socket_init` on a server that is not
running, and the successful start. -/
theorem server_start_result_witness :
    (server_start {} (some ⟨4, [127, 0, 0, 1], 5000⟩) ⟨[1, 1, 1, 1]⟩ ⟨[2, 2, 2, 2]⟩ none
      (-1) 0).1 = -1 ∧
    (server_start {} (some ⟨4, [127, 0, 0, 1], 5000⟩) ⟨[1, 1, 1, 1]⟩ ⟨[2, 2, 2, 2]⟩ none
      (-1) 0).2.running = 0 ∧
    (server_start {} (some ⟨4, [127, 0, 0, 1], 5000⟩) ⟨[1, 1, 1, 1]⟩ ⟨[2, 2, 2, 2]⟩ none
      0 0).1 = 0 ∧
    (server_start {} (some ⟨4, [127, 0, 0, 1], 5000⟩) ⟨[1, 1, 1, 1]⟩ ⟨[2, 2, 2, 2]⟩ none
      0 0).2.running = 1 :=
  have hfail := (server_start_result {} (some ⟨4, [127, 0, 0, 1], 5000⟩) ⟨[1, 1, 1, 1]⟩
    ⟨[2, 2, 2, 2]⟩ none (-1) 0).1 (Or.inr (Or.inl (by decide)))
  have hok : (server_start {} (some ⟨4, [127, 0, 0, 1], 5000⟩) ⟨[1, 1, 1, 1]⟩ ⟨[2, 2, 2, 2]⟩
      none 0 0).1 = 0 := by decide
  ⟨hfail.1, hfail.2, hok,
    ((server_start_result {} (some ⟨4, [127, 0, 0, 1], 5000⟩) ⟨[1, 1, 1, 1]⟩
      ⟨[2, 2, 2, 2]⟩ none 0 0).2.2 hok).1⟩

/-- C18: an application-requested disconnect moves exactly the addressed slot out
of the connected state. `server_disconnect_client` on a valid handle of slot i
returns, sets `client_is_connected[i]` to 0, and leaves the connected flag,
endpoint, session key, sequence offset and sequence counter of every other
slot unchanged. -/
theorem server_disconnect_client_frame (server : server_t) (client_id : handle_t) (i : Nat)
    (hi : handle_table_get_index server.client_handle_table client_id = some i) :
    ∃ server1, server_disconnect_client server client_id = some server1 ∧
      server1.client_is_connected i = 0 ∧
      ∀ j, j ≠ i →
        server1.client_is_connected j = server.client_is_connected j ∧
        server1.client_endpoint j = server.client_endpoint j ∧
        server1.client_session_key j = server.client_session_key j ∧
        server1.client_sequence_offset j = server.client_sequence_offset j ∧
        server1.client_sequence j = server.client_sequence j := by
  unfold server_disconnect_client
  rw [hi]
  refine ⟨_, rfl, ?_, ?_⟩
  · simp only [Function.update_same]
  · intro j hj
    simp only [Function.update_apply, if_neg hj, and_self]

/-- C18 on the worked full server: disconnecting the handle `client_id[0]` clears
the connected flag of slot 0. -/
theorem server_disconnect_client_frame_witness :
    handle_table_get_index full_server.client_handle_table ⟨1, 0⟩ = some 0 ∧
    (server_disconnect_client full_server ⟨1, 0⟩).map (fun s => s.client_is_connected 0)
      = some 0 ∧
    (server_disconnect_client full_server ⟨1, 0⟩).map (fun s => s.client_is_connected 1)
      = some 1 :=
  have hi : handle_table_get_index full_server.client_handle_table ⟨1, 0⟩ = some 0 := by decide
  have h := server_disconnect_client_frame full_server ⟨1, 0⟩ 0 hi
  ⟨hi,
    by
      obtain ⟨server1, hs, hc, _⟩ := h
      rw [hs]
      exact congrArg some hc,
    by decide⟩

/-! ## The receive phase as a drain -/

theorem s_server_recieve_packets.body_socket (E : net_env) (server : server_t) (d : datagram_t) :
    (s_server_recieve_packets.body E server d).socket = server.socket := by
  rcases s_server_recieve_packets.body_cases E server d with h | ⟨_, hfull, key, h⟩
  · rw [h]
  · rw [h, s_client_make_of_not_full _ _ _ _ _ _ hfull]

theorem socket_take_of_nil (server : server_t) (h : server.socket.inbound = []) :
    socket_take server = server := by
  unfold socket_take
  rw [h]
  cases server with
  | mk running endpoint public_key secret_key config socket =>
    cases socket with
    | mk inbound outbound =>
      dsimp only at h
      subst h
      rfl

theorem s_server_recieve_packets.loop_drain (E : net_env) :
    ∀ (pending : List datagram_t) (server : server_t), server.socket.inbound = pending →
      s_server_recieve_packets.loop E pending server
        = socket_take
          (List.foldl (fun s d => s_server_recieve_packets.body E (socket_take s) d) server
            (pending.takeWhile (fun d => decide (0 < d.bytes_read)))) ∧
      (s_server_recieve_packets.loop E pending server).socket.inbound
        = (pending.dropWhile (fun d => decide (0 < d.bytes_read))).tail := by
  intro pending
  induction pending with
  | nil =>
    intro server h
    refine ⟨?_, ?_⟩
    · simp only [s_server_recieve_packets.loop, List.takeWhile_nil, List.foldl_nil]
      exact (socket_take_of_nil server h).symm
    · simp only [s_server_recieve_packets.loop, List.dropWhile_nil, List.tail_nil]
      exact h
  | cons d rest ih =>
    intro server h
    have htake : socket_take server
        = { server with socket := { server.socket with inbound := rest } } := by
      unfold socket_take
      rw [h]
      rfl
    unfold s_server_recieve_packets.loop
    dsimp only
    by_cases hstop : d.bytes_read ≤ 0
    · have hp : decide (0 < d.bytes_read) = false := by
        simp only [decide_eq_false_iff_not, not_lt]
        exact hstop
      rw [if_pos hstop, List.takeWhile_cons, List.dropWhile_cons, hp]
      simp only [Bool.false_eq_true, if_false, List.foldl_nil, List.tail_cons]
      exact ⟨htake.symm, trivial⟩
    · have hp : decide (0 < d.bytes_read) = true := by
        simp only [decide_eq_true_eq]
        omega
      rw [if_neg hstop, List.takeWhile_cons, List.dropWhile_cons, hp]
      simp only [if_true, List.foldl_cons]
      rw [htake]
      exact ih _ (by rw [s_server_recieve_packets.body_socket])

/-- C16: for every finite sequence of pending inbound datagrams the receive phase
of `server_update` returns, and what it returns is the drain in arrival order:
each datagram pending before the first "nothing available" result is handled
by exactly one pass through the loop body, in arrival order, and the phase
stops at that result, leaving what follows it pending. -/
theorem receive_phase_drains_in_arrival_order (E : net_env) (server : server_t) (dt : ℚ) :
    s_server_recieve_packets E server = drain_in_arrival_order E server ∧
    server_update E server dt = drain_in_arrival_order E server ∧
    (server_update E server dt).socket.inbound
      = (server.socket.inbound.dropWhile (fun d => decide (0 < d.bytes_read))).tail := by
  have h := s_server_recieve_packets.loop_drain E server.socket.inbound server rfl
  exact ⟨h.1, h.1, h.2⟩

/-- C16 on an input with a "nothing available" result between two Hellos: the
first Hello is handled, the second stays pending. -/
theorem receive_phase_drains_in_arrival_order_witness :
    (server_update sample_env
      { started none with
        socket := { inbound := [sample_hello, { sample_hello with bytes_read := 0 },
          sample_hello2] } } 0).socket.inbound = [sample_hello2] ∧
    (server_update sample_env
      { started none with
        socket := { inbound := [sample_hello, { sample_hello with bytes_read := 0 },
          sample_hello2] } } 0).client_count = 1 :=
  ⟨by
      rw [(receive_phase_drains_in_arrival_order sample_env _ 0).2.2]
      decide,
    by decide⟩

/-! ## The replay buffer -/

theorem replay_buffer_update_keeps_culled (size s : Nat) (buffer : replay_buffer_t) (t : Nat)
    (h : s ∈ buffer.entries ∨ s < replay_buffer_floor size buffer) :
    s ∈ (replay_buffer_update size buffer t).entries ∨
      s < replay_buffer_floor size (replay_buffer_update size buffer t) := by
  unfold replay_buffer_update
  unfold replay_buffer_floor at h ⊢
  by_cases hmax : buffer.max < t
  · rw [if_pos hmax]
    dsimp only
    rcases h with h | h
    · by_cases hw : t + 1 - size ≤ s
      · left
        simp only [List.mem_filter, List.mem_cons, decide_eq_true_eq]
        exact ⟨Or.inr h, hw⟩
      · right; omega
    · right; omega
  · rw [if_neg hmax]
    dsimp only
    rcases h with h | h
    · left; exact List.mem_cons_of_mem _ h
    · right; exact h

theorem replay_buffer_cull_of_seen (size s : Nat) (buffer : replay_buffer_t)
    (h : s ∈ buffer.entries ∨ s < replay_buffer_floor size buffer) :
    replay_buffer_cull_duplicate size buffer s = true := by
  unfold replay_buffer_cull_duplicate
  rcases h with h | h
  · simp [h]
  · simp [h]

/-- C19: for all sequence numbers s1 < s2 presented to a freshly initialised
replay buffer in that order, `replay_buffer_cull_duplicate(s2)` after
`replay_buffer_update(s1)` returns false (accept), and presenting s1 again
afterwards returns true (reject): right after s2 has been recorded, and after
any further updates. -/
theorem replay_buffer_accepts_newer_rejects_replay (size s1 s2 : Nat) (later : List Nat)
    (h : s1 < s2) :
    replay_buffer_cull_duplicate size (replay_buffer_update size replay_buffer_init s1) s2
      = false ∧
    replay_buffer_cull_duplicate size
      (replay_buffer_update size (replay_buffer_update size replay_buffer_init s1) s2) s1
      = true ∧
    replay_buffer_cull_duplicate size
      (List.foldl (replay_buffer_update size) (replay_buffer_update size replay_buffer_init s1)
        later) s1 = true := by
  have hseen : s1 ∈ (replay_buffer_update size replay_buffer_init s1).entries ∨
      s1 < replay_buffer_floor size (replay_buffer_update size replay_buffer_init s1) := by
    unfold replay_buffer_update replay_buffer_init replay_buffer_floor
    by_cases h0 : 0 < s1
    · rw [if_pos h0]
      dsimp only
      by_cases hw : s1 + 1 - size ≤ s1
      · left
        simp only [List.mem_filter, List.mem_cons, decide_eq_true_eq, true_or, true_and]
        exact hw
      · right; omega
    · rw [if_neg h0]
      left
      exact List.mem_cons_self _ _
  have hall : ∀ (ts : List Nat) (buffer : replay_buffer_t),
      (s1 ∈ buffer.entries ∨ s1 < replay_buffer_floor size buffer) →
      replay_buffer_cull_duplicate size (List.foldl (replay_buffer_update size) buffer ts) s1
        = true := by
    intro ts
    induction ts with
    | nil => intro buffer hb; exact replay_buffer_cull_of_seen size s1 buffer hb
    | cons t ts ih =>
      intro buffer hb
      exact ih _ (replay_buffer_update_keeps_culled size s1 buffer t hb)
  refine ⟨?_, hall [s2] _ hseen, hall later _ hseen⟩
  unfold replay_buffer_cull_duplicate replay_buffer_update replay_buffer_init replay_buffer_floor
  have hne : s2 ≠ s1 := Nat.ne_of_gt h
  by_cases h0 : 0 < s1
  · rw [if_pos h0]
    have hlt : ¬ s2 < s1 + 1 - size := by omega
    simp [hlt, hne, List.filter_cons]
  · rw [if_neg h0]
    have hs1 : s1 = 0 := by omega
    subst hs1
    have hlt : ¬ s2 < 0 + 1 - size := by omega
    simp [hlt, hne]

/-- C19 with a window of 4: 3 is recorded, 10 is accepted, and 3 is rejected
afterwards. -/
theorem replay_buffer_accepts_newer_rejects_replay_witness :
    (3 : Nat) < 10 ∧
    replay_buffer_cull_duplicate 4 (replay_buffer_update 4 replay_buffer_init 3) 10 = false ∧
    replay_buffer_cull_duplicate 4
      (List.foldl (replay_buffer_update 4) (replay_buffer_update 4 replay_buffer_init 3)
        [10, 11]) 3 = true :=
  have h := replay_buffer_accepts_newer_rejects_replay 4 3 10 [10, 11] (by decide)
  ⟨by decide, h.1, h.2.2⟩

/-! ## The packet queue -/

theorem packet_queue_read_write (entries : List Nat) (i v j : Nat) :
    packet_queue_read (packet_queue_write entries i v) j
      = if j = i then v else packet_queue_read entries j := by
  unfold packet_queue_read packet_queue_write
  by_cases hi : i < entries.length
  · rw [if_pos hi]
    by_cases hj : j = i
    · subst hj
      simp [List.getD_eq_getElem?_getD, List.getElem?_set, hi]
    · have hji : ¬ i = j := fun h => hj h.symm
      simp [List.getD_eq_getElem?_getD, List.getElem?_set, hj, hji]
  · rw [if_neg hi]
    have hlen : entries.length ≤ i := Nat.le_of_not_lt hi
    by_cases hj : j = i
    · subst hj
      rw [if_pos rfl, List.getD_eq_getElem?_getD, List.getElem?_append_right (by simp; omega)]
      have hz : j - (entries ++ List.replicate (j - entries.length) 0).length = 0 := by
        simp
        omega
      rw [hz]
      rfl
    · rw [if_neg hj, List.getD_eq_getElem?_getD, List.getD_eq_getElem?_getD]
      by_cases hjl : j < entries.length
      · rw [List.append_assoc, List.getElem?_append_left hjl]
      · have hjl2 : entries.length ≤ j := Nat.le_of_not_lt hjl
        rw [List.getElem?_eq_none hjl2]
        by_cases hji : j < i
        · rw [List.getElem?_append_left (by simp; omega),
            List.getElem?_append_right hjl2, List.getElem?_replicate]
          split <;> rfl
        · rw [List.getElem?_eq_none (by simp; omega)]

theorem ring_index_ne (capacity i0 k n : Nat) (hk : k < n) (hn : n < capacity) :
    (i0 + k) % capacity ≠ (i0 + n) % capacity := by
  intro h
  have h1 : k % capacity = n % capacity := Nat.ModEq.add_left_cancel' i0 h
  rw [Nat.mod_eq_of_lt (by omega), Nat.mod_eq_of_lt hn] at h1
  omega

theorem packet_queue_push_ok (capacity : Nat) (q : packet_queue_t) (packet type : Nat)
    (hok : packet_queue_ok capacity q) (hroom : q.count < (capacity : Int)) :
    ∃ q1, packet_queue_push capacity q packet type = some q1 ∧ packet_queue_ok capacity q1 ∧
      q1.count = q.count + 1 ∧
      packet_queue_pending capacity q1 = packet_queue_pending capacity q ++ [(packet, type)] := by
  obtain ⟨i0, n, h0, hc, hi0, _, h1⟩ := hok
  have hn : n < capacity := by rw [hc] at hroom; exact_mod_cast hroom
  have hfull : ¬ ((capacity : Int) ≤ q.count) := by omega
  unfold packet_queue_push
  rw [if_neg hfull]
  refine ⟨_, rfl, ⟨i0, n + 1, h0, by dsimp only; rw [hc]; push_cast; rfl, hi0, hn, ?_⟩,
    rfl, ?_⟩
  · dsimp only
    rw [h1, ← Nat.add_assoc, ← Nat.mod_add_mod (i0 + n) capacity 1]
    push_cast
    rfl
  · unfold packet_queue_pending
    dsimp only
    have ht : q.index1.toNat = (i0 + n) % capacity := by rw [h1]; rfl
    rw [ht, hc, h0]
    have h2 : ((n : Int) + 1).toNat = n + 1 := by omega
    rw [h2, List.range_succ, List.map_append]
    simp only [Int.toNat_ofNat, List.map_cons, List.map_nil]
    congr 1
    · apply List.map_congr_left
      intro k hk
      have hkn : k < n := List.mem_range.mp hk
      have hne := ring_index_ne capacity i0 k n hkn hn
      simp only [packet_queue_read_write, if_neg hne]
    · simp [packet_queue_read_write]

theorem packet_queue_pop_ok (capacity : Nat) (q : packet_queue_t)
    (hok : packet_queue_ok capacity q) (hsome : 0 < q.count) :
    ∃ item q1, packet_queue_pop capacity q = some (item, q1) ∧ packet_queue_ok capacity q1 ∧
      q1.count = q.count - 1 ∧
      packet_queue_pending capacity q = item :: packet_queue_pending capacity q1 := by
  obtain ⟨i0, n, h0, hc, hi0, hn, h1⟩ := hok
  have hempty : ¬ (q.count ≤ 0) := by omega
  have hn0 : 0 < n := by rw [hc] at hsome; exact_mod_cast hsome
  obtain ⟨m, rfl⟩ : ∃ m, n = m + 1 := ⟨n - 1, by omega⟩
  unfold packet_queue_pop
  rw [if_neg hempty]
  refine ⟨_, _, rfl, ⟨(i0 + 1) % capacity, m, ?_, ?_, Nat.mod_lt _ (by omega), by omega, ?_⟩,
    rfl, ?_⟩
  · dsimp only
    rw [h0]
    push_cast
    rfl
  · dsimp only
    rw [hc]
    push_cast
    omega
  · dsimp only
    rw [h1, Nat.mod_add_mod]
    congr 2
    omega
  · unfold packet_queue_pending
    dsimp only
    have hm : ((q.count - 1 : Int)).toNat = m := by rw [hc]; push_cast; omega
    have hm1 : q.count.toNat = m + 1 := by rw [hc]; rfl
    have hi : ((q.index0 + 1) % (capacity : Int)).toNat = (i0 + 1) % capacity := by
      rw [h0]
      have : ((i0 : Int) + 1) % (capacity : Int) = (((i0 + 1) % capacity : Nat) : Int) := by
        push_cast
        rfl
      rw [this]
      rfl
    have hi0n : q.index0.toNat = i0 := by rw [h0]; rfl
    rw [hm, hm1, hi, hi0n, List.range_succ_eq_map, List.map_cons, List.map_map]
    congr 1
    · rw [Nat.add_zero, Nat.mod_eq_of_lt hi0]
    · apply List.map_congr_left
      intro k _
      have : ((i0 + 1) % capacity + k) % capacity = (i0 + (k + 1)) % capacity := by
        rw [Nat.mod_add_mod]
        congr 1
        omega
      simp only [Function.comp, this, Nat.succ_eq_add_one]

theorem packet_queue_push_all_ok (capacity : Nat) :
    ∀ (items : List (Nat × Nat)) (q q1 : packet_queue_t), packet_queue_ok capacity q →
      packet_queue_push_all capacity q items = some q1 →
      packet_queue_ok capacity q1 ∧
      packet_queue_pending capacity q1 = packet_queue_pending capacity q ++ items := by
  intro items
  induction items with
  | nil =>
    intro q q1 hok h
    have : q = q1 := Option.some.inj h
    rw [← this]
    exact ⟨hok, (List.append_nil _).symm⟩
  | cons x rest ih =>
    intro q q1 hok h
    obtain ⟨packet, type⟩ := x
    unfold packet_queue_push_all at h
    by_cases hroom : q.count < (capacity : Int)
    · obtain ⟨q2, hp, hok2, _, hpend⟩ := packet_queue_push_ok capacity q packet type hok hroom
      rw [hp] at h
      dsimp only at h
      obtain ⟨h3, h4⟩ := ih q2 q1 hok2 h
      refine ⟨h3, ?_⟩
      rw [h4, hpend, List.append_assoc]
      rfl
    · have hnone : packet_queue_push capacity q packet type = none := by
        unfold packet_queue_push
        rw [if_pos (by omega)]
      rw [hnone] at h
      cases h

theorem packet_queue_pop_n_ok (capacity : Nat) :
    ∀ (n : Nat) (q : packet_queue_t), packet_queue_ok capacity q → q.count = (n : Int) →
      (packet_queue_pop_n capacity q n).1 = packet_queue_pending capacity q ∧
      packet_queue_pop capacity (packet_queue_pop_n capacity q n).2 = none := by
  intro n
  induction n with
  | zero =>
    intro q _ hc
    refine ⟨?_, ?_⟩
    · simp [packet_queue_pop_n, packet_queue_pending, hc]
    · simp [packet_queue_pop_n, packet_queue_pop, hc]
  | succ n ih =>
    intro q hok hc
    obtain ⟨item, q1, hp, hok1, hc1, hpend⟩ :=
      packet_queue_pop_ok capacity q hok (by rw [hc]; push_cast; omega)
    have hc2 : q1.count = (n : Int) := by rw [hc1, hc]; push_cast; omega
    obtain ⟨h1, h2⟩ := ih q1 hok1 hc2
    unfold packet_queue_pop_n
    rw [hp]
    dsimp only
    exact ⟨by rw [h1, hpend], h2⟩

/-- C20: the packet queue is FIFO. For every sequence of `packet_queue_push`
calls that succeed on a queue whose ring members fit together, the subsequent
`packet_queue_pop` calls return what was pending before, oldest first, and
then the pushed (packet, type) pairs in exactly the order they were pushed;
once none remain, pop reports `Empty`. -/
theorem packet_queue_fifo (capacity : Nat) (q q1 : packet_queue_t) (items : List (Nat × Nat))
    (hok : packet_queue_ok capacity q)
    (hpush : packet_queue_push_all capacity q items = some q1) :
    (packet_queue_pop_n capacity q1
        ((packet_queue_pending capacity q).length + items.length)).1
      = packet_queue_pending capacity q ++ items ∧
    packet_queue_pop capacity
      (packet_queue_pop_n capacity q1
        ((packet_queue_pending capacity q).length + items.length)).2 = none := by
  obtain ⟨hok1, hpend⟩ := packet_queue_push_all_ok capacity items q q1 hok hpush
  have hcount : q1.count = (((packet_queue_pending capacity q).length + items.length : Nat) : Int)
      := by
    obtain ⟨_, n, _, hc, _, _, _⟩ := hok1
    have hlen : (packet_queue_pending capacity q1).length = n := by
      unfold packet_queue_pending
      rw [hc]
      simp
    rw [hpend, List.length_append] at hlen
    rw [hc, hlen]
  obtain ⟨h1, h2⟩ := packet_queue_pop_n_ok capacity _ q1 hok1 hcount
  exact ⟨by rw [h1, hpend], h2⟩

/-- C20 on a fresh queue of capacity 3: three pushes, then three pops return the
pairs in the order pushed, and the next pop reports `Empty`. -/
theorem packet_queue_fifo_witness :
    packet_queue_ok 3 {} ∧
    packet_queue_push_all 3 {} [(10, 1), (20, 2), (30, 3)]
      = some { count := 3, index0 := 0, index1 := 0, types := [1, 2, 3],
               packets := [10, 20, 30] } ∧
    (packet_queue_pop_n 3
      { count := 3, index0 := 0, index1 := 0, types := [1, 2, 3], packets := [10, 20, 30] }
      3).1 = [(10, 1), (20, 2), (30, 3)] :=
  have hok : packet_queue_ok 3 {} := ⟨0, 0, rfl, rfl, by decide, by decide, rfl⟩
  have hpush : packet_queue_push_all 3 {} [(10, 1), (20, 2), (30, 3)]
      = some { count := 3, index0 := 0, index1 := 0, types := [1, 2, 3],
               packets := [10, 20, 30] } := by decide
  ⟨hok, hpush, (packet_queue_fifo 3 {} _ [(10, 1), (20, 2), (30, 3)] hok hpush).1⟩

/-! ## Base64 -/

/-- C30, evaluated on the code: the encode table gives `z` (122) to the 6-bit
value 51, and 122 - 43 = 79 is not an index of the 79 entries of
`s_base64_to_6bits`; for every other 6-bit value the decode table is the
inverse of the encode table. -/
theorem s_base64_to_6bits_misses_z :
    s_6bits_to_base64.getD 51 0 = 122 ∧
    s_6bits_to_base64.getD 51 0 - 43 = 79 ∧
    s_base64_to_6bits.length = 79 ∧
    s_base64_to_6bits.get? (s_6bits_to_base64.getD 51 0 - 43) = none ∧
    ∀ i, i < 64 → i ≠ 51 →
      s_6bits_to_base64.getD i 0 - 43 < s_base64_to_6bits.length ∧
      s_base64_to_6bits.get? (s_6bits_to_base64.getD i 0 - 43) = some (i : Int) := by
  decide

/-- C21, evaluated on the code: the one byte 204 is encoded as `zA==`, and
`base64_decode` of these four characters returns a failure and writes
nothing. -/
theorem base64_decode_encode_fails_on_z :
    base64_encode 4 [204] = (error_t.success, [122, 65, 61, 61]) ∧
    (base64_decode 1 (base64_encode 4 [204]).2).1.is_error = true ∧
    (base64_decode 1 (base64_encode 4 [204]).2).2 = [] := by
  decide

theorem and_shiftLeft_shiftRight (n m k : Nat) : (n &&& (m <<< k)) >>> k = (n >>> k) &&& m := by
  apply Nat.eq_of_testBit_eq
  intro j
  simp [Nat.testBit_shiftRight, Nat.testBit_and, Nat.testBit_shiftLeft]

theorem or_bytes3 (b0 b1 b2 : Nat) (h0 : b0 < 256) (h1 : b1 < 256) (h2 : b2 < 256) :
    ((b0 <<< 16) % 2 ^ 32 ||| (b1 <<< 8) % 2 ^ 32 ||| b2) % 2 ^ 32
      = b0 * 65536 + b1 * 256 + b2 := by
  have e0 : (b0 <<< 16) % 2 ^ 32 = 2 ^ 16 * b0 := by
    rw [Nat.shiftLeft_eq, Nat.mod_eq_of_lt (by omega)]
    omega
  have e1 : (b1 <<< 8) % 2 ^ 32 = 2 ^ 8 * b1 := by
    rw [Nat.shiftLeft_eq, Nat.mod_eq_of_lt (by omega)]
    omega
  have s1 : 2 ^ 16 * b0 ||| 2 ^ 8 * b1 = 2 ^ 8 * (2 ^ 8 * b0 + b1) := by
    rw [← Nat.mul_add_lt_is_or (by omega : 2 ^ 8 * b1 < 2 ^ 16) b0]
    omega
  rw [e0, e1, s1, ← Nat.mul_add_lt_is_or (by omega : b2 < 2 ^ 8), Nat.mod_eq_of_lt (by omega)]
  omega

theorem or_bytes2 (b0 b1 : Nat) (h0 : b0 < 256) (h1 : b1 < 256) :
    ((b0 <<< 8) % 2 ^ 32 ||| b1) % 2 ^ 32 = b0 * 256 + b1 := by
  have e0 : (b0 <<< 8) % 2 ^ 32 = 2 ^ 8 * b0 := by
    rw [Nat.shiftLeft_eq, Nat.mod_eq_of_lt (by omega)]
    omega
  rw [e0, ← Nat.mul_add_lt_is_or (by omega : b1 < 2 ^ 8), Nat.mod_eq_of_lt (by omega)]
  omega

theorem mask6_shift (n k : Nat) : (n &&& (63 <<< k)) >>> k = n / 2 ^ k % 64 := by
  rw [and_shiftLeft_shiftRight, Nat.shiftRight_eq_div_pow]
  exact Nat.and_pow_two_sub_one_eq_mod _ 6

theorem s_6bits_to_base64_eq_rfc4648 : ∀ v, v < 64 → s_6bits_to_base64.getD v 0 = rfc4648_char v := by
  decide

theorem CUTE_BASE64_ENCODED_SIZE_eq_ceil (n : Nat) :
    CUTE_BASE64_ENCODED_SIZE n = 4 * ⌈(n : ℚ) / 3⌉₊ := by
  unfold CUTE_BASE64_ENCODED_SIZE
  have h : (n + 2) / 3 = ⌈(n : ℚ) / 3⌉₊ := by
    by_cases hk : (n + 2) / 3 = 0
    · have hn : n = 0 := by omega
      subst hn
      simp
    · symm
      rw [Nat.ceil_eq_iff hk]
      have h1 : 3 * ((n + 2) / 3 - 1) < n := by omega
      have h2 : n ≤ 3 * ((n + 2) / 3) := by omega
      constructor
      · rw [lt_div_iff₀ (by norm_num)]
        exact_mod_cast (by omega : ((n + 2) / 3 - 1) * 3 < n)
      · rw [div_le_iff₀ (by norm_num)]
        exact_mod_cast (by omega : n ≤ (n + 2) / 3 * 3)
  rw [h, Nat.mul_comm]

theorem int_of_eq (v : Int) (h0 : 0 ≤ v) (h1 : v ≤ 2147483647) : int_of v = v := by
  unfold int_of
  omega

theorem int_of_le (v d : Int) (h0 : 0 ≤ v) (h : v ≤ d) : int_of v ≤ d := by
  unfold int_of
  omega

/-- While the encoded size fits in an `int`, `base64_encode` returns a failure
if and only if `dst_size` is smaller than the encoded size
4 * ceil(src_size / 3), and in that case it writes nothing to dst. -/
theorem base64_encode_fails_iff_too_small_in_range (dst_size : Int) (src : List Nat)
    (hfit : 4 * ⌈(src.length : ℚ) / 3⌉₊ ≤ INT_MAX) :
    ((base64_encode dst_size src).1.is_error = true ↔
      dst_size < ((4 * ⌈(src.length : ℚ) / 3⌉₊ : Nat) : Int)) ∧
    ((base64_encode dst_size src).1.is_error = true → (base64_encode dst_size src).2 = []) := by
  rw [← CUTE_BASE64_ENCODED_SIZE_eq_ceil] at hfit ⊢
  unfold INT_MAX at hfit
  have hin : int_of ((CUTE_BASE64_ENCODED_SIZE src.length : Nat) : Int)
      = ((CUTE_BASE64_ENCODED_SIZE src.length : Nat) : Int) :=
    int_of_eq _ (Int.ofNat_nonneg _) (by omega)
  rw [base64_encode]
  dsimp only
  rw [hin]
  by_cases h : dst_size < ((CUTE_BASE64_ENCODED_SIZE src.length : Nat) : Int)
  · rw [if_pos h]
    simp [error_t.is_error, h]
  · rw [if_neg h]
    simp [error_t.is_error, h]

theorem base64_encode_of_overflow (src : List Nat) (hlen : src.length = 1610612736) :
    4 * ⌈((src.length : Nat) : ℚ) / 3⌉₊ = 2147483648 ∧
    (INT_MAX : Int) < ((4 * ⌈((src.length : Nat) : ℚ) / 3⌉₊ : Nat) : Int) ∧
    (base64_encode (INT_MAX : Int) src).1.is_error = false := by
  have hsize : 4 * ⌈((src.length : Nat) : ℚ) / 3⌉₊ = 2147483648 := by
    rw [← CUTE_BASE64_ENCODED_SIZE_eq_ceil, hlen]
    rfl
  refine ⟨hsize, ?_, ?_⟩
  · rw [hsize]
    unfold INT_MAX
    norm_num
  · have hguard : ¬ ((INT_MAX : Int) < int_of (CUTE_BASE64_ENCODED_SIZE src.length : Nat)) := by
      rw [hlen]
      unfold int_of CUTE_BASE64_ENCODED_SIZE INT_MAX
      norm_num
    rw [base64_encode]
    dsimp only
    rw [if_neg hguard]
    rfl

/-- C25, on a worked input: for a src of 1610612736 bytes the encoded size
4 * ceil(src_size / 3) is 2147483648, which no `int` holds; with `dst_size` at
`INT_MAX`, smaller than the encoded size, the test `dst_size < out_size` is
false for the `int out_size`, and `base64_encode` does not return a failure. -/
theorem base64_encode_no_failure_on_overflow :
    4 * ⌈(((List.replicate 1610612736 0 : List Nat).length : Nat) : ℚ) / 3⌉₊ = 2147483648 ∧
    (INT_MAX : Int)
      < ((4 * ⌈(((List.replicate 1610612736 0 : List Nat).length : Nat) : ℚ) / 3⌉₊ : Nat) : Int) ∧
    (base64_encode (INT_MAX : Int) (List.replicate 1610612736 0)).1.is_error = false :=
  base64_encode_of_overflow (List.replicate 1610612736 0) (List.length_replicate _ _)

theorem base64_encode.loop_eq (b0 b1 b2 : Nat) (rest out : List Nat) (k : Nat)
    (h0 : b0 < 256) (h1 : b1 < 256) (h2 : b2 < 256) :
    base64_encode.loop (k + 1) (b0 :: b1 :: b2 :: rest) out
      = base64_encode.loop k rest
        (out ++ [rfc4648_char (b0 / 4), rfc4648_char (b0 % 4 * 16 + b1 / 16),
          rfc4648_char (b1 % 16 * 4 + b2 / 64), rfc4648_char (b2 % 64)]) := by
  have hbits := or_bytes3 b0 b1 b2 h0 h1 h2
  have ma : ((b0 * 65536 + b1 * 256 + b2) &&& 0xFC0000) >>> 18 = b0 / 4 := by
    rw [show (0xFC0000 : Nat) = 63 <<< 18 from by decide, mask6_shift]
    omega
  have mb : ((b0 * 65536 + b1 * 256 + b2) &&& 0x3F000) >>> 12 = b0 % 4 * 16 + b1 / 16 := by
    rw [show (0x3F000 : Nat) = 63 <<< 12 from by decide, mask6_shift]
    omega
  have mc : ((b0 * 65536 + b1 * 256 + b2) &&& 0xFC0) >>> 6 = b1 % 16 * 4 + b2 / 64 := by
    rw [show (0xFC0 : Nat) = 63 <<< 6 from by decide, mask6_shift]
    omega
  have md : (b0 * 65536 + b1 * 256 + b2) &&& 0x3F = b2 % 64 := by
    rw [show (0x3F : Nat) = 2 ^ 6 - 1 from by decide, Nat.and_pow_two_sub_one_eq_mod]
    omega
  simp only [base64_encode.loop, byte_at, List.getD_cons_zero, List.getD_cons_succ,
    List.drop_succ_cons, List.drop_zero]
  rw [hbits, ma, mb, mc, md,
    s_6bits_to_base64_eq_rfc4648 _ (by omega), s_6bits_to_base64_eq_rfc4648 _ (by omega),
    s_6bits_to_base64_eq_rfc4648 _ (by omega), s_6bits_to_base64_eq_rfc4648 _ (by omega)]

theorem base64_encode.tail_two (b0 b1 : Nat) (h0 : b0 < 256) (h1 : b1 < 256) :
    base64_encode.tail 1 [b0, b1]
      = [rfc4648_char (b0 / 4), rfc4648_char (b0 % 4 * 16 + b1 / 16),
        rfc4648_char (b1 % 16 * 4)] := by
  have hbits := or_bytes2 b0 b1 h0 h1
  have ma : ((b0 * 256 + b1) &&& 0xFC00) >>> 10 = b0 / 4 := by
    rw [show (0xFC00 : Nat) = 63 <<< 10 from by decide, mask6_shift]
    omega
  have mb : ((b0 * 256 + b1) &&& 0x3F0) >>> 4 = b0 % 4 * 16 + b1 / 16 := by
    rw [show (0x3F0 : Nat) = 63 <<< 4 from by decide, mask6_shift]
    omega
  have mc : (((b0 * 256 + b1) &&& 0xF) <<< 2) % 2 ^ 32 = b1 % 16 * 4 := by
    rw [show (0xF : Nat) = 2 ^ 4 - 1 from by decide, Nat.and_pow_two_sub_one_eq_mod,
      Nat.shiftLeft_eq]
    omega
  unfold base64_encode.tail
  simp only [byte_at, List.getD_cons_zero, List.getD_cons_succ, if_true]
  rw [hbits, ma, mb, mc,
    s_6bits_to_base64_eq_rfc4648 _ (by omega), s_6bits_to_base64_eq_rfc4648 _ (by omega),
    s_6bits_to_base64_eq_rfc4648 _ (by omega)]

theorem base64_encode.tail_one (b0 : Nat) (h0 : b0 < 256) :
    base64_encode.tail 2 [b0] = [rfc4648_char (b0 / 4), rfc4648_char (b0 % 4 * 16)] := by
  have ma : ((b0 % 2 ^ 32) &&& 0xFC) >>> 2 = b0 / 4 := by
    rw [show (0xFC : Nat) = 63 <<< 2 from by decide, mask6_shift]
    omega
  have mb : (((b0 % 2 ^ 32) &&& 0x3) <<< 4) % 2 ^ 32 = b0 % 4 * 16 := by
    rw [show (0x3 : Nat) = 2 ^ 2 - 1 from by decide, Nat.and_pow_two_sub_one_eq_mod,
      Nat.shiftLeft_eq]
    omega
  unfold base64_encode.tail
  rw [if_neg (by decide : ¬ (2 = 1)), if_pos rfl]
  simp only [byte_at, List.getD_cons_zero]
  rw [ma, mb,
    s_6bits_to_base64_eq_rfc4648 _ (by omega), s_6bits_to_base64_eq_rfc4648 _ (by omega)]

theorem base64_encode.out_eq_rfc4648 (src : List Nat) :
    ∀ out : List Nat, (∀ b ∈ src, b < 256) →
      (base64_encode.loop (src.length / 3) src out).1
          ++ base64_encode.tail (if src.length % 3 ≠ 0 then 3 - src.length % 3 else 0)
            (base64_encode.loop (src.length / 3) src out).2
          ++ List.replicate (if src.length % 3 ≠ 0 then 3 - src.length % 3 else 0) 61
        = out ++ rfc4648_encode src := by
  induction src using rfc4648_encode.induct with
  | case1 b0 b1 b2 rest ih =>
    intro out hb
    have h0 : b0 < 256 := hb b0 (by simp)
    have h1 : b1 < 256 := hb b1 (by simp)
    have h2 : b2 < 256 := hb b2 (by simp)
    have hrest : ∀ b ∈ rest, b < 256 := fun b hm => hb b (by simp [hm])
    have hlen : (b0 :: b1 :: b2 :: rest).length = rest.length + 3 := by simp
    rw [hlen, Nat.add_div_right _ (by decide : 0 < 3), Nat.add_mod_right,
      base64_encode.loop_eq b0 b1 b2 rest out _ h0 h1 h2, ih _ hrest]
    simp [rfc4648_encode]
  | case2 b0 b1 =>
    intro out hb
    have h0 : b0 < 256 := hb b0 (by simp)
    have h1 : b1 < 256 := hb b1 (by simp)
    simp only [List.length_cons, List.length_nil, base64_encode.loop]
    rw [show (if (0 + 1 + 1) % 3 ≠ 0 then 3 - (0 + 1 + 1) % 3 else 0) = 1 from by decide,
      base64_encode.tail_two b0 b1 h0 h1]
    simp [rfc4648_encode]
  | case3 b0 =>
    intro out hb
    have h0 : b0 < 256 := hb b0 (by simp)
    simp only [List.length_cons, List.length_nil, base64_encode.loop]
    rw [show (if (0 + 1) % 3 ≠ 0 then 3 - (0 + 1) % 3 else 0) = 2 from by decide,
      base64_encode.tail_one b0 h0]
    simp [rfc4648_encode]
  | case4 =>
    intro out _
    simp [base64_encode.loop, base64_encode.tail, rfc4648_encode]

theorem rfc4648_encode_length (src : List Nat) :
    (rfc4648_encode src).length = CUTE_BASE64_ENCODED_SIZE src.length := by
  unfold CUTE_BASE64_ENCODED_SIZE
  induction src using rfc4648_encode.induct with
  | case1 b0 b1 b2 rest ih =>
    simp only [rfc4648_encode, List.length_cons, ih]
    omega
  | case2 b0 b1 => simp [rfc4648_encode]
  | case3 b0 => simp [rfc4648_encode]
  | case4 => simp [rfc4648_encode]

/-- C23: for every byte sequence src of length n and every
dst_size >= 4 * ceil(n / 3), `base64_encode` returns success and writes exactly
the RFC 4648 base64 encoding of src (standard alphabet, `=` padding), whose
length is 4 * ceil(n / 3). -/
theorem base64_encode_is_rfc4648 (dst_size : Int) (src : List Nat)
    (hbytes : ∀ b ∈ src, b < 256)
    (hsize : ((4 * ⌈(src.length : ℚ) / 3⌉₊ : Nat) : Int) ≤ dst_size) :
    base64_encode dst_size src = (error_t.success, rfc4648_encode src) ∧
    (rfc4648_encode src).length = 4 * ⌈(src.length : ℚ) / 3⌉₊ := by
  rw [← CUTE_BASE64_ENCODED_SIZE_eq_ceil] at hsize ⊢
  refine ⟨?_, rfc4648_encode_length src⟩
  rw [base64_encode]
  dsimp only
  rw [if_neg (not_lt.mpr (int_of_le _ _ (by omega) hsize))]
  have h := base64_encode.out_eq_rfc4648 src [] hbytes
  rw [List.nil_append] at h
  rw [h]

/-- C23 on the six bytes of `foobar`, with a dst of exactly 8 characters. -/
theorem base64_encode_is_rfc4648_witness :
    ((4 * ⌈(([102, 111, 111, 98, 97, 114] : List Nat).length : ℚ) / 3⌉₊ : Nat) : Int) ≤ 8 ∧
    base64_encode 8 [102, 111, 111, 98, 97, 114]
      = (error_t.success, [90, 109, 57, 118, 89, 109, 70, 121]) :=
  have hsize : ((4 * ⌈(([102, 111, 111, 98, 97, 114] : List Nat).length : ℚ) / 3⌉₊ : Nat) : Int)
      ≤ 8 := by
    rw [← CUTE_BASE64_ENCODED_SIZE_eq_ceil]
    decide
  ⟨hsize, (base64_encode_is_rfc4648 8 [102, 111, 111, 98, 97, 114] (by decide) hsize).1⟩

theorem base64_decode.illegal_of_not_alphabet :
    ∀ c, c < 256 → base64_alphabet c = false → base64_decode.illegal c := by
  unfold base64_decode.illegal
  decide

theorem base64_decode.illegal_pad : base64_decode.illegal 61 := by
  unfold base64_decode.illegal
  decide

theorem byte_at_drop (input : List Nat) (m j : Nat) :
    byte_at (input.drop m) j = byte_at input (m + j) := by
  simp [byte_at, List.getD_eq_getElem?_getD, List.getElem?_drop]

theorem base64_decode.loop_fails (k : Nat) :
    ∀ (input out : List Nat) (j : Nat), j < 4 * k → base64_decode.illegal (byte_at input j) →
      ∃ details, (base64_decode.loop k input out).1 = some (error_t.failure details) := by
  induction k with
  | zero => intro input out j hj; omega
  | succ k ih =>
    intro input out j hj hbad
    simp only [base64_decode.loop]
    split
    · exact ⟨_, rfl⟩
    · rename_i h1
      split
      · exact ⟨_, rfl⟩
      · rename_i h2
        have hge : 4 ≤ j := by
          by_contra hlt
          unfold base64_decode.illegal at hbad
          have hj4 : j = 0 ∨ j = 1 ∨ j = 2 ∨ j = 3 := by omega
          rcases hj4 with rfl | rfl | rfl | rfl <;> rcases hbad with hb | hb
          all_goals solve
            | (apply h1; simp [hb])
            | (apply h2; simp [hb])
        have := ih (input.drop 4)
          (out ++ [((((base64_decode.value (base64_decode.index (byte_at input 0)) <<< 26) % 2 ^ 32
            ||| (base64_decode.value (base64_decode.index (byte_at input 1)) <<< 20) % 2 ^ 32
            ||| (base64_decode.value (base64_decode.index (byte_at input 2)) <<< 14) % 2 ^ 32
            ||| (base64_decode.value (base64_decode.index (byte_at input 3)) <<< 8) % 2 ^ 32)
              % 2 ^ 32 &&& 0xFF000000) >>> 24) % 256,
            ((((base64_decode.value (base64_decode.index (byte_at input 0)) <<< 26) % 2 ^ 32
            ||| (base64_decode.value (base64_decode.index (byte_at input 1)) <<< 20) % 2 ^ 32
            ||| (base64_decode.value (base64_decode.index (byte_at input 2)) <<< 14) % 2 ^ 32
            ||| (base64_decode.value (base64_decode.index (byte_at input 3)) <<< 8) % 2 ^ 32)
              % 2 ^ 32 &&& 0x00FF0000) >>> 16) % 256,
            ((((base64_decode.value (base64_decode.index (byte_at input 0)) <<< 26) % 2 ^ 32
            ||| (base64_decode.value (base64_decode.index (byte_at input 1)) <<< 20) % 2 ^ 32
            ||| (base64_decode.value (base64_decode.index (byte_at input 2)) <<< 14) % 2 ^ 32
            ||| (base64_decode.value (base64_decode.index (byte_at input 3)) <<< 8) % 2 ^ 32)
              % 2 ^ 32 &&& 0x0000FF00) >>> 8) % 256])
          (j - 4) (by omega)
          (by rw [byte_at_drop, show 4 + (j - 4) = j from by omega]; exact hbad)
        exact this

theorem base64_decode.loop_rest (k : Nat) :
    ∀ (input out : List Nat), (base64_decode.loop k input out).1 = none →
      (base64_decode.loop k input out).2.2 = input.drop (4 * k) := by
  induction k with
  | zero => intro input out _; simp [base64_decode.loop]
  | succ k ih =>
    intro input out h
    simp only [base64_decode.loop] at h ⊢
    split at h
    · cases h
    · split at h
      · cases h
      · rename_i h1 h2
        rw [if_neg h1, if_neg h2, ih _ _ h, List.drop_drop]
        congr 1
        omega

theorem base64_decode.tail_fails (pads : Nat) (input : List Nat) (j : Nat)
    (hp : pads = 1 ∨ pads = 2) (hj : j + pads < 4)
    (hbad : base64_decode.illegal (byte_at input j)) :
    ∃ details, (base64_decode.tail pads input).1 = some (error_t.failure details) := by
  unfold base64_decode.illegal at hbad
  rcases hp with rfl | rfl
  · simp only [base64_decode.tail, if_true]
    split
    · exact ⟨_, rfl⟩
    · rename_i h1
      split
      · exact ⟨_, rfl⟩
      · rename_i h2
        exfalso
        have hj3 : j = 0 ∨ j = 1 ∨ j = 2 := by omega
        rcases hj3 with rfl | rfl | rfl <;> rcases hbad with hb | hb
        all_goals solve
          | (apply h1; simp [hb])
          | (apply h2; simp [hb])
  · simp only [base64_decode.tail, if_neg (by decide : ¬ (2 = 1)), if_true]
    split
    · exact ⟨_, rfl⟩
    · rename_i h1
      split
      · exact ⟨_, rfl⟩
      · rename_i h2
        exfalso
        have hj2 : j = 0 ∨ j = 1 := by omega
        rcases hj2 with rfl | rfl <;> rcases hbad with hb | hb
        all_goals solve
          | (apply h1; simp [hb])
          | (apply h2; simp [hb])

theorem base64_decode_of_loop_fails (dst_size : Int) (src : List Nat) (details : String)
    (pads quadruplets : Nat)
    (h0 : src.length ≠ 0) (h4 : src.length % 4 = 0)
    (hp : (if byte_at src (src.length - 1) = 61 then 1 else 0)
      + (if byte_at src (src.length - 2) = 61 then 1 else 0) = pads)
    (hq : (if pads ≠ 0 then src.length / 4 - 1 else src.length / 4) = quadruplets)
    (h : (base64_decode.loop quadruplets src []).1 = some (error_t.failure details)) :
    (base64_decode dst_size src).1.is_error = true := by
  subst hq
  subst hp
  unfold base64_decode
  dsimp only
  rw [if_neg h0, if_neg (by omega)]
  split
  · rename_i err out rest heq
    rw [heq] at h
    dsimp only at h
    rw [Option.some.inj h]
    rfl
  · rename_i out rest heq
    rw [heq] at h
    cases h

theorem base64_decode_of_tail_fails (dst_size : Int) (src : List Nat) (details : String)
    (pads quadruplets : Nat)
    (h0 : src.length ≠ 0) (h4 : src.length % 4 = 0)
    (hp : (if byte_at src (src.length - 1) = 61 then 1 else 0)
      + (if byte_at src (src.length - 2) = 61 then 1 else 0) = pads)
    (hq : (if pads ≠ 0 then src.length / 4 - 1 else src.length / 4) = quadruplets)
    (hloop : (base64_decode.loop quadruplets src []).1 = none)
    (h : (base64_decode.tail pads (base64_decode.loop quadruplets src []).2.2).1
      = some (error_t.failure details)) :
    (base64_decode dst_size src).1.is_error = true := by
  subst hq
  subst hp
  unfold base64_decode
  dsimp only
  rw [if_neg h0, if_neg (by omega)]
  split
  · rename_i err out rest heq
    rw [heq] at hloop
    cases hloop
  · rename_i out rest heq
    rw [heq] at h
    dsimp only at h
    split
    · rename_i err written heq2
      rw [heq2] at h
      dsimp only at h
      rw [Option.some.inj h]
      rfl
    · rename_i written heq2
      rw [heq2] at h
      cases h

theorem base64_decode.loop_error (k : Nat) :
    ∀ (input out : List Nat) (err : error_t), (base64_decode.loop k input out).1 = some err →
      ∃ details, err = error_t.failure details := by
  induction k with
  | zero => intro input out err h; simp [base64_decode.loop] at h
  | succ k ih =>
    intro input out err h
    simp only [base64_decode.loop] at h
    split at h
    · exact ⟨_, (Option.some.inj h).symm⟩
    · split at h
      · exact ⟨_, (Option.some.inj h).symm⟩
      · exact ih _ _ err h

/-- C24: `base64_decode` rejects every malformed input. It returns a failure when
`src_size` is nonzero and not a multiple of 4, and when any byte other than one
or two trailing `=` padding characters is not one of the 64 characters of the
base64 alphabet. -/
theorem base64_decode_rejects_malformed (dst_size : Int) (src : List Nat)
    (hbytes : ∀ b ∈ src, b < 256)
    (hbad : (src.length ≠ 0 ∧ src.length % 4 ≠ 0) ∨
      ∃ i, i < src.length ∧ base64_alphabet (byte_at src i) = false ∧ ¬ trailing_pad src i) :
    (base64_decode dst_size src).1.is_error = true := by
  have hfirst : src.length ≠ 0 → src.length % 4 ≠ 0 →
      (base64_decode dst_size src).1.is_error = true := by
    intro h0 h4
    unfold base64_decode
    dsimp only
    rw [if_neg h0, if_pos h4]
    rfl
  rcases hbad with ⟨h0, h4⟩ | ⟨i, hi, halpha, hpad⟩
  · exact hfirst h0 h4
  · have h0 : src.length ≠ 0 := by omega
    by_cases h4 : src.length % 4 = 0
    swap
    · exact hfirst h0 h4
    have hmem : byte_at src i ∈ src := by
      unfold byte_at
      rw [List.getD_eq_getElem?_getD, List.getElem?_eq_getElem hi]
      exact List.getElem_mem _
    have hill := base64_decode.illegal_of_not_alphabet _ (hbytes _ hmem) halpha
    -- the number of pads and of loop passes, by the last two characters
    obtain ⟨pads, quadruplets, hp, hq, hcases⟩ : ∃ pads quadruplets : Nat,
        (if byte_at src (src.length - 1) = 61 then 1 else 0)
          + (if byte_at src (src.length - 2) = 61 then 1 else 0) = pads ∧
        (if pads ≠ 0 then src.length / 4 - 1 else src.length / 4) = quadruplets ∧
        ((pads = 0 ∧ quadruplets = src.length / 4) ∨
          (pads = 1 ∧ quadruplets = src.length / 4 - 1 ∧ byte_at src (src.length - 1) = 61 ∧
            byte_at src (src.length - 2) ≠ 61) ∨
          (pads = 1 ∧ quadruplets = src.length / 4 - 1 ∧ byte_at src (src.length - 2) = 61) ∨
          (pads = 2 ∧ quadruplets = src.length / 4 - 1 ∧ byte_at src (src.length - 1) = 61 ∧
            byte_at src (src.length - 2) = 61)) := by
      refine ⟨_, _, rfl, rfl, ?_⟩
      by_cases hlast : byte_at src (src.length - 1) = 61 <;>
        by_cases hprev : byte_at src (src.length - 2) = 61 <;>
        simp [hlast, hprev]
    cases hloop : (base64_decode.loop quadruplets src []).1 with
    | some err =>
      obtain ⟨details, rfl⟩ := base64_decode.loop_error _ _ _ _ hloop
      exact base64_decode_of_loop_fails dst_size src details pads quadruplets h0 h4 hp hq hloop
    | none =>
      have hrest := base64_decode.loop_rest _ _ _ hloop
      have hge : 4 * quadruplets ≤ i := by
        by_contra hlt
        obtain ⟨details, hf⟩ := base64_decode.loop_fails quadruplets src [] i (by omega) hill
        rw [hloop] at hf
        cases hf
      have hbyte : ∀ j, 4 * quadruplets + j = i →
          byte_at (List.drop (4 * quadruplets) src) j = byte_at src i := by
        intro j hj
        rw [byte_at_drop, hj]
      rcases hcases with ⟨_, hq0⟩ | ⟨hp1, hq1, hlast, _⟩ | ⟨hp1, hq1, hprev⟩ |
        ⟨hp2, hq2, hlast, hprev⟩
      · -- no pad: the loop handles every character
        omega
      · -- one pad, the last character
        by_cases hil : i = src.length - 1
        · exfalso
          apply hpad
          refine ⟨by omega, ?_⟩
          intro j hij hj
          have : j = src.length - 1 := by omega
          rw [this]
          exact hlast
        · obtain ⟨details, hf⟩ := base64_decode.tail_fails pads
            (List.drop (4 * quadruplets) src) (i - 4 * quadruplets)
            (Or.inl hp1) (by omega) (by rw [hbyte _ (by omega)]; exact hill)
          refine base64_decode_of_tail_fails dst_size src details pads quadruplets h0 h4 hp hq
            hloop ?_
          rw [hrest]
          exact hf
      · -- the character before the last is a pad
        have hb2 : byte_at (List.drop (4 * quadruplets) src) 2 = 61 := by
          rw [byte_at_drop, ← hprev]
          congr 1
          omega
        obtain ⟨details, hf⟩ := base64_decode.tail_fails pads
          (List.drop (4 * quadruplets) src) 2
          (Or.inl hp1) (by omega) (by rw [hb2]; exact base64_decode.illegal_pad)
        refine base64_decode_of_tail_fails dst_size src details pads quadruplets h0 h4 hp hq
          hloop ?_
        rw [hrest]
        exact hf
      · -- two pads
        by_cases hil : src.length - 2 ≤ i
        · exfalso
          apply hpad
          refine ⟨by omega, ?_⟩
          intro j hij hj
          have : j = src.length - 1 ∨ j = src.length - 2 := by omega
          rcases this with rfl | rfl
          · exact hlast
          · exact hprev
        · obtain ⟨details, hf⟩ := base64_decode.tail_fails pads
            (List.drop (4 * quadruplets) src) (i - 4 * quadruplets)
            (Or.inr hp2) (by omega) (by rw [hbyte _ (by omega)]; exact hill)
          refine base64_decode_of_tail_fails dst_size src details pads quadruplets h0 h4 hp hq
            hloop ?_
          rw [hrest]
          exact hf

/-- C24 on worked inputs: `Zm9v=mE=` has a `=` that is no trailing padding, and
five characters are no multiple of four. -/
theorem base64_decode_rejects_malformed_witness :
    (3 < ([90, 109, 57, 118, 61, 109, 69, 61] : List Nat).length ∧
      base64_alphabet (byte_at [90, 109, 57, 118, 61, 109, 69, 61] 4) = false) ∧
    (base64_decode 16 [90, 109, 57, 118, 61, 109, 69, 61]).1.is_error = true ∧
    (base64_decode 16 [90, 109, 57, 118, 89]).1.is_error = true :=
  ⟨⟨by decide, by decide⟩,
    base64_decode_rejects_malformed 16 [90, 109, 57, 118, 61, 109, 69, 61] (by decide)
      (Or.inr ⟨4, by decide, by decide, fun h => absurd h.1 (by decide)⟩),
    base64_decode_rejects_malformed 16 [90, 109, 57, 118, 89] (by decide)
      (Or.inl ⟨by decide, by decide⟩)⟩

/-! ## Arrays -/

theorem index_eq_iff (W i j idx : Nat) (hi : i < W) :
    j * W + i = idx ↔ idx % W = i ∧ idx / W = j := by
  constructor
  · rintro rfl
    constructor
    · rw [Nat.add_comm, Nat.add_mul_mod_self_right, Nat.mod_eq_of_lt hi]
    · rw [Nat.add_comm, Nat.add_mul_div_right _ _ (by omega), Nat.div_eq_of_lt hi, Nat.zero_add]
  · rintro ⟨rfl, rfl⟩
    rw [Nat.mul_comm]
    exact Nat.div_add_mod idx W

theorem set_column {α : Type} (W : Nat) (mk : Nat → Nat → α) (i : Nat) (hi : i < W) :
    ∀ (H : Nat) (nodes : List α),
      ((List.range H).foldl (fun nodes j => nodes.set (j * W + i) (mk i j)) nodes).length
          = nodes.length ∧
        ∀ idx, ((List.range H).foldl (fun nodes j => nodes.set (j * W + i) (mk i j)) nodes)[idx]?
          = if idx % W = i ∧ idx / W < H ∧ idx < nodes.length then some (mk i (idx / W))
            else nodes[idx]? := by
  intro H
  induction H with
  | zero => intro nodes; simp
  | succ H ih =>
    intro nodes
    obtain ⟨hlen, hget⟩ := ih nodes
    rw [List.range_succ, List.foldl_append]
    refine ⟨by simp [hlen], fun idx => ?_⟩
    simp only [List.foldl_cons, List.foldl_nil, List.getElem?_set, hlen, hget]
    by_cases h : H * W + i = idx
    · have h2 := (index_eq_iff W i H idx hi).1 h
      simp only [h, if_true, h2.1, h2.2, true_and]
      by_cases hl : idx < nodes.length
      · simp [hl]
      · have : nodes[idx]? = none := List.getElem?_eq_none (by omega)
        simp [hl, this]
    · have h2 : ¬ (idx % W = i ∧ idx / W = H) := fun hc => h ((index_eq_iff W i H idx hi).2 hc)
      simp only [h, if_false]
      by_cases h3 : idx % W = i
      · have h4 : idx / W ≠ H := fun hc => h2 ⟨h3, hc⟩
        have h5 : idx / W < H + 1 ↔ idx / W < H := by omega
        simp only [h3, true_and, h5]
      · simp only [h3, false_and, if_false]

theorem set_columns {α : Type} (W H : Nat) (mk : Nat → Nat → α) :
    ∀ (V : Nat), V ≤ W → ∀ (nodes : List α),
      ((List.range V).foldl
          (fun nodes i =>
            (List.range H).foldl (fun nodes j => nodes.set (j * W + i) (mk i j)) nodes)
          nodes).length = nodes.length ∧
        ∀ idx, ((List.range V).foldl
          (fun nodes i =>
            (List.range H).foldl (fun nodes j => nodes.set (j * W + i) (mk i j)) nodes)
          nodes)[idx]?
          = if idx % W < V ∧ idx / W < H ∧ idx < nodes.length then
              some (mk (idx % W) (idx / W))
            else nodes[idx]? := by
  intro V
  induction V with
  | zero => intro _ nodes; simp
  | succ V ih =>
    intro hV nodes
    obtain ⟨hlen, hget⟩ := ih (by omega) nodes
    obtain ⟨hlen2, hget2⟩ := set_column W mk V (by omega) H
      ((List.range V).foldl
          (fun nodes i =>
            (List.range H).foldl (fun nodes j => nodes.set (j * W + i) (mk i j)) nodes)
          nodes)
    rw [List.range_succ, List.foldl_append]
    simp only [List.foldl_cons, List.foldl_nil]
    refine ⟨by rw [hlen2, hlen], fun idx => ?_⟩
    rw [hget2, hget, hlen]
    by_cases h1 : idx % W = V
    · by_cases h2 : idx / W < H ∧ idx < nodes.length
      · have h3 : idx % W < V + 1 := by omega
        simp [h1, h2]
      · have h3 : ¬ (idx % W < V) := by omega
        have h4 : ¬ (idx / W < H ∧ idx < nodes.length) := h2
        simp only [h1, true_and, h4, if_false, lt_irrefl, false_and]
        simp [h2]
    · have h3 : idx % W < V + 1 ↔ idx % W < V := by omega
      simp only [h1, false_and, if_false, h3]

theorem cf_a_star_grid_t.reset_nodes (grid : cf_a_star_grid_t) (hw : 0 ≤ grid.w)
    (hh : 0 ≤ grid.h) (hnodes : grid.nodes.length = (grid.w * grid.h).toNat) :
    grid.reset.nodes.length = grid.nodes.length ∧
      ∀ idx, idx < grid.nodes.length →
        grid.reset.nodes[idx]? =
          some { p := ⟨((idx % grid.w.toNat : Nat) : Int), ((idx / grid.w.toNat : Nat) : Int)⟩,
                 visited := false, f := FLT_MAX, g := 0, h := 0, parent := none } := by
  obtain ⟨W, hW⟩ := Int.eq_ofNat_of_zero_le hw
  obtain ⟨H, hH⟩ := Int.eq_ofNat_of_zero_le hh
  have hlen : grid.nodes.length = W * H := by
    rw [hnodes, hW, hH]; norm_cast
  obtain ⟨h1, h2⟩ := set_columns W H
    (fun i j => ({ p := ⟨(i : Int), (j : Int)⟩, visited := false, f := FLT_MAX, g := 0, h := 0,
                   parent := none } : cf_node_t)) W (le_refl W) grid.nodes
  have hWn : grid.w.toNat = W := by rw [hW]; rfl
  have hHn : grid.h.toNat = H := by rw [hH]; rfl
  refine ⟨?_, fun idx hidx => ?_⟩
  · simp only [cf_a_star_grid_t.reset, hWn, hHn]
    exact h1
  · simp only [cf_a_star_grid_t.reset, hWn, hHn]
    rw [h2 idx]
    have hWpos : 0 < W := by
      rcases Nat.eq_zero_or_pos W with h | h
      · rw [hlen, h] at hidx; simp at hidx
      · exact h
    have h3 : idx % W < W := Nat.mod_lt _ hWpos
    have h4 : idx / W < H := by
      apply Nat.div_lt_of_lt_mul
      rw [← hlen]; exact hidx
    simp [h3, h4, hidx]

theorem a_star.visit_of_g_zero (w : Int) (cells : List Int) (cell_to_cost : List ℚ) (e : cf_iv2)
    (allow_diagonals : ℚ) (q : Nat) (state : List cf_node_t × cf_priority_queue Nat) (n : Nat)
    (hg : ∀ m ∈ state.1, m.g = 0) :
    a_star.visit w cells cell_to_cost e allow_diagonals q state n = state := by
  have h0 : (state.1.getD n cf_node_t.zero).g = 0 := by
    rw [List.getD_eq_getElem?_getD]
    cases h : state.1[n]? with
    | none => rfl
    | some m => exact hg m (List.getElem?_mem h)
  unfold a_star.visit
  simp only [h0, zero_add]
  split
  · rfl
  · split
    · rfl
    · rename_i h1 h2
      simp only [decide_eq_true_eq, not_le] at h2
      rw [if_pos (le_of_lt h2)]

theorem a_star.visit_all_of_g_zero (w : Int) (cells : List Int) (cell_to_cost : List ℚ)
    (e : cf_iv2) (allow_diagonals : ℚ) (q : Nat) (next : List Nat)
    (state : List cf_node_t × cf_priority_queue Nat) (hg : ∀ m ∈ state.1, m.g = 0) :
    next.foldl (a_star.visit w cells cell_to_cost e allow_diagonals q) state = state := by
  induction next with
  | nil => rfl
  | cons n next ih => rw [List.foldl_cons, a_star.visit_of_g_zero _ _ _ _ _ _ _ _ hg, ih]

theorem a_star.loop_of_g_zero (w h : Int) (cells : List Int) (input : a_star_input_t)
    (e : cf_iv2) (allow_diagonals : ℚ) (fuel : Nat) (nodes : List cf_node_t) (q : Nat) (c : ℚ)
    (output : a_star_output_t) (hg : ∀ m ∈ nodes, m.g = 0)
    (hq : ¬ ((nodes.getD q cf_node_t.zero).p.x = e.x ∧ (nodes.getD q cf_node_t.zero).p.y = e.y)) :
    a_star.loop w h cells input e allow_diagonals (fuel + 1) nodes { entries := [(q, c)] } output
      = some (false, output) := by
  rw [a_star.loop]
  simp only [cf_priority_queue.pop_min, cf_priority_queue.take_min, if_neg hq]
  rw [a_star.visit_all_of_g_zero _ _ _ _ _ _ _ _ hg]
  cases fuel with
  | zero => simp [a_star.loop, cf_priority_queue.count]
  | succ fuel => simp [a_star.loop, cf_priority_queue.pop_min, cf_priority_queue.take_min]

/-- Whatever the cells and their costs, `a_star` on a grid with its `w * h` nodes
returns `false` with an empty output as soon as the start cell, which is in
bounds, differs from the end cell: the cost `g` of a successor is computed from
the successor's own `g`, which `reset` has set to 0, so `n->g <= g` holds for
every traversable successor and none is ever put on the open list. -/
theorem a_star_of_start_ne_end (grid : cf_a_star_grid_t) (input : a_star_input_t) (fuel : Nat)
    (hw : 0 ≤ grid.w) (hh : 0 ≤ grid.h) (hnodes : grid.nodes.length = (grid.w * grid.h).toNat)
    (hsx : 0 ≤ input.start_x ∧ input.start_x < grid.w)
    (hsy : 0 ≤ input.start_y ∧ input.start_y < grid.h)
    (hne : ¬ (input.start_x = input.end_x ∧ input.start_y = input.end_y)) :
    a_star grid input (fuel + 1) = some (false, {}) := by
  obtain ⟨hlen, hget⟩ := cf_a_star_grid_t.reset_nodes grid hw hh hnodes
  obtain ⟨W, hW⟩ := Int.eq_ofNat_of_zero_le hw
  obtain ⟨H, hH⟩ := Int.eq_ofNat_of_zero_le hh
  obtain ⟨a, ha⟩ := Int.eq_ofNat_of_zero_le hsx.1
  obtain ⟨b, hb⟩ := Int.eq_ofNat_of_zero_le hsy.1
  have haW : a < W := by have := hsx.2; rw [ha, hW] at this; exact_mod_cast this
  have hbH : b < H := by have := hsy.2; rw [hb, hH] at this; exact_mod_cast this
  have hrw : grid.reset.w = grid.w := rfl
  have hindex : (input.start_y * grid.reset.w + input.start_x).toNat = b * W + a := by
    rw [hrw, ha, hb, hW]; norm_cast
  have hlenWH : grid.nodes.length = W * H := by rw [hnodes, hW, hH]; norm_cast
  have hidx : b * W + a < grid.nodes.length := by
    rw [hlenWH]
    calc b * W + a < b * W + W := by omega
      _ = W * (b + 1) := by ring
      _ ≤ W * H := Nat.mul_le_mul_left _ hbH
  have hgz : ∀ m ∈ grid.reset.nodes, m.g = 0 := by
    intro m hm
    obtain ⟨idx, hlt, rfl⟩ := List.getElem_of_mem hm
    have := hget idx (by rw [← hlen]; exact hlt)
    rw [List.getElem?_eq_getElem hlt] at this
    rw [Option.some.inj this]
  have hstart := hget (b * W + a) hidx
  have hWn : grid.w.toNat = W := by rw [hW]; rfl
  have hmod := (index_eq_iff W a b (b * W + a) haW).1 rfl
  rw [hWn, hmod.1, hmod.2] at hstart
  unfold a_star
  simp only [if_neg hne, hindex]
  have hopen : grid.reset.open_list = { entries := [] } := rfl
  rw [hopen]
  simp only [cf_priority_queue.push_min, List.nil_append]
  apply a_star.loop_of_g_zero
  · intro m hm
    rcases List.mem_or_eq_of_mem_set hm with h | h
    · exact hgz m h
    · rw [h]
  · rw [List.getD_eq_getElem?_getD, List.getElem?_set_self (by rw [hlen]; exact hidx)]
    simp only [Option.getD_some, List.getD_eq_getElem?_getD, hstart]
    rw [← ha, ← hb]
    exact hne

/-- C22, on a worked input: on the grid of two cells side by side, both of cost
1, the start cell (0, 0) and the end cell (1, 0) are in bounds and distinct, the
end cell is the right-hand neighbour of the start cell and has a positive cost,
and `a_star` returns `false` with an empty output. -/
theorem a_star_misses_adjacent_cell :
    (0 ≤ sample_a_star_input.start_x ∧ sample_a_star_input.start_x < sample_grid.w) ∧
      (0 ≤ sample_a_star_input.start_y ∧ sample_a_star_input.start_y < sample_grid.h) ∧
      (0 ≤ sample_a_star_input.end_x ∧ sample_a_star_input.end_x < sample_grid.w) ∧
      (0 ≤ sample_a_star_input.end_y ∧ sample_a_star_input.end_y < sample_grid.h) ∧
      sample_a_star_input.end_x = sample_a_star_input.start_x + 1 ∧
      sample_a_star_input.end_y = sample_a_star_input.start_y ∧
      0 < sample_a_star_input.cell_to_cost.getD
        (sample_grid.cells.getD
          (sample_a_star_input.end_y * sample_grid.w + sample_a_star_input.end_x).toNat 0).toNat 0 ∧
      a_star sample_grid sample_a_star_input 10 = some (false, {}) :=
  ⟨by decide, by decide, by decide, by decide, by decide, by decide,
    by simp [sample_a_star_input, sample_grid, cf_a_star_make_grid],
    a_star_of_start_ne_end sample_grid sample_a_star_input 9 (by decide) (by decide) (by decide)
      (by decide) (by decide) (by decide)⟩

/-- C29, on a worked input: on a started server with no client, `s_client_make`
with a failing `packet_queue_init` returns `UINT32_MAX`, yet `client_count` is 1
afterwards and slot 0 holds the caller's endpoint and is marked connected. -/
theorem s_client_make_queue_failure_mutates :
    (started none).client_count = 0 ∧
      (started none).client_is_connected 0 = 0 ∧
      (s_client_make (started none) (sample_call 0).endpoint (sample_call 0).session_key 0 3
        (-1)).1 = UINT32_MAX ∧
      (s_client_make (started none) (sample_call 0).endpoint (sample_call 0).session_key 0 3
        (-1)).2.client_count = 1 ∧
      (s_client_make (started none) (sample_call 0).endpoint (sample_call 0).session_key 0 3
        (-1)).2.client_is_connected 0 = 1 ∧
      (s_client_make (started none) (sample_call 0).endpoint (sample_call 0).session_key 0 3
        (-1)).2.client_endpoint 0 = (sample_call 0).endpoint ∧
      client_slot (s_client_make (started none) (sample_call 0).endpoint
        (sample_call 0).session_key 0 3 (-1)).2 0 ≠ client_slot (started none) 0 := by
  decide


/-! ## Base64: the round trip -/

theorem rfc4648_char_ne_pad (v : Nat) : rfc4648_char v ≠ 61 := by
  unfold rfc4648_char
  split
  · omega
  · split
    · omega
    · split
      · omega
      · split <;> omega

theorem base64_decode.value_rfc4648_char :
    ∀ v, v < 64 → v ≠ 51 →
      base64_decode.index (rfc4648_char v) ≤ 78 ∧
        base64_decode.value (base64_decode.index (rfc4648_char v)) = v := by
  decide

theorem mask8_shift (n k : Nat) : (n &&& (255 <<< k)) >>> k = n / 2 ^ k % 256 := by
  rw [and_shiftLeft_shiftRight, Nat.shiftRight_eq_div_pow]
  exact Nat.and_pow_two_sub_one_eq_mod _ 8

theorem or_sextets4 (a b c d : Nat) (ha : a < 64) (hb : b < 64) (hc : c < 64) (hd : d < 64) :
    ((a <<< 26) % 2 ^ 32 ||| (b <<< 20) % 2 ^ 32 ||| (c <<< 14) % 2 ^ 32
      ||| (d <<< 8) % 2 ^ 32) % 2 ^ 32
      = a * 67108864 + b * 1048576 + c * 16384 + d * 256 := by
  have ea : (a <<< 26) % 2 ^ 32 = 2 ^ 26 * a := by
    rw [Nat.shiftLeft_eq, Nat.mod_eq_of_lt (by omega)]
    omega
  have eb : (b <<< 20) % 2 ^ 32 = 2 ^ 20 * b := by
    rw [Nat.shiftLeft_eq, Nat.mod_eq_of_lt (by omega)]
    omega
  have ec : (c <<< 14) % 2 ^ 32 = 2 ^ 14 * c := by
    rw [Nat.shiftLeft_eq, Nat.mod_eq_of_lt (by omega)]
    omega
  have ed : (d <<< 8) % 2 ^ 32 = 2 ^ 8 * d := by
    rw [Nat.shiftLeft_eq, Nat.mod_eq_of_lt (by omega)]
    omega
  have s1 : 2 ^ 26 * a ||| 2 ^ 20 * b = 2 ^ 20 * (64 * a + b) := by
    rw [← Nat.mul_add_lt_is_or (by omega : 2 ^ 20 * b < 2 ^ 26) a]
    omega
  have s2 : 2 ^ 20 * (64 * a + b) ||| 2 ^ 14 * c = 2 ^ 14 * (64 * (64 * a + b) + c) := by
    rw [← Nat.mul_add_lt_is_or (by omega : 2 ^ 14 * c < 2 ^ 20) (64 * a + b)]
    omega
  have s3 : 2 ^ 14 * (64 * (64 * a + b) + c) ||| 2 ^ 8 * d
      = 2 ^ 8 * (64 * (64 * (64 * a + b) + c) + d) := by
    rw [← Nat.mul_add_lt_is_or (by omega : 2 ^ 8 * d < 2 ^ 14) (64 * (64 * a + b) + c)]
    omega
  rw [ea, eb, ec, ed, s1, s2, s3, Nat.mod_eq_of_lt (by omega)]
  omega

theorem or_sextets3 (a b c : Nat) (ha : a < 64) (hb : b < 64) (hc : c < 64) :
    ((a <<< 26) % 2 ^ 32 ||| (b <<< 20) % 2 ^ 32 ||| (c <<< 14) % 2 ^ 32) % 2 ^ 32
      = a * 67108864 + b * 1048576 + c * 16384 := by
  have ea : (a <<< 26) % 2 ^ 32 = 2 ^ 26 * a := by
    rw [Nat.shiftLeft_eq, Nat.mod_eq_of_lt (by omega)]
    omega
  have eb : (b <<< 20) % 2 ^ 32 = 2 ^ 20 * b := by
    rw [Nat.shiftLeft_eq, Nat.mod_eq_of_lt (by omega)]
    omega
  have ec : (c <<< 14) % 2 ^ 32 = 2 ^ 14 * c := by
    rw [Nat.shiftLeft_eq, Nat.mod_eq_of_lt (by omega)]
    omega
  have s1 : 2 ^ 26 * a ||| 2 ^ 20 * b = 2 ^ 20 * (64 * a + b) := by
    rw [← Nat.mul_add_lt_is_or (by omega : 2 ^ 20 * b < 2 ^ 26) a]
    omega
  have s2 : 2 ^ 20 * (64 * a + b) ||| 2 ^ 14 * c = 2 ^ 14 * (64 * (64 * a + b) + c) := by
    rw [← Nat.mul_add_lt_is_or (by omega : 2 ^ 14 * c < 2 ^ 20) (64 * a + b)]
    omega
  rw [ea, eb, ec, s1, s2, Nat.mod_eq_of_lt (by omega)]
  omega

theorem or_sextets2 (a b : Nat) (ha : a < 64) (hb : b < 64) :
    ((a <<< 26) % 2 ^ 32 ||| (b <<< 20) % 2 ^ 32) % 2 ^ 32 = a * 67108864 + b * 1048576 := by
  have ea : (a <<< 26) % 2 ^ 32 = 2 ^ 26 * a := by
    rw [Nat.shiftLeft_eq, Nat.mod_eq_of_lt (by omega)]
    omega
  have eb : (b <<< 20) % 2 ^ 32 = 2 ^ 20 * b := by
    rw [Nat.shiftLeft_eq, Nat.mod_eq_of_lt (by omega)]
    omega
  have s1 : 2 ^ 26 * a ||| 2 ^ 20 * b = 2 ^ 20 * (64 * a + b) := by
    rw [← Nat.mul_add_lt_is_or (by omega : 2 ^ 20 * b < 2 ^ 26) a]
    omega
  rw [ea, eb, s1, Nat.mod_eq_of_lt (by omega)]
  omega

theorem base64_decode.loop_decodes (b0 b1 b2 : Nat) (rest out : List Nat) (k : Nat)
    (h0 : b0 < 256) (h1 : b1 < 256) (h2 : b2 < 256)
    (za : b0 / 4 ≠ 51) (zb : b0 % 4 * 16 + b1 / 16 ≠ 51) (zc : b1 % 16 * 4 + b2 / 64 ≠ 51)
    (zd : b2 % 64 ≠ 51) :
    base64_decode.loop (k + 1)
        (rfc4648_char (b0 / 4) :: rfc4648_char (b0 % 4 * 16 + b1 / 16)
          :: rfc4648_char (b1 % 16 * 4 + b2 / 64) :: rfc4648_char (b2 % 64) :: rest) out
      = base64_decode.loop k rest (out ++ [b0, b1, b2]) := by
  obtain ⟨ia, va⟩ := base64_decode.value_rfc4648_char (b0 / 4) (by omega) za
  obtain ⟨ib, vb⟩ := base64_decode.value_rfc4648_char (b0 % 4 * 16 + b1 / 16) (by omega) zb
  obtain ⟨ic, vc⟩ := base64_decode.value_rfc4648_char (b1 % 16 * 4 + b2 / 64) (by omega) zc
  obtain ⟨id, vd⟩ := base64_decode.value_rfc4648_char (b2 % 64) (by omega) zd
  have hbits := or_sextets4 (b0 / 4) (b0 % 4 * 16 + b1 / 16) (b1 % 16 * 4 + b2 / 64) (b2 % 64)
    (by omega) (by omega) (by omega) (by omega)
  have m0 : (((b0 / 4) * 67108864 + (b0 % 4 * 16 + b1 / 16) * 1048576
      + (b1 % 16 * 4 + b2 / 64) * 16384 + (b2 % 64) * 256 &&& 0xFF000000) >>> 24) % 256 = b0 := by
    rw [show (0xFF000000 : Nat) = 255 <<< 24 from by decide, mask8_shift]
    omega
  have m1 : (((b0 / 4) * 67108864 + (b0 % 4 * 16 + b1 / 16) * 1048576
      + (b1 % 16 * 4 + b2 / 64) * 16384 + (b2 % 64) * 256 &&& 0x00FF0000) >>> 16) % 256 = b1 := by
    rw [show (0x00FF0000 : Nat) = 255 <<< 16 from by decide, mask8_shift]
    omega
  have m2 : (((b0 / 4) * 67108864 + (b0 % 4 * 16 + b1 / 16) * 1048576
      + (b1 % 16 * 4 + b2 / 64) * 16384 + (b2 % 64) * 256 &&& 0x0000FF00) >>> 8) % 256 = b2 := by
    rw [show (0x0000FF00 : Nat) = 255 <<< 8 from by decide, mask8_shift]
    omega
  simp only [base64_decode.loop, byte_at, List.getD_cons_zero, List.getD_cons_succ,
    List.drop_succ_cons, List.drop_zero]
  rw [if_neg (by omega), va, vb, vc, vd, if_neg (by unfold base64_decode.none_value; omega),
    hbits, m0, m1, m2]

theorem base64_decode.tail_decodes_two (b0 b1 : Nat) (rest : List Nat) (h0 : b0 < 256) (h1 : b1 < 256)
    (za : b0 / 4 ≠ 51) (zb : b0 % 4 * 16 + b1 / 16 ≠ 51) (zc : b1 % 16 * 4 ≠ 51) :
    base64_decode.tail 1
        (rfc4648_char (b0 / 4) :: rfc4648_char (b0 % 4 * 16 + b1 / 16)
          :: rfc4648_char (b1 % 16 * 4) :: rest)
      = (none, [b0, b1]) := by
  obtain ⟨ia, va⟩ := base64_decode.value_rfc4648_char (b0 / 4) (by omega) za
  obtain ⟨ib, vb⟩ := base64_decode.value_rfc4648_char (b0 % 4 * 16 + b1 / 16) (by omega) zb
  obtain ⟨ic, vc⟩ := base64_decode.value_rfc4648_char (b1 % 16 * 4) (by omega) zc
  have hbits := or_sextets3 (b0 / 4) (b0 % 4 * 16 + b1 / 16) (b1 % 16 * 4)
    (by omega) (by omega) (by omega)
  have m0 : (((b0 / 4) * 67108864 + (b0 % 4 * 16 + b1 / 16) * 1048576
      + (b1 % 16 * 4) * 16384 &&& 0xFF000000) >>> 24) % 256 = b0 := by
    rw [show (0xFF000000 : Nat) = 255 <<< 24 from by decide, mask8_shift]
    omega
  have m1 : (((b0 / 4) * 67108864 + (b0 % 4 * 16 + b1 / 16) * 1048576
      + (b1 % 16 * 4) * 16384 &&& 0x00FF0000) >>> 16) % 256 = b1 := by
    rw [show (0x00FF0000 : Nat) = 255 <<< 16 from by decide, mask8_shift]
    omega
  simp only [base64_decode.tail, if_true, byte_at, List.getD_cons_zero, List.getD_cons_succ]
  rw [if_neg (by omega), va, vb, vc, if_neg (by unfold base64_decode.none_value; omega),
    hbits, m0, m1]

theorem base64_decode.tail_decodes_one (b0 : Nat) (rest : List Nat) (h0 : b0 < 256)
    (za : b0 / 4 ≠ 51) (zb : b0 % 4 * 16 ≠ 51) :
    base64_decode.tail 2 (rfc4648_char (b0 / 4) :: rfc4648_char (b0 % 4 * 16) :: rest)
      = (none, [b0]) := by
  obtain ⟨ia, va⟩ := base64_decode.value_rfc4648_char (b0 / 4) (by omega) za
  obtain ⟨ib, vb⟩ := base64_decode.value_rfc4648_char (b0 % 4 * 16) (by omega) zb
  have hbits := or_sextets2 (b0 / 4) (b0 % 4 * 16) (by omega) (by omega)
  have m0 : (((b0 / 4) * 67108864 + (b0 % 4 * 16) * 1048576 &&& 0xFF000000) >>> 24) % 256
      = b0 := by
    rw [show (0xFF000000 : Nat) = 255 <<< 24 from by decide, mask8_shift]
    omega
  simp only [base64_decode.tail, if_neg (by decide : ¬ (2 = 1)), if_true, byte_at,
    List.getD_cons_zero, List.getD_cons_succ]
  rw [if_neg (by omega), va, vb, if_neg (by unfold base64_decode.none_value; omega), hbits, m0]

theorem base64_decode_of_parts (dst_size : Int) (src : List Nat) (pads quadruplets : Nat)
    (out input written : List Nat)
    (h0 : src.length ≠ 0) (h4 : src.length % 4 = 0)
    (hp : (if byte_at src (src.length - 1) = 61 then 1 else 0)
      + (if byte_at src (src.length - 2) = 61 then 1 else 0) = pads)
    (hq : (if pads ≠ 0 then src.length / 4 - 1 else src.length / 4) = quadruplets)
    (hloop : base64_decode.loop quadruplets src [] = (none, out, input))
    (htail : base64_decode.tail pads input = (none, written)) :
    base64_decode dst_size src = (error_t.success, out ++ written) := by
  subst hq
  subst hp
  unfold base64_decode
  dsimp only
  rw [if_neg h0, if_neg (by omega), hloop]
  dsimp only
  rw [htail]

theorem base64_decode.loop_tail_rfc4648 (src : List Nat) :
    ∀ out : List Nat, (∀ b ∈ src, b < 256) → 122 ∉ rfc4648_encode src →
      ∃ out1 input written,
        base64_decode.loop (src.length / 3) (rfc4648_encode src) out = (none, out1, input) ∧
        base64_decode.tail (if src.length % 3 ≠ 0 then 3 - src.length % 3 else 0) input
          = (none, written) ∧
        out1 ++ written = out ++ src := by
  induction src using rfc4648_encode.induct with
  | case1 b0 b1 b2 rest ih =>
    intro out hb hz
    have h0 : b0 < 256 := hb b0 (by simp)
    have h1 : b1 < 256 := hb b1 (by simp)
    have h2 : b2 < 256 := hb b2 (by simp)
    have hrest : ∀ b ∈ rest, b < 256 := fun b hm => hb b (by simp [hm])
    simp only [rfc4648_encode, List.mem_cons, not_or] at hz
    obtain ⟨za, zb, zc, zd, hzrest⟩ := hz
    have hlen : (b0 :: b1 :: b2 :: rest).length = rest.length + 3 := by simp
    obtain ⟨out1, input, written, e1, e2, e3⟩ := ih (out ++ [b0, b1, b2]) hrest hzrest
    refine ⟨out1, input, written, ?_, ?_, ?_⟩
    · rw [hlen, Nat.add_div_right _ (by decide : 0 < 3), rfc4648_encode,
        base64_decode.loop_decodes b0 b1 b2 _ out _ h0 h1 h2
          (fun h => za (by rw [h]; rfl)) (fun h => zb (by rw [h]; rfl))
          (fun h => zc (by rw [h]; rfl)) (fun h => zd (by rw [h]; rfl))]
      exact e1
    · rw [hlen, Nat.add_mod_right]
      exact e2
    · rw [e3]
      simp
  | case2 b0 b1 =>
    intro out hb hz
    have h0 : b0 < 256 := hb b0 (by simp)
    have h1 : b1 < 256 := hb b1 (by simp)
    simp only [rfc4648_encode, List.mem_cons, not_or] at hz
    obtain ⟨za, zb, zc, _⟩ := hz
    refine ⟨out, rfc4648_encode [b0, b1], [b0, b1], by simp [base64_decode.loop], ?_, rfl⟩
    simp only [List.length_cons, List.length_nil]
    rw [show (if (0 + 1 + 1) % 3 ≠ 0 then 3 - (0 + 1 + 1) % 3 else 0) = 1 from by decide,
      rfc4648_encode]
    exact base64_decode.tail_decodes_two b0 b1 _ h0 h1
      (fun h => za (by rw [h]; rfl)) (fun h => zb (by rw [h]; rfl))
      (fun h => zc (by rw [h]; rfl))
  | case3 b0 =>
    intro out hb hz
    have h0 : b0 < 256 := hb b0 (by simp)
    simp only [rfc4648_encode, List.mem_cons, not_or] at hz
    obtain ⟨za, zb, _⟩ := hz
    refine ⟨out, rfc4648_encode [b0], [b0], by simp [base64_decode.loop], ?_, rfl⟩
    simp only [List.length_cons, List.length_nil]
    rw [show (if (0 + 1) % 3 ≠ 0 then 3 - (0 + 1) % 3 else 0) = 2 from by decide,
      rfc4648_encode]
    exact base64_decode.tail_decodes_one b0 _ h0
      (fun h => za (by rw [h]; rfl)) (fun h => zb (by rw [h]; rfl))
  | case4 =>
    intro out _ _
    exact ⟨out, rfc4648_encode [], [], by simp [base64_decode.loop], rfl, rfl⟩

theorem byte_at_cons4 (c0 c1 c2 c3 : Nat) (l : List Nat) (k : Nat) (hk : k ≤ l.length) :
    byte_at (c0 :: c1 :: c2 :: c3 :: l) ((c0 :: c1 :: c2 :: c3 :: l).length - k)
      = byte_at l (l.length - k) := by
  have e : (c0 :: c1 :: c2 :: c3 :: l).length - k = (l.length - k) + 4 := by
    simp only [List.length_cons]
    omega
  rw [e]
  simp [byte_at]

theorem rfc4648_encode_pads (src : List Nat) :
    src ≠ [] →
      (if byte_at (rfc4648_encode src) ((rfc4648_encode src).length - 1) = 61 then 1 else 0)
        + (if byte_at (rfc4648_encode src) ((rfc4648_encode src).length - 2) = 61 then 1 else 0)
        = (if src.length % 3 ≠ 0 then 3 - src.length % 3 else 0) := by
  induction src using rfc4648_encode.induct with
  | case1 b0 b1 b2 rest ih =>
    intro _
    have hlen : (b0 :: b1 :: b2 :: rest).length = rest.length + 3 := by simp
    rw [hlen, Nat.add_mod_right]
    by_cases hr : rest = []
    · subst hr
      simp [rfc4648_encode, byte_at, rfc4648_char_ne_pad]
    · have h := ih hr
      have hl : 4 ≤ (rfc4648_encode rest).length := by
        rw [rfc4648_encode_length]
        unfold CUTE_BASE64_ENCODED_SIZE
        have : 0 < rest.length := List.length_pos.mpr hr
        omega
      rw [← h, rfc4648_encode, byte_at_cons4 _ _ _ _ _ 1 (by omega),
        byte_at_cons4 _ _ _ _ _ 2 (by omega)]
  | case2 b0 b1 =>
    intro _
    simp [rfc4648_encode, byte_at, rfc4648_char_ne_pad]
  | case3 b0 =>
    intro _
    simp [rfc4648_encode, byte_at]
  | case4 => intro h; exact absurd rfl h

theorem base64_encode_eq_rfc4648 (dst_size : Int) (src : List Nat)
    (hbytes : ∀ b ∈ src, b < 256)
    (hsize : ((CUTE_BASE64_ENCODED_SIZE src.length : Nat) : Int) ≤ dst_size) :
    base64_encode dst_size src = (error_t.success, rfc4648_encode src) := by
  rw [base64_encode]
  dsimp only
  rw [if_neg (not_lt.mpr (int_of_le _ _ (by omega) hsize))]
  have h := base64_encode.out_eq_rfc4648 src [] hbytes
  rw [List.nil_append] at h
  rw [h]

theorem base64_decode_rfc4648_encode (dst_size : Int) (src : List Nat)
    (hbytes : ∀ b ∈ src, b < 256) (hz : 122 ∉ rfc4648_encode src) :
    base64_decode dst_size (rfc4648_encode src) = (error_t.success, src) := by
  by_cases hnil : src = []
  · subst hnil
    rfl
  · have hpos : 0 < src.length := List.length_pos.mpr hnil
    have hlen := rfc4648_encode_length src
    unfold CUTE_BASE64_ENCODED_SIZE at hlen
    obtain ⟨out1, input, written, e1, e2, e3⟩ :=
      base64_decode.loop_tail_rfc4648 src [] hbytes hz
    rw [List.nil_append] at e3
    have hq : (if (if src.length % 3 ≠ 0 then 3 - src.length % 3 else 0) ≠ 0 then
        (rfc4648_encode src).length / 4 - 1 else (rfc4648_encode src).length / 4)
        = src.length / 3 := by
      rw [hlen]
      split <;> split <;> omega
    have h := base64_decode_of_parts dst_size (rfc4648_encode src) _ (src.length / 3) out1 input
      written (by omega) (by omega) (rfc4648_encode_pads src hnil) hq e1 e2
    rw [e3] at h
    exact h

/-- C33: for every byte sequence src whose base64 encoding does not contain the
character `z` (122), `base64_encode` into a large enough dst succeeds and
`base64_decode` applied to its output returns success and reproduces src
exactly, whatever the length of src is modulo 3. -/
theorem base64_round_trip_without_z (enc_size dec_size : Int) (src : List Nat)
    (hbytes : ∀ b ∈ src, b < 256)
    (hsize : ((CUTE_BASE64_ENCODED_SIZE src.length : Nat) : Int) ≤ enc_size)
    (hz : 122 ∉ (base64_encode enc_size src).2) :
    (base64_encode enc_size src).1 = error_t.success ∧
    base64_decode dec_size (base64_encode enc_size src).2 = (error_t.success, src) := by
  rw [base64_encode_eq_rfc4648 enc_size src hbytes hsize] at hz ⊢
  exact ⟨rfl, base64_decode_rfc4648_encode dec_size src hbytes hz⟩

/-- C33 on the three length classes: `foo` (encoded `Zm9v`), `f` (encoded `Zg==`)
and `fo` (encoded `Zm8=`) are reproduced. -/
theorem base64_round_trip_without_z_witness :
    (122 ∉ (base64_encode 4 [102, 111, 111]).2 ∧
      base64_decode 3 (base64_encode 4 [102, 111, 111]).2
        = (error_t.success, [102, 111, 111])) ∧
    (122 ∉ (base64_encode 4 [102]).2 ∧
      base64_decode 1 (base64_encode 4 [102]).2 = (error_t.success, [102])) ∧
    (122 ∉ (base64_encode 4 [102, 111]).2 ∧
      base64_decode 2 (base64_encode 4 [102, 111]).2 = (error_t.success, [102, 111])) :=
  ⟨⟨by decide,
      (base64_round_trip_without_z 4 3 [102, 111, 111] (by decide) (by decide) (by decide)).2⟩,
    ⟨by decide, (base64_round_trip_without_z 4 1 [102] (by decide) (by decide) (by decide)).2⟩,
    ⟨by decide,
      (base64_round_trip_without_z 4 2 [102, 111] (by decide) (by decide) (by decide)).2⟩⟩

/-! ## The frame of `s_client_make` -/

/-- C34: a successful `s_client_make` that returns index n changes, in the client
table, only slot n and `client_count`: for every slot j other than n the
endpoint, session key, sequence offset, sequence counter, connected flag,
loopback flag and last-packet time are unchanged, as are the other per-slot
members (`client_slot`), and the members of the server outside the client
table keep their values. -/
theorem s_client_make_changes_only_its_slot (server : server_t) (endpoint : endpoint_t)
    (session_key : crypto_key_t) (loopback : Int) (sequence_offset : Nat) (queue_init : Int)
    (n j : Nat)
    (hret : (s_client_make server endpoint session_key loopback sequence_offset queue_init).1 = n)
    (hok : n ≠ UINT32_MAX) (hj : j ≠ n) :
    ((s_client_make server endpoint session_key loopback sequence_offset
        queue_init).2.client_endpoint j = server.client_endpoint j ∧
      (s_client_make server endpoint session_key loopback sequence_offset
        queue_init).2.client_session_key j = server.client_session_key j ∧
      (s_client_make server endpoint session_key loopback sequence_offset
        queue_init).2.client_sequence_offset j = server.client_sequence_offset j ∧
      (s_client_make server endpoint session_key loopback sequence_offset
        queue_init).2.client_sequence j = server.client_sequence j ∧
      (s_client_make server endpoint session_key loopback sequence_offset
        queue_init).2.client_is_connected j = server.client_is_connected j ∧
      (s_client_make server endpoint session_key loopback sequence_offset
        queue_init).2.client_is_loopback j = server.client_is_loopback j ∧
      (s_client_make server endpoint session_key loopback sequence_offset
        queue_init).2.client_last_packet_recieved_time j
          = server.client_last_packet_recieved_time j) ∧
    client_slot (s_client_make server endpoint session_key loopback sequence_offset
      queue_init).2 j = client_slot server j ∧
    (s_client_make server endpoint session_key loopback sequence_offset
      queue_init).2.client_count = server.client_count + 1 ∧
    ((s_client_make server endpoint session_key loopback sequence_offset
        queue_init).2.running = server.running ∧
      (s_client_make server endpoint session_key loopback sequence_offset
        queue_init).2.endpoint = server.endpoint ∧
      (s_client_make server endpoint session_key loopback sequence_offset
        queue_init).2.public_key = server.public_key ∧
      (s_client_make server endpoint session_key loopback sequence_offset
        queue_init).2.secret_key = server.secret_key ∧
      (s_client_make server endpoint session_key loopback sequence_offset
        queue_init).2.config = server.config ∧
      (s_client_make server endpoint session_key loopback sequence_offset
        queue_init).2.socket = server.socket ∧
      (s_client_make server endpoint session_key loopback sequence_offset
        queue_init).2.packets = server.packets) := by
  by_cases hfull : server.client_count = CUTE_SERVER_MAX_CLIENTS
  · rw [s_client_make_of_full _ _ _ _ _ _ hfull] at hret
    exact absurd hret.symm hok
  · rw [s_client_make_of_not_full _ _ _ _ _ _ hfull] at hret ⊢
    dsimp only at hret
    by_cases hq : queue_init ≠ 0
    · rw [if_pos hq] at hret
      exact absurd hret.symm hok
    · rw [if_neg hq] at hret
      have hne : j ≠ server.client_count % 2 ^ 32 := by rw [hret]; exact hj
      simp only [client_slot, Function.update_apply, if_neg hne, and_self]

/-- C34 on the started server: the first client is made in slot 0, and slot 1
is as it was. -/
theorem s_client_make_changes_only_its_slot_witness :
    (s_client_make (started none) (sample_call 0).endpoint (sample_call 0).session_key 0 3 0).1 = 0 ∧
    (0 : Nat) ≠ UINT32_MAX ∧
    client_slot (s_client_make (started none) (sample_call 0).endpoint
      (sample_call 0).session_key 0 3 0).2 1 = client_slot (started none) 1 ∧
    (s_client_make (started none) (sample_call 0).endpoint
      (sample_call 0).session_key 0 3 0).2.client_endpoint 0 = (sample_call 0).endpoint :=
  ⟨by decide, by decide,
    (s_client_make_changes_only_its_slot (started none) (sample_call 0).endpoint
      (sample_call 0).session_key 0 3 0 0 1 (by decide) (by decide) (by decide)).2.1,
    by decide⟩

/-! ## Base64: the size of `dst` on decoding -/

/-- C31, on a worked input: with a `dst_size` of 1, `base64_decode` of the four
characters `Zm9v` returns success and has written the three bytes `foo`,
which is more than `dst_size`. -/
theorem base64_decode_overruns_dst :
    base64_decode 1 [90, 109, 57, 118] = (error_t.success, [102, 111, 111]) ∧
    (1 : Int) < ((base64_decode 1 [90, 109, 57, 118]).2.length : Int) ∧
    (base64_encode 1 [102, 111, 111]).1.is_error = true := by
  decide

/-! ## The intrusive doubly linked list -/

theorem cf_list_init_node_apply (heap : Nat → cf_list_node_t) (node m : Nat) :
    cf_list_init_node heap node m = if m = node then ⟨node, node⟩ else heap m := by
  unfold cf_list_init_node
  by_cases h : m = node <;> simp [Function.update_apply, h]

theorem cf_list_linked_init (heap : Nat → cf_list_node_t) (list n : Nat)
    (h : cf_list_linked (cf_list_init heap list) list n) : n = list := by
  induction h with
  | sentinel => rfl
  | next n _ ih => subst ih; simp [cf_list_init, cf_list_init_node_apply]
  | prev n _ ih => subst ih; simp [cf_list_init, cf_list_init_node_apply]

theorem cf_list_init_consistent (heap : Nat → cf_list_node_t) (list : Nat) :
    cf_list_consistent (cf_list_init heap list) list := by
  intro n hn
  have := cf_list_linked_init heap list n hn
  subst this
  simp [cf_list_node_consistent, cf_list_init, cf_list_init_node_apply]

theorem cf_list_push_front_next (heap : Nat → cf_list_node_t) (list node m : Nat)
    (h1 : node ≠ list) :
    (cf_list_push_front heap list node m).next
      = if m = list then node else if m = node then (heap list).next else (heap m).next := by
  unfold cf_list_push_front
  by_cases a : m = list <;> by_cases b : m = node <;> by_cases c : m = (heap list).next <;>
    simp [Function.update_apply, a, b, c, h1, Ne.symm h1] <;> simp_all

theorem cf_list_push_front_prev (heap : Nat → cf_list_node_t) (list node m : Nat)
    (h1 : node ≠ list) (h2 : node ≠ (heap list).next) :
    (cf_list_push_front heap list node m).prev
      = if m = (heap list).next then node else if m = node then list else (heap m).prev := by
  unfold cf_list_push_front
  by_cases a : m = list <;> by_cases b : m = node <;> by_cases c : m = (heap list).next <;>
    simp [Function.update_apply, a, b, c, h1, Ne.symm h1, h2, Ne.symm h2] <;> simp_all

theorem cf_list_push_back_next (heap : Nat → cf_list_node_t) (list node m : Nat)
    (h1 : node ≠ list) (h2 : node ≠ (heap list).prev) :
    (cf_list_push_back heap list node m).next
      = if m = (heap list).prev then node else if m = node then list else (heap m).next := by
  unfold cf_list_push_back
  by_cases a : m = list <;> by_cases b : m = node <;> by_cases c : m = (heap list).prev <;>
    simp [Function.update_apply, a, b, c, h1, Ne.symm h1, h2, Ne.symm h2] <;> simp_all

theorem cf_list_push_back_prev (heap : Nat → cf_list_node_t) (list node m : Nat)
    (h1 : node ≠ list) :
    (cf_list_push_back heap list node m).prev
      = if m = list then node else if m = node then (heap list).prev else (heap m).prev := by
  unfold cf_list_push_back
  by_cases a : m = list <;> by_cases b : m = node <;> by_cases c : m = (heap list).prev <;>
    simp [Function.update_apply, a, b, c, h1, Ne.symm h1] <;> simp_all

theorem cf_list_remove_reads (heap : Nat → cf_list_node_t) (node : Nat) :
    (Function.update heap (heap node).prev
        { heap (heap node).prev with next := (heap node).next } node).next = (heap node).next ∧
    (Function.update heap (heap node).prev
        { heap (heap node).prev with next := (heap node).next } node).prev = (heap node).prev := by
  rw [Function.update_apply]
  by_cases h : node = (heap node).prev
  · rw [if_pos h]
    refine ⟨rfl, ?_⟩
    show (heap (heap node).prev).prev = (heap node).prev
    conv_lhs => rw [← h]
  · rw [if_neg h]
    exact ⟨rfl, rfl⟩

theorem cf_list_remove_next (heap : Nat → cf_list_node_t) (node m : Nat) :
    (cf_list_remove heap node m).next
      = if m = node then node else if m = (heap node).prev then (heap node).next
        else (heap m).next := by
  unfold cf_list_remove
  rw [cf_list_init_node_apply]
  by_cases a : m = node
  · rw [if_pos a, if_pos a]
  · rw [if_neg a, if_neg a]
    dsimp only
    rw [(cf_list_remove_reads heap node).1, (cf_list_remove_reads heap node).2]
    generalize (heap node).prev = p
    generalize (heap node).next = n
    simp only [Function.update_apply]
    have d2 : (n = p) = (p = n) := propext eq_comm
    by_cases b : m = p <;> by_cases c : m = n <;> by_cases d : p = n <;>
      simp [b, c, d, d2]

theorem cf_list_remove_prev (heap : Nat → cf_list_node_t) (node m : Nat) :
    (cf_list_remove heap node m).prev
      = if m = node then node else if m = (heap node).next then (heap node).prev
        else (heap m).prev := by
  unfold cf_list_remove
  rw [cf_list_init_node_apply]
  by_cases a : m = node
  · rw [if_pos a, if_pos a]
  · rw [if_neg a, if_neg a]
    dsimp only
    rw [(cf_list_remove_reads heap node).1, (cf_list_remove_reads heap node).2]
    generalize (heap node).prev = p
    generalize (heap node).next = n
    simp only [Function.update_apply]
    have d2 : (n = p) = (p = n) := propext eq_comm
    by_cases b : m = p <;> by_cases c : m = n <;> by_cases d : p = n <;>
      simp [b, c, d, d2]

/-- The links after a push, in terms of the `next` and `prev` maps before it:
with `nx` for `next` and `pv` for `prev` this is `cf_list_push_front`, with
the two exchanged it is `cf_list_push_back`. -/
theorem push_links (nx pv : Nat → Nat) (list node m : Nat)
    (hl : pv (nx list) = list ∧ nx (pv list) = list)
    (hnl : node ≠ list) (hnf : node ≠ nx list)
    (hm : m = node ∨ (m ≠ node ∧ pv (nx m) = m ∧ nx (pv m) = m ∧ nx m ≠ node ∧ pv m ≠ node)) :
    (if (if m = list then node else if m = node then nx list else nx m) = nx list then node
      else if (if m = list then node else if m = node then nx list else nx m) = node then list
      else pv (if m = list then node else if m = node then nx list else nx m)) = m ∧
    (if (if m = nx list then node else if m = node then list else pv m) = list then node
      else if (if m = nx list then node else if m = node then list else pv m) = node
        then nx list
      else nx (if m = nx list then node else if m = node then list else pv m)) = m := by
  obtain ⟨hl1, hl2⟩ := hl
  rcases hm with rfl | ⟨h0, h1, h2, h3, h4⟩
  · simp [hnl, hnf]
  · constructor
    · by_cases a : m = list
      · subst a
        simp [hnf]
      · simp only [if_neg a, if_neg h0, if_neg h3]
        by_cases b : nx m = nx list
        · exfalso
          apply a
          rw [← h1, b, hl1]
        · simp only [if_neg b, h1]
    · by_cases a : m = nx list
      · subst a
        simp [hnl]
      · simp only [if_neg a, if_neg h0, if_neg h4]
        by_cases b : pv m = list
        · exfalso
          apply a
          rw [← h2, b]
        · simp only [if_neg b, h2]

/-- One of the two links after `cf_list_remove`, in terms of the `next` and
`prev` maps before it; the other link is the same with the two exchanged. -/
theorem remove_links (nx pv : Nat → Nat) (node m : Nat)
    (hn : pv (nx node) = node) (hm : pv (nx m) = m) :
    (if (if m = node then node else if m = pv node then nx node else nx m) = node then node
      else if (if m = node then node else if m = pv node then nx node else nx m) = nx node
        then pv node
      else pv (if m = node then node else if m = pv node then nx node else nx m)) = m := by
  by_cases a : m = node
  · subst a
    simp
  · simp only [if_neg a]
    by_cases b : m = pv node
    · simp only [if_pos b]
      have hne : nx node ≠ node := by
        intro hc
        rw [hc] at hn
        exact a (b.trans hn)
      simp [hne, b]
    · simp only [if_neg b]
      have h1 : nx m ≠ node := by
        intro hc
        apply b
        rw [← hm, hc]
      have h2 : nx m ≠ nx node := by
        intro hc
        apply a
        rw [← hm, hc, hn]
      simp only [if_neg h1, if_neg h2, hm]

theorem cf_list_linked_push_front (heap : Nat → cf_list_node_t) (list node n : Nat)
    (hnode : ¬ cf_list_linked heap list node)
    (h : cf_list_linked (cf_list_push_front heap list node) list n) :
    n = node ∨ cf_list_linked heap list n := by
  have h1 : node ≠ list := fun hc => hnode (hc ▸ cf_list_linked.sentinel)
  have h2 : node ≠ (heap list).next :=
    fun hc => hnode (hc ▸ cf_list_linked.next list cf_list_linked.sentinel)
  induction h with
  | sentinel => exact Or.inr cf_list_linked.sentinel
  | next n _ ih =>
    rw [cf_list_push_front_next heap list node n h1]
    split
    · exact Or.inl rfl
    · split
      · exact Or.inr (cf_list_linked.next list cf_list_linked.sentinel)
      · rcases ih with ih | ih
        · contradiction
        · exact Or.inr (cf_list_linked.next n ih)
  | prev n _ ih =>
    rw [cf_list_push_front_prev heap list node n h1 h2]
    split
    · exact Or.inl rfl
    · split
      · exact Or.inr cf_list_linked.sentinel
      · rcases ih with ih | ih
        · contradiction
        · exact Or.inr (cf_list_linked.prev n ih)

theorem cf_list_linked_push_back (heap : Nat → cf_list_node_t) (list node n : Nat)
    (hnode : ¬ cf_list_linked heap list node)
    (h : cf_list_linked (cf_list_push_back heap list node) list n) :
    n = node ∨ cf_list_linked heap list n := by
  have h1 : node ≠ list := fun hc => hnode (hc ▸ cf_list_linked.sentinel)
  have h2 : node ≠ (heap list).prev :=
    fun hc => hnode (hc ▸ cf_list_linked.prev list cf_list_linked.sentinel)
  induction h with
  | sentinel => exact Or.inr cf_list_linked.sentinel
  | next n _ ih =>
    rw [cf_list_push_back_next heap list node n h1 h2]
    split
    · exact Or.inl rfl
    · split
      · exact Or.inr cf_list_linked.sentinel
      · rcases ih with ih | ih
        · contradiction
        · exact Or.inr (cf_list_linked.next n ih)
  | prev n _ ih =>
    rw [cf_list_push_back_prev heap list node n h1]
    split
    · exact Or.inl rfl
    · split
      · exact Or.inr (cf_list_linked.prev list cf_list_linked.sentinel)
      · rcases ih with ih | ih
        · contradiction
        · exact Or.inr (cf_list_linked.prev n ih)

theorem cf_list_linked_remove (heap : Nat → cf_list_node_t) (list node n : Nat)
    (hnode : cf_list_linked heap list node)
    (h : cf_list_linked (cf_list_remove heap node) list n) :
    cf_list_linked heap list n := by
  induction h with
  | sentinel => exact cf_list_linked.sentinel
  | next n _ ih =>
    rw [cf_list_remove_next]
    split
    · exact hnode
    · split
      · exact cf_list_linked.next node hnode
      · exact cf_list_linked.next n ih
  | prev n _ ih =>
    rw [cf_list_remove_prev]
    split
    · exact hnode
    · split
      · exact cf_list_linked.prev node hnode
      · exact cf_list_linked.prev n ih

theorem cf_list_push_front_consistent (heap : Nat → cf_list_node_t) (list node : Nat)
    (hinv : cf_list_consistent heap list) (hnode : ¬ cf_list_linked heap list node) :
    cf_list_consistent (cf_list_push_front heap list node) list := by
  have h1 : node ≠ list := fun hc => hnode (hc ▸ cf_list_linked.sentinel)
  have h2 : node ≠ (heap list).next :=
    fun hc => hnode (hc ▸ cf_list_linked.next list cf_list_linked.sentinel)
  intro m hm
  have hm2 : m = node ∨ (m ≠ node ∧ (heap (heap m).next).prev = m ∧ (heap (heap m).prev).next = m
      ∧ (heap m).next ≠ node ∧ (heap m).prev ≠ node) := by
    rcases cf_list_linked_push_front heap list node m hnode hm with h | h
    · exact Or.inl h
    · exact Or.inr ⟨fun hc => hnode (hc ▸ h), (hinv m h).1, (hinv m h).2,
        fun hc => hnode (hc ▸ cf_list_linked.next m h),
        fun hc => hnode (hc ▸ cf_list_linked.prev m h)⟩
  unfold cf_list_node_consistent
  rw [cf_list_push_front_prev heap list node _ h1 h2, cf_list_push_front_next heap list node _ h1,
    cf_list_push_front_next heap list node _ h1, cf_list_push_front_prev heap list node _ h1 h2]
  exact push_links (fun k => (heap k).next) (fun k => (heap k).prev) list node m
    (hinv list cf_list_linked.sentinel) h1 h2 hm2

theorem cf_list_push_back_consistent (heap : Nat → cf_list_node_t) (list node : Nat)
    (hinv : cf_list_consistent heap list) (hnode : ¬ cf_list_linked heap list node) :
    cf_list_consistent (cf_list_push_back heap list node) list := by
  have h1 : node ≠ list := fun hc => hnode (hc ▸ cf_list_linked.sentinel)
  have h2 : node ≠ (heap list).prev :=
    fun hc => hnode (hc ▸ cf_list_linked.prev list cf_list_linked.sentinel)
  intro m hm
  have hm2 : m = node ∨ (m ≠ node ∧ (heap (heap m).prev).next = m ∧ (heap (heap m).next).prev = m
      ∧ (heap m).prev ≠ node ∧ (heap m).next ≠ node) := by
    rcases cf_list_linked_push_back heap list node m hnode hm with h | h
    · exact Or.inl h
    · exact Or.inr ⟨fun hc => hnode (hc ▸ h), (hinv m h).2, (hinv m h).1,
        fun hc => hnode (hc ▸ cf_list_linked.prev m h),
        fun hc => hnode (hc ▸ cf_list_linked.next m h)⟩
  unfold cf_list_node_consistent
  rw [cf_list_push_back_prev heap list node _ h1, cf_list_push_back_next heap list node _ h1 h2,
    cf_list_push_back_next heap list node _ h1 h2, cf_list_push_back_prev heap list node _ h1]
  exact (push_links (fun k => (heap k).prev) (fun k => (heap k).next) list node m
    ⟨(hinv list cf_list_linked.sentinel).2, (hinv list cf_list_linked.sentinel).1⟩ h1 h2 hm2).symm

theorem cf_list_remove_consistent (heap : Nat → cf_list_node_t) (list node : Nat)
    (hinv : cf_list_consistent heap list) (hnode : cf_list_linked heap list node) :
    cf_list_consistent (cf_list_remove heap node) list := by
  intro m hm
  have hlm := cf_list_linked_remove heap list node m hnode hm
  unfold cf_list_node_consistent
  rw [cf_list_remove_prev, cf_list_remove_next, cf_list_remove_next, cf_list_remove_prev]
  exact ⟨remove_links (fun k => (heap k).next) (fun k => (heap k).prev) node m
      (hinv node hnode).1 (hinv m hlm).1,
    remove_links (fun k => (heap k).prev) (fun k => (heap k).next) node m
      (hinv node hnode).2 (hinv m hlm).2⟩

/-- C32: link consistency of the intrusive list. `cf_list_init` establishes
that `n.next.prev == n` and `n.prev.next == n` hold for the sentinel and every
node linked in the list; `cf_list_push_front` and `cf_list_push_back` of a
node that is not linked in the list preserve it, and the pushed node is
linked afterwards; `cf_list_remove` of a node linked in the list,
`cf_list_pop_front` and `cf_list_pop_back` preserve it. -/
theorem cf_list_link_consistency (heap : Nat → cf_list_node_t) (list node : Nat) :
    cf_list_consistent (cf_list_init heap list) list ∧
    (cf_list_consistent heap list → ¬ cf_list_linked heap list node →
      (cf_list_consistent (cf_list_push_front heap list node) list ∧
        cf_list_linked (cf_list_push_front heap list node) list node) ∧
      (cf_list_consistent (cf_list_push_back heap list node) list ∧
        cf_list_linked (cf_list_push_back heap list node) list node)) ∧
    (cf_list_consistent heap list → cf_list_linked heap list node →
      cf_list_consistent (cf_list_remove heap node) list) ∧
    (cf_list_consistent heap list →
      cf_list_consistent (cf_list_pop_front heap list).2 list ∧
      cf_list_consistent (cf_list_pop_back heap list).2 list) := by
  refine ⟨cf_list_init_consistent heap list, fun hinv hnode => ⟨⟨?_, ?_⟩, ⟨?_, ?_⟩⟩,
    fun hinv hnode => cf_list_remove_consistent heap list node hinv hnode,
    fun hinv => ⟨?_, ?_⟩⟩
  · exact cf_list_push_front_consistent heap list node hinv hnode
  · have h1 : node ≠ list := fun hc => hnode (hc ▸ cf_list_linked.sentinel)
    have h : cf_list_linked (cf_list_push_front heap list node) list
        (cf_list_push_front heap list node list).next :=
      cf_list_linked.next list cf_list_linked.sentinel
    rw [cf_list_push_front_next heap list node list h1, if_pos rfl] at h
    exact h
  · exact cf_list_push_back_consistent heap list node hinv hnode
  · have h1 : node ≠ list := fun hc => hnode (hc ▸ cf_list_linked.sentinel)
    have h : cf_list_linked (cf_list_push_back heap list node) list
        (cf_list_push_back heap list node list).prev :=
      cf_list_linked.prev list cf_list_linked.sentinel
    rw [cf_list_push_back_prev heap list node list h1, if_pos rfl] at h
    exact h
  · exact cf_list_remove_consistent heap list _ hinv
      (cf_list_linked.next list cf_list_linked.sentinel)
  · exact cf_list_remove_consistent heap list _ hinv
      (cf_list_linked.prev list cf_list_linked.sentinel)

/-- C32 on a worked input: the node at address 20 is not linked in the list
initialised at address 10; after `cf_list_push_front` the list is consistent,
the sentinel and the node point at each other, and `cf_list_pop_front`
returns the node and leaves a consistent, empty list. -/
theorem cf_list_link_consistency_witness :
    ¬ cf_list_linked (cf_list_init sample_list_heap 10) 10 20 ∧
    cf_list_consistent (cf_list_push_front (cf_list_init sample_list_heap 10) 10 20) 10 ∧
    cf_list_push_front (cf_list_init sample_list_heap 10) 10 20 10 = ⟨20, 20⟩ ∧
    cf_list_push_front (cf_list_init sample_list_heap 10) 10 20 20 = ⟨10, 10⟩ ∧
    (cf_list_pop_front (cf_list_push_front (cf_list_init sample_list_heap 10) 10 20) 10).1 = 20 ∧
    cf_list_consistent
      (cf_list_pop_front (cf_list_push_front (cf_list_init sample_list_heap 10) 10 20) 10).2 10 ∧
    cf_list_empty
      (cf_list_pop_front (cf_list_push_front (cf_list_init sample_list_heap 10) 10 20) 10).2 10
      = true :=
  have hnot : ¬ cf_list_linked (cf_list_init sample_list_heap 10) 10 20 :=
    fun h => absurd (cf_list_linked_init sample_list_heap 10 20 h) (by decide)
  have hinit := (cf_list_link_consistency sample_list_heap 10 20).1
  have hpush := ((cf_list_link_consistency (cf_list_init sample_list_heap 10) 10 20).2.1
    hinit hnot).1.1
  ⟨hnot, hpush, by decide, by decide, by decide,
    ((cf_list_link_consistency (cf_list_push_front (cf_list_init sample_list_heap 10) 10 20)
      10 20).2.2.2 hpush).1,
    by decide⟩

end Cute
